import Mathlib

/-!
The kernel semaphore table, the XOR cipher and the shared buffer of the xv6-riscv
enhancements

A shallow embedding of `kernel/semaphore.c`, `kernel/semaphore.h` and of the system calls
`sys_settickets`, `sys_encrypt`, `sys_decrypt`, `sys_buffer_init`, `sys_produce`,
`sys_consume` and `sys_buffer_status` of `kernel/sysproc.c`.

* The global array `semaphores[MAX_SEMAPHORES]` is a function from `Fin MAX_SEMAPHORES`
  to slots; a slot keeps the two `int` fields `value` and `allocated` (the spinlock only
  delimits the critical sections, each of which is one atomic step here).
* C `int`s are mathematical integers; the increments that can leave the 32-bit range
  (`value++` in `sem_post`, the indices and totals of the shared buffer) are reduced
  with `int_wrap`.
* `sleep` and `wakeup` live in `kernel/proc.c`, which is not among the sources; they are
  modelled from the specification's park / unpark contract on a per-thread state.
* `copyin` and `copyout` live in `kernel/vm.c`, which is not among the sources either;
  they are modelled from the specification's byte-exact transfer contract.
-/

namespace Xv6

/-! ## Data model -/

/-- Capacity of the table: `#define MAX_SEMAPHORES 64`. -/
abbrev MAX_SEMAPHORES : Nat := 64

/-- Largest value of a 32-bit C `int`. -/
def INT_MAX : Int := 2147483647

/-- Smallest value of a 32-bit C `int`. -/
def INT_MIN : Int := -2147483648

/-- Two's-complement reduction of an integer to the range of a 32-bit C `int`. -/
def int_wrap (x : Int) : Int := (x + 2147483648) % 4294967296 - 2147483648

/-- The fields of `struct semaphore` other than the lock. -/
structure semaphore where
  value : Int
  allocated : Int
deriving DecidableEq, Repr

/-- Sleep channels. `sem i` stands for the address `&semaphores[i]`; `other a` is any
other kernel address a thread may sleep on. -/
inductive Chan where
  | sem (i : Fin MAX_SEMAPHORES)
  | other (a : Nat)
deriving DecidableEq, Repr

/-- Modelled from the spec: the scheduling state of a thread as seen by the sleep/wakeup
substrate (`kernel/proc.c` is missing). A thread is `running`, or `parked c` (suspended
by `sleep` on channel `c`), or `resumed c` (made runnable by `wakeup c`, it has yet to
reacquire the lock and return from `sleep`). -/
inductive ThreadState where
  | running
  | parked (c : Chan)
  | resumed (c : Chan)
deriving DecidableEq, Repr

/-- Kernel state seen by the semaphore service: the table and the threads. -/
structure Kernel where
  semaphores : Fin MAX_SEMAPHORES → semaphore
  proc : Nat → ThreadState

/-- Assignment `semaphores[i] = s`. -/
def Kernel.store (k : Kernel) (i : Fin MAX_SEMAPHORES) (s : semaphore) : Kernel :=
  { k with semaphores := fun j => if j = i then s else k.semaphores j }

/-! ## The sleep/wakeup substrate -/

/-- Modelled from the spec: `sleep(chan, lk)` of the missing `kernel/proc.c`, the
specification's `park(channel, lock)`: the calling thread `p` is suspended on `chan`. -/
def sleep (p : Nat) (chan : Chan) (k : Kernel) : Kernel :=
  { k with proc := fun q => if q = p then ThreadState.parked chan else k.proc q }

/-- Modelled from the spec: `wakeup(chan)` of the missing `kernel/proc.c`, the
specification's `unpark_all(channel)`: every thread parked on `chan` is resumed. -/
def wakeup (chan : Chan) (k : Kernel) : Kernel :=
  { k with proc := fun q =>
      if k.proc q = ThreadState.parked chan then ThreadState.resumed chan else k.proc q }

/-! ## The operations of `kernel/semaphore.c` -/

/-- The loop of `seminit` from index `i` on; `fuel` bounds the iterations left. -/
def seminit_loop : Nat → Nat → Kernel → Kernel
  | 0, _, k => k
  | fuel + 1, i, k =>
    if h : i < MAX_SEMAPHORES then
      seminit_loop fuel (i + 1) (k.store ⟨i, h⟩ { value := 0, allocated := 0 })
    else k

/-- The function `seminit()`: every slot gets `value = 0`, `allocated = 0`. -/
def seminit (k : Kernel) : Kernel := seminit_loop MAX_SEMAPHORES 0 k

/-- The scan of `sem_init` from index `i` on; `fuel` bounds the iterations left. -/
def sem_init_loop (value : Int) (k : Kernel) : Nat → Nat → Int × Kernel
  | 0, _ => (-1, k)
  | fuel + 1, i =>
    if h : i < MAX_SEMAPHORES then
      if (k.semaphores ⟨i, h⟩).allocated = 0 then
        ((i : Int), k.store ⟨i, h⟩ { value := value, allocated := 1 })
      else sem_init_loop value k fuel (i + 1)
    else (-1, k)

/-- The function `sem_init(value)`: first free slot, or `-1`. -/
def sem_init (value : Int) (k : Kernel) : Int × Kernel :=
  sem_init_loop value k MAX_SEMAPHORES 0

/-- The tail of `sem_wait` entered with the slot lock held, which is also where a
resumed thread continues: `while(value <= 0) sleep(...); value--; return 0`. One pass:
either the caller parks (result `none`; on resumption the pass is run again), or it
decrements and returns `0`. -/
def sem_wait_loop (p : Nat) (i : Fin MAX_SEMAPHORES) (k : Kernel) : Option Int × Kernel :=
  if (k.semaphores i).value ≤ 0 then
    (none, sleep p (Chan.sem i) k)
  else
    (some 0, k.store i { k.semaphores i with value := (k.semaphores i).value - 1 })

/-- The function `sem_wait(sem_id)` called by thread `p`; `none` means that the caller is parked. -/
def sem_wait (p : Nat) (sem_id : Int) (k : Kernel) : Option Int × Kernel :=
  if h : sem_id < 0 ∨ sem_id ≥ (MAX_SEMAPHORES : Int) then (some (-1), k)
  else
    let i : Fin MAX_SEMAPHORES := ⟨sem_id.toNat, by
      have h1 := not_or.mp h
      omega⟩
    if (k.semaphores i).allocated = 0 then (some (-1), k)
    else sem_wait_loop p i k

/-- A thread `p` resumed on the channel of slot `i` returns from `sleep` inside
`sem_wait` and re-evaluates the loop condition. Other threads are not inside `sem_wait`:
nothing happens. -/
def sem_wait_resume (p : Nat) (k : Kernel) : Option Int × Kernel :=
  match k.proc p with
  | ThreadState.resumed (Chan.sem i) =>
    sem_wait_loop p i { k with proc := fun q => if q = p then ThreadState.running else k.proc q }
  | _ => (none, k)

/-- The function `sem_post(sem_id)`. -/
def sem_post (sem_id : Int) (k : Kernel) : Int × Kernel :=
  if h : sem_id < 0 ∨ sem_id ≥ (MAX_SEMAPHORES : Int) then (-1, k)
  else
    let i : Fin MAX_SEMAPHORES := ⟨sem_id.toNat, by
      have h1 := not_or.mp h
      omega⟩
    if (k.semaphores i).allocated = 0 then (-1, k)
    else
      (0, wakeup (Chan.sem i)
            (k.store i { k.semaphores i with value := int_wrap ((k.semaphores i).value + 1) }))

/-- The function `sem_destroy(sem_id)`. -/
def sem_destroy (sem_id : Int) (k : Kernel) : Int × Kernel :=
  if h : sem_id < 0 ∨ sem_id ≥ (MAX_SEMAPHORES : Int) then (-1, k)
  else
    let i : Fin MAX_SEMAPHORES := ⟨sem_id.toNat, by
      have h1 := not_or.mp h
      omega⟩
    if (k.semaphores i).allocated = 0 then (-1, k)
    else (0, k.store i { value := 0, allocated := 0 })

/-- The table with every slot free and no thread suspended. -/
def boot : Kernel :=
  { semaphores := fun _ => { value := 0, allocated := 0 },
    proc := fun _ => ThreadState.running }

/-! ## Sequences of calls -/

/-- One atomic step of the system: a call of one of the four operations, or a thread
resumed by `wakeup` returning from `sleep` inside `sem_wait`. -/
inductive Op where
  | init (value : Int)
  | wait (p : Nat) (sem_id : Int)
  | post (sem_id : Int)
  | destroy (sem_id : Int)
  | resume (p : Nat)
deriving DecidableEq, Repr

/-- Effect of one step: the value returned to the caller, if it returns, and the next
state. Only a running thread can issue `sem_wait`. -/
def step (op : Op) (k : Kernel) : Option Int × Kernel :=
  match op with
  | Op.init v => (some (sem_init v k).1, (sem_init v k).2)
  | Op.wait p h => if k.proc p = ThreadState.running then sem_wait p h k else (none, k)
  | Op.post h => (some (sem_post h k).1, (sem_post h k).2)
  | Op.destroy h => (some (sem_destroy h k).1, (sem_destroy h k).2)
  | Op.resume p => sem_wait_resume p k

/-- State after a sequence of steps. -/
def run : List Op → Kernel → Kernel
  | [], k => k
  | op :: ops, k => run ops (step op k).2

/-- Whether the step is a `sem_destroy` call. -/
def Op.isDestroy : Op → Bool
  | Op.destroy _ => true
  | _ => false

/-- Whether the step is a `sem_init` call. -/
def Op.isInit : Op → Bool
  | Op.init _ => true
  | _ => false

/-- Whether the step is a `sem_init` call that returns a handle in state `k`. -/
def init_returned (op : Op) (k : Kernel) : Bool :=
  match op with
  | Op.init v => decide (0 ≤ (sem_init v k).1)
  | _ => false

/-- Number of `sem_init` calls of the sequence that return a handle. -/
def init_successes : List Op → Kernel → Nat
  | [], _ => 0
  | op :: ops, k =>
    (if init_returned op k then 1 else 0) + init_successes ops (step op k).2

/-- Whether the step is a `sem_wait` on handle `i` that returns `0` in state `k`: either
a call that finds a positive value, or a parked call of `sem_wait(i)` that is resumed,
finds a positive value and returns. -/
def wait_returned (i : Fin MAX_SEMAPHORES) (op : Op) (k : Kernel) : Bool :=
  match op with
  | Op.wait _ h => decide (h = (i.val : Int)) && decide ((step op k).1 = some 0)
  | Op.resume p =>
    decide (k.proc p = ThreadState.resumed (Chan.sem i)) && decide ((step op k).1 = some 0)
  | _ => false

/-- Whether the step is a `sem_post` on handle `i` that returns `0` in state `k`. -/
def post_returned (i : Fin MAX_SEMAPHORES) (op : Op) (k : Kernel) : Bool :=
  match op with
  | Op.post h => decide (h = (i.val : Int)) && decide ((sem_post h k).1 = 0)
  | _ => false

/-- Number of `sem_wait(i)` calls that return `0` along the sequence. -/
def wait_successes (i : Fin MAX_SEMAPHORES) : List Op → Kernel → Nat
  | [], _ => 0
  | op :: ops, k =>
    (if wait_returned i op k then 1 else 0) + wait_successes i ops (step op k).2

/-- Number of `sem_post(i)` calls that return `0` along the sequence. -/
def post_successes (i : Fin MAX_SEMAPHORES) : List Op → Kernel → Nat
  | [], _ => 0
  | op :: ops, k =>
    (if post_returned i op k then 1 else 0) + post_successes i ops (step op k).2

/-- No `sem_post(i)` of the sequence is issued while slot `i` holds `INT_MAX`. -/
def post_in_range (i : Fin MAX_SEMAPHORES) : List Op → Kernel → Bool
  | [], _ => true
  | op :: ops, k =>
    (decide (op ≠ Op.post (i.val : Int)) || decide ((k.semaphores i).value < INT_MAX))
      && post_in_range i ops (step op k).2

/-- Whether the step is not a `sem_init` call with a negative start value. -/
def Op.startNonneg : Op → Bool
  | Op.init v => decide (0 ≤ v)
  | _ => true

/-- Number of allocated slots. -/
def allocated_count (k : Kernel) : Nat :=
  (Finset.univ.filter (fun j : Fin MAX_SEMAPHORES => (k.semaphores j).allocated ≠ 0)).card

/-! ## User memory and the XOR cipher of `kernel/sysproc.c` -/

/-- Modelled from the spec: the user address space behind `copyin` and `copyout`
(`kernel/vm.c` is missing). Every virtual address holds a byte; `mapped` tells which
addresses the process may access. -/
structure UserMem where
  byte : Nat → Fin 256
  mapped : Nat → Bool

/-- Memory after the bytes `src` are stored from address `va` on. -/
def UserMem.write (m : UserMem) (va : Nat) (src : List (Fin 256)) : UserMem :=
  { m with byte := fun a => if va ≤ a then src.getD (a - va) (m.byte a) else m.byte a }

/-- Modelled from the spec: `copyin(pagetable, dst, srcva, len)` of the missing
`kernel/vm.c`, a byte-exact transfer from user memory; it fails (`none`, the C function
returns `-1`) when an address of the range is not mapped. -/
def copyin (m : UserMem) (srcva len : Nat) : Option (List (Fin 256)) :=
  if ∀ j < len, m.mapped (srcva + j) = true then
    some ((List.range len).map (fun j => m.byte (srcva + j)))
  else none

/-- Modelled from the spec: `copyout(pagetable, dstva, src, len)` of the missing
`kernel/vm.c`, a byte-exact transfer to user memory; it fails (`none`, the C function
returns `-1`) when an address of the range is not mapped. What a failing copy leaves in
memory is not specified; callers below keep the memory they had. -/
def copyout (m : UserMem) (dstva : Nat) (src : List (Fin 256)) : Option UserMem :=
  if ∀ j < src.length, m.mapped (dstva + j) = true then some (m.write dstva src) else none

/-- The cipher key: `#define ENCRYPT_KEY 0x5A`. -/
def ENCRYPT_KEY : Nat := 0x5A

/-- The assignment `buf[i] = buf[i] ^ ENCRYPT_KEY` on one `char`. -/
def xor_key (b : Fin 256) : Fin 256 :=
  ⟨(b.val ^^^ ENCRYPT_KEY) % 256, Nat.mod_lt _ (by decide)⟩

/-- The `while(processed < len)` loop of `sys_encrypt`; `fuel` bounds the iterations
left. The address `addr + processed` is computed in `uint64`. The result is the value
returned to the user and the memory. -/
def sys_encrypt_loop (addr : Nat) (len : Int) : Nat → Int → UserMem → Int × UserMem
  | 0, _, m => (len, m)
  | fuel + 1, processed, m =>
    if processed < len then
      let chunk : Int := if len - processed > 512 then 512 else len - processed
      match copyin m ((addr + processed.toNat) % 2 ^ 64) chunk.toNat with
      | none => (-1, m)
      | some buf =>
        match copyout m ((addr + processed.toNat) % 2 ^ 64) (buf.map xor_key) with
        | none => (-1, m)
        | some m2 => sys_encrypt_loop addr len fuel (processed + chunk) m2
    else (len, m)

/-- The system call `sys_encrypt` with arguments `addr` (a `uint64`) and `len` (an `int`).
Every iteration handles at least one byte, so `len` iterations are enough. -/
def sys_encrypt (addr : Nat) (len : Int) (m : UserMem) : Int × UserMem :=
  if len ≤ 0 ∨ len > 4096 then (-1, m)
  else sys_encrypt_loop addr len len.toNat 0 m

/-- The system call `sys_decrypt`: `return sys_encrypt();`. -/
def sys_decrypt (addr : Nat) (len : Int) (m : UserMem) : Int × UserMem :=
  sys_encrypt addr len m

/-- A user memory with the first 8192 addresses mapped, holding the address modulo 256. -/
def user_mem : UserMem :=
  { byte := fun a => ⟨a % 256, Nat.mod_lt _ (by decide)⟩,
    mapped := fun a => decide (a < 8192) }

/-! ## The shared buffer of `kernel/sysproc.c` -/

/-- Number of items the buffer holds: `#define BUFFER_SIZE 10`. -/
abbrev BUFFER_SIZE : Nat := 10

/-- The fields of the global `sharedbuf` other than the lock; `in_` is the field `in`. -/
structure SharedBuf where
  buffer : Fin BUFFER_SIZE → Int
  count : Int
  in_ : Int
  out : Int
  initialized : Int
  produced_total : Int
  consumed_total : Int

/-- The loop `for(i = 0; i < BUFFER_SIZE; i++) buffer[i] = 0` from index `i` on. -/
def buffer_init_loop : Nat → Nat → (Fin BUFFER_SIZE → Int) → (Fin BUFFER_SIZE → Int)
  | 0, _, b => b
  | fuel + 1, i, b =>
    if h : i < BUFFER_SIZE then
      buffer_init_loop fuel (i + 1) (fun j => if j = ⟨i, h⟩ then 0 else b j)
    else b

/-- The system call `sys_buffer_init`. -/
def sys_buffer_init (s : SharedBuf) : Int × SharedBuf :=
  (0, { buffer := buffer_init_loop BUFFER_SIZE 0 s.buffer,
        count := 0, in_ := 0, out := 0,
        produced_total := 0, consumed_total := 0, initialized := 1 })

/-- The system call `sys_produce` with argument `item`. The C remainder truncates towards
zero; `count++` runs below `BUFFER_SIZE` and cannot overflow. -/
def sys_produce (item : Int) (s : SharedBuf) : Int × SharedBuf :=
  if s.initialized = 0 then (-2, s)
  else if s.count ≥ (BUFFER_SIZE : Int) then (-1, s)
  else
    (0, { s with
          buffer := fun j => if (j.val : Int) = s.in_ then item else s.buffer j,
          in_ := Int.tmod (int_wrap (s.in_ + 1)) (BUFFER_SIZE : Int),
          count := s.count + 1,
          produced_total := int_wrap (s.produced_total + 1) })

/-- The read `sharedbuf.buffer[i]`; an index outside the array, which no state reached
from `sys_buffer_init` has, reads as 0. -/
def SharedBuf.read (s : SharedBuf) (i : Int) : Int :=
  if h : 0 ≤ i ∧ i < (BUFFER_SIZE : Int) then s.buffer ⟨i.toNat, by omega⟩ else 0

/-- The four bytes of an `int` in memory, least significant first. -/
def int_bytes (x : Int) : List (Fin 256) :=
  (List.range 4).map (fun j =>
    ⟨((x % 4294967296).toNat / 256 ^ j) % 256, Nat.mod_lt _ (by decide)⟩)

/-- The system call `sys_consume` with argument `item_addr`. The buffer is updated before
the item is copied out; `count--` runs above 0 and cannot overflow. -/
def sys_consume (item_addr : Nat) (s : SharedBuf) (m : UserMem) : Int × SharedBuf × UserMem :=
  if s.initialized = 0 then (-2, s, m)
  else if s.count ≤ 0 then (-1, s, m)
  else
    match copyout m item_addr (int_bytes (s.read s.out)) with
    | none =>
      (-3, { s with
             out := Int.tmod (int_wrap (s.out + 1)) (BUFFER_SIZE : Int),
             count := s.count - 1,
             consumed_total := int_wrap (s.consumed_total + 1) }, m)
    | some m2 =>
      (0, { s with
            out := Int.tmod (int_wrap (s.out + 1)) (BUFFER_SIZE : Int),
            count := s.count - 1,
            consumed_total := int_wrap (s.consumed_total + 1) }, m2)

/-- A call on the shared buffer. -/
inductive BufOp where
  | binit
  | produce (item : Int)
  | consume (item_addr : Nat)
deriving DecidableEq, Repr

/-- Effect of one call on the shared buffer and the user memory, with its result. -/
def buf_step (op : BufOp) (st : SharedBuf × UserMem) : Int × (SharedBuf × UserMem) :=
  match op with
  | BufOp.binit => ((sys_buffer_init st.1).1, ((sys_buffer_init st.1).2, st.2))
  | BufOp.produce item => ((sys_produce item st.1).1, ((sys_produce item st.1).2, st.2))
  | BufOp.consume a =>
    ((sys_consume a st.1 st.2).1, ((sys_consume a st.1 st.2).2.1, (sys_consume a st.1 st.2).2.2))

/-- Results and final state of a sequence of calls on the shared buffer. -/
def buf_run : List BufOp → SharedBuf × UserMem → List Int × (SharedBuf × UserMem)
  | [], st => ([], st)
  | op :: ops, st =>
    ((buf_step op st).1 :: (buf_run ops (buf_step op st).2).1,
      (buf_run ops (buf_step op st).2).2)

/-- A buffer that was never initialised, with arbitrary contents. -/
def stale_buf : SharedBuf :=
  { buffer := fun _ => 7, count := 3, in_ := 4, out := 1, initialized := 0,
    produced_total := 9, consumed_total := 6 }

/-! ## Accounting and order of the shared buffer -/

/-- The system call `sys_buffer_status` with its three address arguments: the three
counters are read, then copied out one after the other; the first failing copy ends
the call with `-1`. -/
def sys_buffer_status (count_addr produced_addr consumed_addr : Nat) (s : SharedBuf)
    (m : UserMem) : Int × UserMem :=
  match copyout m count_addr (int_bytes s.count) with
  | none => (-1, m)
  | some m1 =>
    match copyout m1 produced_addr (int_bytes s.produced_total) with
    | none => (-1, m1)
    | some m2 =>
      match copyout m2 consumed_addr (int_bytes s.consumed_total) with
      | none => (-1, m2)
      | some m3 => (0, m3)

/-- Whether the call is a `sys_produce` that returns `0` in the state. -/
def produce_returned (op : BufOp) (st : SharedBuf × UserMem) : Bool :=
  match op with
  | BufOp.produce item => decide ((sys_produce item st.1).1 = 0)
  | _ => false

/-- Whether the call is a `sys_consume` that returns `0` in the state. -/
def consume_returned (op : BufOp) (st : SharedBuf × UserMem) : Bool :=
  match op with
  | BufOp.consume a => decide ((sys_consume a st.1 st.2).1 = 0)
  | _ => false

/-- Number of `sys_produce` calls of the sequence that return `0`. -/
def produce_successes : List BufOp → SharedBuf × UserMem → Nat
  | [], _ => 0
  | op :: ops, st =>
    (if produce_returned op st then 1 else 0) + produce_successes ops (buf_step op st).2

/-- Number of `sys_consume` calls of the sequence that return `0`. -/
def consume_successes : List BufOp → SharedBuf × UserMem → Nat
  | [], _ => 0
  | op :: ops, st =>
    (if consume_returned op st then 1 else 0) + consume_successes ops (buf_step op st).2

/-- The items passed to the `sys_produce` calls of the sequence that return `0`, in the
order of the calls. -/
def produced_items : List BufOp → SharedBuf × UserMem → List Int
  | [], _ => []
  | op :: ops, st =>
    (match op with
      | BufOp.produce item => if produce_returned op st then [item] else []
      | _ => []) ++ produced_items ops (buf_step op st).2

/-- What the `sys_consume` calls of the sequence that return `0` deliver, in the order
of the calls: the four bytes found at `item_addr` when the call has returned. -/
def delivered : List BufOp → SharedBuf × UserMem → List (List (Fin 256))
  | [], _ => []
  | op :: ops, st =>
    (match op with
      | BufOp.consume a =>
        if consume_returned op st then
          [(List.range 4).map (fun j => (buf_step op st).2.2.byte (a + j))]
        else []
      | _ => []) ++ delivered ops (buf_step op st).2

/-- The sequence of `n` rounds of one `sys_produce(7)` and one `sys_consume` to
address 16. -/
def produce_consume_rounds : Nat → List BufOp
  | 0 => []
  | n + 1 => BufOp.produce 7 :: BufOp.consume 16 :: produce_consume_rounds n

/-- The buffer `s` is initialised and holds exactly the items of `q`, oldest first: they
sit at the indices `out`, `out + 1`, ... modulo `BUFFER_SIZE`, and `in_` is the index
after the last of them. -/
def fifo_inv (s : SharedBuf) (q : List Int) : Prop :=
  s.initialized ≠ 0 ∧ 0 ≤ s.out ∧ s.out < 10 ∧ s.count = (q.length : Int) ∧ q.length ≤ 10 ∧
  s.in_ = (s.out + s.count) % 10 ∧
  ∀ k : Nat, k < q.length → q[k]? = some (s.read ((s.out + (k : Int)) % 10))

/-! ## The order of effects in `sem_post` -/

/-- The effects of a semaphore operation that other threads can observe, in the order
of the statements that cause them. -/
inductive Effect where
  | acquire (i : Fin MAX_SEMAPHORES)
  | increment (i : Fin MAX_SEMAPHORES)
  | wakeup (c : Chan)
  | release (i : Fin MAX_SEMAPHORES)
deriving DecidableEq, Repr

/-- The function `sem_post(sem_id)` once more, statement by statement, with the list of
its effects next to the result and the state: `acquire`, then on a free slot `release`,
otherwise `value++`, `wakeup`, `release`. -/
def sem_post_trace (sem_id : Int) (k : Kernel) : Int × Kernel × List Effect :=
  if h : sem_id < 0 ∨ sem_id ≥ (MAX_SEMAPHORES : Int) then (-1, k, [])
  else
    let i : Fin MAX_SEMAPHORES := ⟨sem_id.toNat, by
      have h1 := not_or.mp h
      omega⟩
    if (k.semaphores i).allocated = 0 then (-1, k, [Effect.acquire i, Effect.release i])
    else
      (0, wakeup (Chan.sem i)
            (k.store i { k.semaphores i with value := int_wrap ((k.semaphores i).value + 1) }),
        [Effect.acquire i, Effect.increment i, Effect.wakeup (Chan.sem i), Effect.release i])

/-- Whether the lock of slot `i` is held after the effects of the list. -/
def lock_held (i : Fin MAX_SEMAPHORES) (es : List Effect) : Bool :=
  es.foldl (fun held e =>
    if e = Effect.acquire i then true else if e = Effect.release i then false else held) false

/-! ## Tickets -/

/-- The fields of `struct proc` that `kernel/sysproc.c` reads or writes for the calling
process; the declaration is in `kernel/proc.h`, which is not among the sources. -/
structure Proc where
  pid : Int
  tickets : Int
deriving DecidableEq, Repr

/-- The system call `sys_settickets` with argument `n`, called by the process `p`
(`myproc()`): the value returned and the process afterwards. -/
def sys_settickets (n : Int) (p : Proc) : Int × Proc :=
  (0, { p with tickets := if n < 1 then 1 else n })

/-! ## The cipher as one pass -/

/-- The single pass of the cipher, written from its description and not from the loop:
each of the first `len` bytes of the buffer at `addr` is XORed with `0x5A`; every byte
at an offset of `len` or more, and every byte outside the buffer, is left as it is. -/
def xor_single_pass (addr len : Nat) (m : UserMem) : UserMem :=
  { m with byte := fun a =>
      if addr ≤ a ∧ a - addr < len then
        ⟨(m.byte a).val ^^^ 0x5A, @Nat.xor_lt_two_pow _ _ 8 (m.byte a).isLt (by decide)⟩
      else m.byte a }

/-! ## The scan of `sem_init` -/

/-- Outcome of the scan started at index `i` with exactly the iterations left that the
`for` loop has: either every slot from `i` on is allocated and the scan fails without a
write, or it stops at the first free slot from `i` on and allocates it. -/
theorem sem_init_loop_spec (v : Int) (k : Kernel) :
    ∀ fuel i : Nat, i + fuel = MAX_SEMAPHORES →
      ((∀ j : Fin MAX_SEMAPHORES, i ≤ j.val → (k.semaphores j).allocated ≠ 0) ∧
          sem_init_loop v k fuel i = (-1, k)) ∨
      (∃ j : Fin MAX_SEMAPHORES, i ≤ j.val ∧ (k.semaphores j).allocated = 0 ∧
          (∀ j2 : Fin MAX_SEMAPHORES, i ≤ j2.val → j2.val < j.val →
            (k.semaphores j2).allocated ≠ 0) ∧
          sem_init_loop v k fuel i = ((j.val : Int), k.store j { value := v, allocated := 1 })) := by
  intro fuel
  induction fuel with
  | zero =>
    intro i hi
    left
    refine ⟨?_, rfl⟩
    intro j hj
    have := j.isLt
    omega
  | succ n ih =>
    intro i hi
    have hlt : i < MAX_SEMAPHORES := by omega
    by_cases hfree : (k.semaphores ⟨i, hlt⟩).allocated = 0
    · right
      refine ⟨⟨i, hlt⟩, le_refl _, hfree, ?_, ?_⟩
      · intro j2 h1 h2
        simp only at h2
        omega
      · simp [sem_init_loop, hlt, hfree]
    · have hstep : sem_init_loop v k (n + 1) i = sem_init_loop v k n (i + 1) := by
        simp [sem_init_loop, hlt, hfree]
      rcases ih (i + 1) (by omega) with ⟨hall, hres⟩ | ⟨j, hij, hj, hmin, hres⟩
      · left
        refine ⟨?_, by rw [hstep, hres]⟩
        intro j hj
        by_cases hji : j.val = i
        · have : j = ⟨i, hlt⟩ := Fin.ext hji
          rw [this]
          exact hfree
        · exact hall j (by omega)
      · right
        refine ⟨j, by omega, hj, ?_, by rw [hstep, hres]⟩
        intro j2 h1 h2
        by_cases hji : j2.val = i
        · have : j2 = ⟨i, hlt⟩ := Fin.ext hji
          rw [this]
          exact hfree
        · exact hmin j2 (by omega) h2

/-- Outcome of `sem_init` on any table. -/
theorem sem_init_cases (v : Int) (k : Kernel) :
    ((∀ j : Fin MAX_SEMAPHORES, (k.semaphores j).allocated ≠ 0) ∧ sem_init v k = (-1, k)) ∨
    (∃ j : Fin MAX_SEMAPHORES, (k.semaphores j).allocated = 0 ∧
        (∀ j2 : Fin MAX_SEMAPHORES, j2.val < j.val → (k.semaphores j2).allocated ≠ 0) ∧
        sem_init v k = ((j.val : Int), k.store j { value := v, allocated := 1 })) := by
  rcases sem_init_loop_spec v k MAX_SEMAPHORES 0 (by simp) with ⟨hall, hres⟩ | ⟨j, _, hj, hmin, hres⟩
  · exact Or.inl ⟨fun j => hall j (Nat.zero_le _), hres⟩
  · exact Or.inr ⟨j, hj, fun j2 h => hmin j2 (Nat.zero_le _) h, hres⟩

/-! ## Calls with a handle inside `[0, MAX_SEMAPHORES)` -/

/-- A handle that is the index of a slot passes the range check. -/
theorem handle_in_range (i : Fin MAX_SEMAPHORES) :
    ¬ ((i.val : Int) < 0 ∨ (i.val : Int) ≥ (MAX_SEMAPHORES : Int)) := by
  have := i.isLt
  omega

/-- The function `sem_wait` on an in-range handle: allocation check, then the loop. -/
theorem sem_wait_valid (p : Nat) (i : Fin MAX_SEMAPHORES) (k : Kernel) :
    sem_wait p (i.val : Int) k =
      if (k.semaphores i).allocated = 0 then (some (-1), k) else sem_wait_loop p i k := by
  unfold sem_wait
  rw [dif_neg (handle_in_range i)]
  simp

/-- The function `sem_post` on an in-range handle: allocation check, then increment and wake-up. -/
theorem sem_post_valid (i : Fin MAX_SEMAPHORES) (k : Kernel) :
    sem_post (i.val : Int) k =
      if (k.semaphores i).allocated = 0 then (-1, k)
      else (0, wakeup (Chan.sem i)
        (k.store i { k.semaphores i with value := int_wrap ((k.semaphores i).value + 1) })) := by
  unfold sem_post
  rw [dif_neg (handle_in_range i)]
  simp

/-- The function `sem_destroy` on an in-range handle: allocation check, then the slot is cleared. -/
theorem sem_destroy_valid (i : Fin MAX_SEMAPHORES) (k : Kernel) :
    sem_destroy (i.val : Int) k =
      if (k.semaphores i).allocated = 0 then (-1, k)
      else (0, k.store i { value := 0, allocated := 0 }) := by
  unfold sem_destroy
  rw [dif_neg (handle_in_range i)]
  simp

/-- No wrap-around when a 32-bit value below `INT_MAX` is incremented. -/
theorem int_wrap_succ (x : Int) (hlo : INT_MIN ≤ x) (hhi : x < INT_MAX) :
    int_wrap (x + 1) = x + 1 := by
  unfold INT_MIN at hlo
  unfold INT_MAX at hhi
  unfold int_wrap
  omega

/-! ## Allocation flags along a sequence of calls -/

/-- One pass of the `sem_wait` loop writes no `allocated` field. -/
theorem sem_wait_loop_allocated (p : Nat) (i : Fin MAX_SEMAPHORES) (k : Kernel)
    (j : Fin MAX_SEMAPHORES) :
    ((sem_wait_loop p i k).2.semaphores j).allocated = (k.semaphores j).allocated := by
  unfold sem_wait_loop
  split
  · rfl
  · by_cases hj : j = i
    · subst hj
      simp [Kernel.store]
    · simp [Kernel.store, hj]

/-- The function `sem_wait` writes no `allocated` field. -/
theorem sem_wait_allocated (p : Nat) (h : Int) (k : Kernel) (j : Fin MAX_SEMAPHORES) :
    ((sem_wait p h k).2.semaphores j).allocated = (k.semaphores j).allocated := by
  unfold sem_wait
  split
  · rfl
  · simp only
    split
    · rfl
    · exact sem_wait_loop_allocated _ _ _ _

/-- A resumed waiter writes no `allocated` field. -/
theorem sem_wait_resume_allocated (p : Nat) (k : Kernel) (j : Fin MAX_SEMAPHORES) :
    ((sem_wait_resume p k).2.semaphores j).allocated = (k.semaphores j).allocated := by
  unfold sem_wait_resume
  split
  · exact sem_wait_loop_allocated _ _ _ _
  · rfl

/-- The function `sem_post` writes no `allocated` field. -/
theorem sem_post_allocated (h : Int) (k : Kernel) (j : Fin MAX_SEMAPHORES) :
    ((sem_post h k).2.semaphores j).allocated = (k.semaphores j).allocated := by
  unfold sem_post
  split
  · rfl
  · simp only
    split
    · rfl
    · by_cases hj : j = ⟨h.toNat, by omega⟩
      · subst hj
        simp [wakeup, Kernel.store]
      · simp [wakeup, Kernel.store, hj]

/-- A step that is neither `sem_init` nor `sem_destroy` writes no `allocated` field. -/
theorem step_allocated (op : Op) (k : Kernel) (hi : op.isInit = false)
    (hd : op.isDestroy = false) (j : Fin MAX_SEMAPHORES) :
    ((step op k).2.semaphores j).allocated = (k.semaphores j).allocated := by
  cases op with
  | init v => simp [Op.isInit] at hi
  | wait p h =>
    unfold step
    simp only
    split
    · exact sem_wait_allocated _ _ _ _
    · rfl
  | post h => exact sem_post_allocated _ _ _
  | destroy h => simp [Op.isDestroy] at hd
  | resume p => exact sem_wait_resume_allocated _ _ _

/-- A sequence without `sem_init` and `sem_destroy` writes no `allocated` field. -/
theorem run_allocated (ops : List Op) :
    ∀ k : Kernel, (∀ op ∈ ops, op.isInit = false ∧ op.isDestroy = false) →
      ∀ j : Fin MAX_SEMAPHORES,
        ((run ops k).semaphores j).allocated = (k.semaphores j).allocated := by
  induction ops with
  | nil => intro k _ j; rfl
  | cons op ops ih =>
    intro k hops j
    have h1 := hops op (List.mem_cons_self _ _)
    have h2 : ∀ o ∈ ops, o.isInit = false ∧ o.isDestroy = false :=
      fun o ho => hops o (List.mem_cons_of_mem _ ho)
    show ((run ops (step op k).2).semaphores j).allocated = _
    rw [ih (step op k).2 h2 j, step_allocated op k h1.1 h1.2 j]

/-- The number of allocated slots depends on the `allocated` fields only. -/
theorem allocated_count_congr (k1 k2 : Kernel)
    (h : ∀ j, (k1.semaphores j).allocated = (k2.semaphores j).allocated) :
    allocated_count k1 = allocated_count k2 := by
  unfold allocated_count
  congr 1
  apply Finset.filter_congr
  intro j _
  rw [h j]

/-- Allocating a free slot raises the number of allocated slots by one. -/
theorem allocated_count_store (k : Kernel) (i : Fin MAX_SEMAPHORES) (s : semaphore)
    (hfree : (k.semaphores i).allocated = 0) (hs : s.allocated ≠ 0) :
    allocated_count (k.store i s) = allocated_count k + 1 := by
  unfold allocated_count
  have hset : (Finset.univ.filter
        (fun j : Fin MAX_SEMAPHORES => ((k.store i s).semaphores j).allocated ≠ 0))
      = insert i (Finset.univ.filter
        (fun j : Fin MAX_SEMAPHORES => (k.semaphores j).allocated ≠ 0)) := by
    ext j
    by_cases hj : j = i
    · subst hj
      simp [Kernel.store, hs]
    · simp [Kernel.store, hj]
  rw [hset, Finset.card_insert_of_not_mem]
  simp [hfree]

/-- The table has `MAX_SEMAPHORES` slots. -/
theorem allocated_count_le (k : Kernel) : allocated_count k ≤ MAX_SEMAPHORES := by
  unfold allocated_count
  calc (Finset.univ.filter
          (fun j : Fin MAX_SEMAPHORES => (k.semaphores j).allocated ≠ 0)).card
      ≤ (Finset.univ : Finset (Fin MAX_SEMAPHORES)).card := Finset.card_filter_le _ _
    _ = MAX_SEMAPHORES := by simp

/-- A table with `MAX_SEMAPHORES` allocated slots has no free slot. -/
theorem full_of_allocated_count (k : Kernel) (h : allocated_count k = MAX_SEMAPHORES) :
    ∀ j : Fin MAX_SEMAPHORES, (k.semaphores j).allocated ≠ 0 := by
  unfold allocated_count at h
  have huniv : (Finset.univ.filter
      (fun j : Fin MAX_SEMAPHORES => (k.semaphores j).allocated ≠ 0)) = Finset.univ := by
    apply Finset.eq_univ_of_card
    rw [h]
    simp
  intro j
  have hj : j ∈ Finset.univ.filter
      (fun j : Fin MAX_SEMAPHORES => (k.semaphores j).allocated ≠ 0) := by
    rw [huniv]
    exact Finset.mem_univ j
  exact (Finset.mem_filter.mp hj).2

/-- A step other than `sem_destroy` raises the number of allocated slots by one when it
is a `sem_init` that returns a handle, and keeps it otherwise. -/
theorem step_allocated_count (op : Op) (k : Kernel) (hd : op.isDestroy = false) :
    allocated_count (step op k).2
      = allocated_count k + (if init_returned op k then 1 else 0) := by
  cases op with
  | init v =>
    rcases sem_init_cases v k with ⟨_, hres⟩ | ⟨i, hi, _, hres⟩
    · simp [step, init_returned, hres]
    · simp only [step, init_returned, hres]
      rw [allocated_count_store k i _ hi (by simp)]
      simp
  | wait p h =>
    have := allocated_count_congr (step (Op.wait p h) k).2 k
      (step_allocated (Op.wait p h) k rfl rfl)
    simpa [init_returned] using this
  | post h =>
    have := allocated_count_congr (step (Op.post h) k).2 k
      (step_allocated (Op.post h) k rfl rfl)
    simpa [init_returned] using this
  | destroy h => simp [Op.isDestroy] at hd
  | resume p =>
    have := allocated_count_congr (step (Op.resume p) k).2 k
      (step_allocated (Op.resume p) k rfl rfl)
    simpa [init_returned] using this

/-- Along a sequence without `sem_destroy`, the number of allocated slots grows by the
number of `sem_init` calls that return a handle. -/
theorem run_allocated_count (ops : List Op) :
    ∀ k : Kernel, (∀ op ∈ ops, op.isDestroy = false) →
      allocated_count (run ops k) = allocated_count k + init_successes ops k := by
  induction ops with
  | nil => intro k _; rfl
  | cons op ops ih =>
    intro k hops
    have h1 := hops op (List.mem_cons_self _ _)
    have h2 : ∀ o ∈ ops, o.isDestroy = false :=
      fun o ho => hops o (List.mem_cons_of_mem _ ho)
    show allocated_count (run ops (step op k).2) = _
    rw [ih (step op k).2 h2, step_allocated_count op k h1]
    simp only [init_successes]
    omega

/-- A step other than `sem_destroy` frees no slot. -/
theorem step_keeps_allocated (op : Op) (k : Kernel) (hd : op.isDestroy = false)
    (j : Fin MAX_SEMAPHORES) (hj : (k.semaphores j).allocated ≠ 0) :
    ((step op k).2.semaphores j).allocated ≠ 0 := by
  cases op with
  | init v =>
    rcases sem_init_cases v k with ⟨_, hres⟩ | ⟨i, hi, _, hres⟩
    · simpa [step, hres] using hj
    · simp only [step, hres, Kernel.store]
      by_cases hji : j = i
      · simp [hji]
      · simpa [hji] using hj
  | wait p h => rw [step_allocated (Op.wait p h) k rfl rfl]; exact hj
  | post h => rw [step_allocated (Op.post h) k rfl rfl]; exact hj
  | destroy h => simp [Op.isDestroy] at hd
  | resume p => rw [step_allocated (Op.resume p) k rfl rfl]; exact hj

/-- A sequence without `sem_destroy` frees no slot. -/
theorem run_keeps_allocated (ops : List Op) :
    ∀ k : Kernel, (∀ op ∈ ops, op.isDestroy = false) →
      ∀ j : Fin MAX_SEMAPHORES, (k.semaphores j).allocated ≠ 0 →
        ((run ops k).semaphores j).allocated ≠ 0 := by
  induction ops with
  | nil => intro k _ j hj; exact hj
  | cons op ops ih =>
    intro k hops j hj
    have h1 := hops op (List.mem_cons_self _ _)
    have h2 : ∀ o ∈ ops, o.isDestroy = false :=
      fun o ho => hops o (List.mem_cons_of_mem _ ho)
    exact ih (step op k).2 h2 j (step_keeps_allocated op k h1 j hj)

/-- A `sem_destroy` call that returns `0` was given the index of an allocated slot and
cleared exactly that slot. -/
theorem sem_destroy_success (h : Int) (k : Kernel) (hret : (sem_destroy h k).1 = 0) :
    ∃ i : Fin MAX_SEMAPHORES, (i.val : Int) = h ∧ (k.semaphores i).allocated ≠ 0 ∧
      (sem_destroy h k).2 = k.store i { value := 0, allocated := 0 } := by
  by_cases hr : h < 0 ∨ h ≥ (MAX_SEMAPHORES : Int)
  · unfold sem_destroy at hret
    rw [dif_pos hr] at hret
    simp at hret
  · have h1 := not_or.mp hr
    have hi : ((⟨h.toNat, by omega⟩ : Fin MAX_SEMAPHORES).val : Int) = h := by
      simp only
      omega
    refine ⟨⟨h.toNat, by omega⟩, hi, ?_, ?_⟩
    · intro hfree
      rw [← hi, sem_destroy_valid, if_pos hfree] at hret
      simp at hret
    · by_cases hfree : (k.semaphores ⟨h.toNat, by omega⟩).allocated = 0
      · rw [← hi, sem_destroy_valid, if_pos hfree] at hret
        simp at hret
      · conv_lhs => rw [← hi]
        rw [sem_destroy_valid, if_neg hfree]

/-! ## The value of one slot along a sequence of calls -/

/-- Every handle is out of range or the index of a slot. -/
theorem handle_cases (h : Int) :
    (h < 0 ∨ h ≥ (MAX_SEMAPHORES : Int)) ∨ ∃ j : Fin MAX_SEMAPHORES, (j.val : Int) = h := by
  by_cases hr : h < 0 ∨ h ≥ (MAX_SEMAPHORES : Int)
  · exact Or.inl hr
  · have h1 := not_or.mp hr
    refine Or.inr ⟨⟨h.toNat, by omega⟩, ?_⟩
    simp only
    omega

/-- Two slots with the same handle are the same slot. -/
theorem handle_inj (i j : Fin MAX_SEMAPHORES) : ((j.val : Int) = (i.val : Int)) ↔ j = i := by
  constructor
  · intro h
    exact Fin.ext (by omega)
  · intro h
    rw [h]

/-- Effect of one pass of the `sem_wait` loop of slot `j` on the result and on slot `i`. -/
theorem sem_wait_loop_slot (p : Nat) (j i : Fin MAX_SEMAPHORES) (k : Kernel) :
    ((sem_wait_loop p j k).1 = some 0 ↔ 0 < (k.semaphores j).value) ∧
    ((sem_wait_loop p j k).2.semaphores i).value =
      (k.semaphores i).value - (if j = i ∧ 0 < (k.semaphores j).value then 1 else 0) := by
  unfold sem_wait_loop
  by_cases hv : (k.semaphores j).value ≤ 0
  · rw [if_pos hv]
    have hn : ¬ 0 < (k.semaphores j).value := not_lt.mpr hv
    simp [sleep, hn]
  · rw [if_neg hv]
    have hp : 0 < (k.semaphores j).value := not_le.mp hv
    by_cases hji : j = i
    · subst hji
      simp [Kernel.store, hp]
    · have hij : ¬ i = j := fun h => hji h.symm
      simp [Kernel.store, hp, hji, hij]

/-- The function `sem_wait` on an out-of-range handle. -/
theorem sem_wait_out_of_range (p : Nat) (h : Int) (k : Kernel)
    (hr : h < 0 ∨ h ≥ (MAX_SEMAPHORES : Int)) : sem_wait p h k = (some (-1), k) := by
  unfold sem_wait
  rw [dif_pos hr]

/-- The function `sem_post` on an out-of-range handle. -/
theorem sem_post_out_of_range (h : Int) (k : Kernel)
    (hr : h < 0 ∨ h ≥ (MAX_SEMAPHORES : Int)) : sem_post h k = (-1, k) := by
  unfold sem_post
  rw [dif_pos hr]

/-- The function `sem_destroy` on an out-of-range handle. -/
theorem sem_destroy_out_of_range (h : Int) (k : Kernel)
    (hr : h < 0 ∨ h ≥ (MAX_SEMAPHORES : Int)) : sem_destroy h k = (-1, k) := by
  unfold sem_destroy
  rw [dif_pos hr]

/-- Effect of `sem_wait h` on slot `i`: its value drops by one exactly when `h` is the
handle of `i` and the call returns `0`, which requires a positive value. -/
theorem sem_wait_slot (p : Nat) (h : Int) (i : Fin MAX_SEMAPHORES) (k : Kernel) :
    ((sem_wait p h k).2.semaphores i).value = (k.semaphores i).value
      - (if h = (i.val : Int) ∧ (sem_wait p h k).1 = some 0 then 1 else 0) ∧
    (h = (i.val : Int) → (sem_wait p h k).1 = some 0 → 0 < (k.semaphores i).value) := by
  rcases handle_cases h with hr | ⟨j, hj⟩
  · rw [sem_wait_out_of_range p h k hr]
    simp
  · subst hj
    rw [sem_wait_valid]
    by_cases hfree : (k.semaphores j).allocated = 0
    · rw [if_pos hfree]
      simp
    · rw [if_neg hfree]
      have hl := sem_wait_loop_slot p j i k
      rw [hl.2]
      simp only [handle_inj]
      refine ⟨?_, ?_⟩
      · by_cases hji : j = i
        · subst hji
          simp [hl.1]
        · simp [hji]
      · intro hji hret
        subst hji
        exact hl.1.mp hret

/-- Effect of a resumed waiter on slot `i`. -/
theorem sem_wait_resume_slot (p : Nat) (i : Fin MAX_SEMAPHORES) (k : Kernel) :
    ((sem_wait_resume p k).2.semaphores i).value = (k.semaphores i).value
      - (if k.proc p = ThreadState.resumed (Chan.sem i) ∧ (sem_wait_resume p k).1 = some 0
          then 1 else 0) ∧
    (k.proc p = ThreadState.resumed (Chan.sem i) → (sem_wait_resume p k).1 = some 0 →
      0 < (k.semaphores i).value) := by
  cases hst : k.proc p with
  | running => simp [sem_wait_resume, hst]
  | parked c => simp [sem_wait_resume, hst]
  | resumed c =>
    cases c with
    | other a => simp [sem_wait_resume, hst]
    | sem j =>
      have heq : sem_wait_resume p k = sem_wait_loop p j
          { k with proc := fun q => if q = p then ThreadState.running else k.proc q } := by
        simp [sem_wait_resume, hst]
      rw [heq]
      have hl := sem_wait_loop_slot p j i
        { k with proc := fun q => if q = p then ThreadState.running else k.proc q }
      simp only at hl
      rw [hl.2]
      simp only [ThreadState.resumed.injEq, Chan.sem.injEq]
      refine ⟨?_, ?_⟩
      · by_cases hji : j = i
        · subst hji
          simp [hl.1]
        · simp [hji]
      · intro hji hret
        subst hji
        exact hl.1.mp hret

/-- Effect of `sem_post h` on slot `i`, when the increment does not leave the `int`
range: its value rises by one exactly when `h` is the handle of `i` and the call
returns `0`. -/
theorem sem_post_slot (h : Int) (i : Fin MAX_SEMAPHORES) (k : Kernel)
    (hlo : INT_MIN ≤ (k.semaphores i).value)
    (hsafe : h = (i.val : Int) → (k.semaphores i).value < INT_MAX) :
    ((sem_post h k).2.semaphores i).value = (k.semaphores i).value
      + (if h = (i.val : Int) ∧ (sem_post h k).1 = 0 then 1 else 0) := by
  rcases handle_cases h with hr | ⟨j, hj⟩
  · rw [sem_post_out_of_range h k hr]
    simp
  · subst hj
    rw [sem_post_valid]
    by_cases hfree : (k.semaphores j).allocated = 0
    · rw [if_pos hfree]
      simp
    · rw [if_neg hfree]
      simp only [handle_inj]
      by_cases hji : j = i
      · subst hji
        rw [int_wrap_succ _ hlo (hsafe rfl)]
        simp [wakeup, Kernel.store]
      · have hne : ¬ i = j := fun h => hji h.symm
        simp [wakeup, Kernel.store, hji, hne]

/-- The function `sem_destroy` on another handle leaves slot `i` as it is. -/
theorem sem_destroy_slot (h : Int) (i : Fin MAX_SEMAPHORES) (k : Kernel)
    (hne : h ≠ (i.val : Int)) :
    (sem_destroy h k).2.semaphores i = k.semaphores i := by
  rcases handle_cases h with hr | ⟨j, hj⟩
  · rw [sem_destroy_out_of_range h k hr]
  · subst hj
    rw [sem_destroy_valid]
    by_cases hfree : (k.semaphores j).allocated = 0
    · rw [if_pos hfree]
    · rw [if_neg hfree]
      have hij : ¬ i = j := fun h => hne (by rw [h])
      simp [Kernel.store, hij]

/-- The function `sem_init` leaves an allocated slot as it is. -/
theorem sem_init_slot (v : Int) (i : Fin MAX_SEMAPHORES) (k : Kernel)
    (halloc : (k.semaphores i).allocated ≠ 0) :
    (sem_init v k).2.semaphores i = k.semaphores i := by
  rcases sem_init_cases v k with ⟨_, hres⟩ | ⟨j, hj, _, hres⟩
  · rw [hres]
  · rw [hres]
    have hij : ¬ i = j := fun h => halloc (by rw [h]; exact hj)
    simp [Kernel.store, hij]

/-- Effect of one step on an allocated slot `i` that the step does not destroy and does
not overflow: the slot stays allocated, its value drops by one exactly for a `sem_wait(i)`
that returns `0` and rises by one exactly for a `sem_post(i)` that returns `0`, and a
`sem_wait(i)` returns `0` only from a positive value. -/
theorem step_slot (i : Fin MAX_SEMAPHORES) (op : Op) (k : Kernel)
    (halloc : (k.semaphores i).allocated ≠ 0)
    (hnd : op ≠ Op.destroy (i.val : Int))
    (hlo : INT_MIN ≤ (k.semaphores i).value)
    (hsafe : op = Op.post (i.val : Int) → (k.semaphores i).value < INT_MAX) :
    ((step op k).2.semaphores i).allocated ≠ 0 ∧
    ((step op k).2.semaphores i).value = (k.semaphores i).value
      - (if wait_returned i op k then 1 else 0) + (if post_returned i op k then 1 else 0) ∧
    (wait_returned i op k = true → 0 < (k.semaphores i).value) := by
  cases op with
  | init v =>
    refine ⟨step_keeps_allocated (Op.init v) k rfl i halloc, ?_, ?_⟩
    · simp [step, wait_returned, post_returned, sem_init_slot v i k halloc]
    · simp [wait_returned]
  | wait p h =>
    refine ⟨step_keeps_allocated (Op.wait p h) k rfl i halloc, ?_, ?_⟩
    · by_cases hrun : k.proc p = ThreadState.running
      · have hs := (sem_wait_slot p h i k).1
        simp only [step, wait_returned, post_returned, if_pos hrun]
        rw [hs]
        simp
      · simp [step, wait_returned, post_returned, hrun]
    · by_cases hrun : k.proc p = ThreadState.running
      · have hs := (sem_wait_slot p h i k).2
        simp only [step, wait_returned, if_pos hrun, Bool.and_eq_true, decide_eq_true_eq]
        exact fun hh => hs hh.1 hh.2
      · simp [step, wait_returned, hrun]
  | post h =>
    refine ⟨step_keeps_allocated (Op.post h) k rfl i halloc, ?_, ?_⟩
    · have hs := sem_post_slot h i k hlo (fun hh => hsafe (by rw [hh]))
      simp only [step, wait_returned, post_returned]
      rw [hs]
      simp
    · simp [wait_returned]
  | destroy h =>
    have hne : h ≠ (i.val : Int) := fun hh => hnd (by rw [hh])
    have hs := sem_destroy_slot h i k hne
    refine ⟨?_, ?_, ?_⟩
    · simp only [step]
      rw [hs]
      exact halloc
    · simp only [step, wait_returned, post_returned]
      rw [hs]
      simp
    · simp [wait_returned]
  | resume p =>
    refine ⟨step_keeps_allocated (Op.resume p) k rfl i halloc, ?_, ?_⟩
    · have hs := (sem_wait_resume_slot p i k).1
      simp only [step, wait_returned, post_returned]
      rw [hs]
      simp
    · have hs := (sem_wait_resume_slot p i k).2
      simp only [step, wait_returned, Bool.and_eq_true, decide_eq_true_eq]
      exact fun hh => hs hh.1 hh.2

/-- Along a sequence that neither destroys nor overflows the allocated slot `i`, the slot
stays allocated, its value is the initial one minus the `sem_wait(i)` calls that returned
`0` plus the `sem_post(i)` calls that returned `0`, and it stays above any bound
`lo <= 0` it started above. -/
theorem run_slot (i : Fin MAX_SEMAPHORES) (lo : Int) (hlo : INT_MIN ≤ lo) (hlo0 : lo ≤ 0)
    (ops : List Op) :
    ∀ k : Kernel, (k.semaphores i).allocated ≠ 0 →
      (∀ op ∈ ops, op ≠ Op.destroy (i.val : Int)) →
      post_in_range i ops k = true →
      lo ≤ (k.semaphores i).value →
      ((run ops k).semaphores i).allocated ≠ 0 ∧
      ((run ops k).semaphores i).value = (k.semaphores i).value
        - (wait_successes i ops k : Int) + (post_successes i ops k : Int) ∧
      lo ≤ ((run ops k).semaphores i).value := by
  induction ops with
  | nil =>
    intro k halloc _ _ hge
    exact ⟨halloc, by simp [run, wait_successes, post_successes], hge⟩
  | cons op ops ih =>
    intro k halloc hnd hsafe hge
    have hnd1 := hnd op (List.mem_cons_self _ _)
    have hnd2 : ∀ o ∈ ops, o ≠ Op.destroy (i.val : Int) :=
      fun o ho => hnd o (List.mem_cons_of_mem _ ho)
    simp only [post_in_range, Bool.and_eq_true, Bool.or_eq_true, decide_eq_true_eq] at hsafe
    have hsafe1 : op = Op.post (i.val : Int) → (k.semaphores i).value < INT_MAX := by
      intro hop
      rcases hsafe.1 with hne | hlt
      · exact absurd hop hne
      · exact hlt
    obtain ⟨ha, hv, hw⟩ := step_slot i op k halloc hnd1 (le_trans hlo hge) hsafe1
    have hge1 : lo ≤ ((step op k).2.semaphores i).value := by
      rw [hv]
      cases hwr : wait_returned i op k
      · cases hpr : post_returned i op k
        · simp
          exact hge
        · simp
          omega
      · have hpos := hw hwr
        cases hpr : post_returned i op k
        · simp
          omega
        · simp
          omega
    obtain ⟨ha2, hv2, hge2⟩ := ih (step op k).2 ha hnd2 hsafe.2 hge1
    refine ⟨ha2, ?_, hge2⟩
    show ((run ops (step op k).2).semaphores i).value = _
    rw [hv2, hv]
    simp only [wait_successes, post_successes]
    cases hwr : wait_returned i op k
    · cases hpr : post_returned i op k
      · simp
      · simp
        omega
    · cases hpr : post_returned i op k
      · simp
        omega
      · simp
        omega

/-- A prefix of a sequence that does not overflow slot `i` does not overflow it. -/
theorem post_in_range_take (i : Fin MAX_SEMAPHORES) (ops : List Op) :
    ∀ (n : Nat) (k : Kernel), post_in_range i ops k = true →
      post_in_range i (ops.take n) k = true := by
  induction ops with
  | nil => intro n k h; simpa using h
  | cons op ops ih =>
    intro n k h
    cases n with
    | zero => rfl
    | succ n =>
      simp only [post_in_range, Bool.and_eq_true] at h
      simp only [List.take_succ_cons, post_in_range, Bool.and_eq_true]
      exact ⟨h.1, ih n _ h.2⟩

/-- A `sem_init` call that returns the handle of slot `i` wrote `{value, 1}` there. -/
theorem sem_init_success (v : Int) (k : Kernel) (i : Fin MAX_SEMAPHORES)
    (hret : (sem_init v k).1 = (i.val : Int)) :
    (k.semaphores i).allocated = 0 ∧
    (sem_init v k).2 = k.store i { value := v, allocated := 1 } := by
  rcases sem_init_cases v k with ⟨_, hres⟩ | ⟨j, hj, _, hres⟩
  · rw [hres] at hret
    have := i.isLt
    simp only at hret
    omega
  · rw [hres] at hret
    have hji : j = i := (handle_inj i j).mp hret
    subst hji
    exact ⟨hj, by rw [hres]⟩

/-! ## Non-negative values -/

/-- The loop of `seminit` clears every slot from index `i` on and touches nothing else. -/
theorem seminit_loop_spec :
    ∀ (fuel i : Nat) (k : Kernel), i + fuel = MAX_SEMAPHORES →
      (∀ j : Fin MAX_SEMAPHORES, (seminit_loop fuel i k).semaphores j
        = if i ≤ j.val then { value := 0, allocated := 0 } else k.semaphores j) ∧
      (seminit_loop fuel i k).proc = k.proc := by
  intro fuel
  induction fuel with
  | zero =>
    intro i k hi
    refine ⟨?_, rfl⟩
    intro j
    have := j.isLt
    have hn : ¬ i ≤ j.val := by omega
    simp [seminit_loop, hn]
  | succ n ih =>
    intro i k hi
    have hlt : i < MAX_SEMAPHORES := by omega
    obtain ⟨h1, h2⟩ := ih (i + 1) (k.store ⟨i, hlt⟩ { value := 0, allocated := 0 }) (by omega)
    simp only [seminit_loop, dif_pos hlt]
    refine ⟨?_, by rw [h2]; rfl⟩
    intro j
    rw [h1 j]
    by_cases hj : i + 1 ≤ j.val
    · have : i ≤ j.val := by omega
      simp [hj, this]
    · by_cases hji : j.val = i
      · have hje : j = ⟨i, hlt⟩ := Fin.ext hji
        simp [hj, hje, Kernel.store]
      · have hne : ¬ j = ⟨i, hlt⟩ := fun h => hji (by rw [h])
        have hni : ¬ i ≤ j.val := by omega
        simp [hj, hne, hni, Kernel.store]

/-- After `seminit` every slot is free with value 0, and no thread has changed. -/
theorem seminit_spec (k : Kernel) :
    (∀ j : Fin MAX_SEMAPHORES, (seminit k).semaphores j = { value := 0, allocated := 0 }) ∧
    (seminit k).proc = k.proc := by
  obtain ⟨h1, h2⟩ := seminit_loop_spec MAX_SEMAPHORES 0 k (by simp)
  refine ⟨?_, h2⟩
  intro j
  have := h1 j
  simpa [seminit] using this

/-- The function `sem_destroy` leaves the state as it is or clears one slot. -/
theorem sem_destroy_state (h : Int) (k : Kernel) :
    (sem_destroy h k).2 = k ∨
    ∃ i : Fin MAX_SEMAPHORES, (sem_destroy h k).2 = k.store i { value := 0, allocated := 0 } := by
  rcases handle_cases h with hr | ⟨j, hj⟩
  · rw [sem_destroy_out_of_range h k hr]
    exact Or.inl rfl
  · subst hj
    rw [sem_destroy_valid]
    by_cases hfree : (k.semaphores j).allocated = 0
    · rw [if_pos hfree]
      exact Or.inl rfl
    · rw [if_neg hfree]
      exact Or.inr ⟨j, rfl⟩

/-- A step keeps all slot values non-negative, unless it is a `sem_init` with a negative
start value or a `sem_post` on a slot that holds `INT_MAX`. -/
theorem step_nonneg (op : Op) (k : Kernel)
    (hinv : ∀ j : Fin MAX_SEMAPHORES, 0 ≤ (k.semaphores j).value)
    (hstart : op.startNonneg = true)
    (hsafe : ∀ j : Fin MAX_SEMAPHORES, op = Op.post (j.val : Int) →
      (k.semaphores j).value < INT_MAX) :
    ∀ j : Fin MAX_SEMAPHORES, 0 ≤ ((step op k).2.semaphores j).value := by
  intro j
  have hj := hinv j
  cases op with
  | init v =>
    have hv : 0 ≤ v := by simpa [Op.startNonneg] using hstart
    rcases sem_init_cases v k with ⟨_, hres⟩ | ⟨i, _, _, hres⟩
    · simpa [step, hres] using hj
    · simp only [step, hres, Kernel.store]
      by_cases hji : j = i
      · simpa [hji] using hv
      · simpa [hji] using hj
  | wait p h =>
    by_cases hrun : k.proc p = ThreadState.running
    · obtain ⟨h1, h2⟩ := sem_wait_slot p h j k
      simp only [step, if_pos hrun]
      rw [h1]
      by_cases hc : h = (j.val : Int) ∧ (sem_wait p h k).1 = some 0
      · have := h2 hc.1 hc.2
        rw [if_pos hc]
        omega
      · rw [if_neg hc]
        omega
    · simpa [step, hrun] using hj
  | post h =>
    have hlo : INT_MIN ≤ (k.semaphores j).value := by
      unfold INT_MIN
      omega
    have h1 := sem_post_slot h j k hlo (fun hh => hsafe j (by rw [hh]))
    simp only [step]
    rw [h1]
    split <;> omega
  | destroy h =>
    simp only [step]
    rcases sem_destroy_state h k with hs | ⟨i, hs⟩
    · rw [hs]
      exact hj
    · rw [hs]
      by_cases hji : j = i
      · simp [Kernel.store, hji]
      · simpa [Kernel.store, hji] using hj
  | resume p =>
    obtain ⟨h1, h2⟩ := sem_wait_resume_slot p j k
    simp only [step]
    rw [h1]
    by_cases hc : k.proc p = ThreadState.resumed (Chan.sem j) ∧ (sem_wait_resume p k).1 = some 0
    · have := h2 hc.1 hc.2
      rw [if_pos hc]
      omega
    · rw [if_neg hc]
      omega

/-- A sequence of steps keeps all slot values non-negative when no `sem_init` has a
negative start value and no `sem_post` is issued on a slot that holds `INT_MAX`. -/
theorem run_nonneg (ops : List Op) :
    ∀ k : Kernel, (∀ j : Fin MAX_SEMAPHORES, 0 ≤ (k.semaphores j).value) →
      (∀ op ∈ ops, op.startNonneg = true) →
      (∀ j : Fin MAX_SEMAPHORES, post_in_range j ops k = true) →
      ∀ j : Fin MAX_SEMAPHORES, 0 ≤ ((run ops k).semaphores j).value := by
  induction ops with
  | nil => intro k hinv _ _ j; exact hinv j
  | cons op ops ih =>
    intro k hinv hstart hsafe
    have hs1 : ∀ j : Fin MAX_SEMAPHORES, op = Op.post (j.val : Int) →
        (k.semaphores j).value < INT_MAX := by
      intro j hop
      have := hsafe j
      simp only [post_in_range, Bool.and_eq_true, Bool.or_eq_true, decide_eq_true_eq] at this
      rcases this.1 with hne | hlt
      · exact absurd hop hne
      · exact hlt
    have hs2 : ∀ j : Fin MAX_SEMAPHORES, post_in_range j ops (step op k).2 = true := by
      intro j
      have := hsafe j
      simp only [post_in_range, Bool.and_eq_true] at this
      exact this.2
    exact ih (step op k).2
      (step_nonneg op k hinv (hstart op (List.mem_cons_self _ _)) hs1)
      (fun o ho => hstart o (List.mem_cons_of_mem _ ho)) hs2

/-! ## Free slots -/

/-- The function `sem_post` leaves a free slot as it is. -/
theorem sem_post_free_slot (h : Int) (j : Fin MAX_SEMAPHORES) (k : Kernel)
    (hfree : (k.semaphores j).allocated = 0) :
    (sem_post h k).2.semaphores j = k.semaphores j := by
  rcases handle_cases h with hr | ⟨i, hi⟩
  · rw [sem_post_out_of_range h k hr]
  · subst hi
    rw [sem_post_valid]
    by_cases hfi : (k.semaphores i).allocated = 0
    · rw [if_pos hfi]
    · rw [if_neg hfi]
      have hji : ¬ j = i := fun hh => hfi (by rw [← hh]; exact hfree)
      simp [wakeup, Kernel.store, hji]

/-- A step keeps the value 0 in every free slot. -/
theorem step_free_value (op : Op) (k : Kernel)
    (hinv : ∀ j : Fin MAX_SEMAPHORES, (k.semaphores j).allocated = 0 →
      (k.semaphores j).value = 0) :
    ∀ j : Fin MAX_SEMAPHORES, ((step op k).2.semaphores j).allocated = 0 →
      ((step op k).2.semaphores j).value = 0 := by
  intro j
  cases op with
  | init v =>
    rcases sem_init_cases v k with ⟨_, hres⟩ | ⟨i, _, _, hres⟩
    · simpa [step, hres] using hinv j
    · simp only [step, hres, Kernel.store]
      by_cases hji : j = i
      · simp [hji]
      · simpa [hji] using hinv j
  | wait p h =>
    intro hfree
    rw [step_allocated (Op.wait p h) k rfl rfl] at hfree
    have h0 := hinv j hfree
    by_cases hrun : k.proc p = ThreadState.running
    · obtain ⟨h1, h2⟩ := sem_wait_slot p h j k
      simp only [step, if_pos hrun]
      rw [h1, h0]
      by_cases hc : h = (j.val : Int) ∧ (sem_wait p h k).1 = some 0
      · have := h2 hc.1 hc.2
        omega
      · rw [if_neg hc]
        rfl
    · simpa [step, hrun] using h0
  | post h =>
    intro hfree
    rw [step_allocated (Op.post h) k rfl rfl] at hfree
    simp only [step]
    rw [sem_post_free_slot h j k hfree]
    exact hinv j hfree
  | destroy h =>
    simp only [step]
    rcases sem_destroy_state h k with hs | ⟨i, hs⟩
    · rw [hs]
      exact hinv j
    · rw [hs]
      by_cases hji : j = i
      · simp [Kernel.store, hji]
      · simpa [Kernel.store, hji] using hinv j
  | resume p =>
    intro hfree
    rw [step_allocated (Op.resume p) k rfl rfl] at hfree
    have h0 := hinv j hfree
    obtain ⟨h1, h2⟩ := sem_wait_resume_slot p j k
    simp only [step]
    rw [h1, h0]
    by_cases hc : k.proc p = ThreadState.resumed (Chan.sem j) ∧ (sem_wait_resume p k).1 = some 0
    · have := h2 hc.1 hc.2
      omega
    · rw [if_neg hc]
      rfl

/-- A sequence of steps keeps the value 0 in every free slot. -/
theorem run_free_value (ops : List Op) :
    ∀ k : Kernel,
      (∀ j : Fin MAX_SEMAPHORES, (k.semaphores j).allocated = 0 → (k.semaphores j).value = 0) →
      ∀ j : Fin MAX_SEMAPHORES, ((run ops k).semaphores j).allocated = 0 →
        ((run ops k).semaphores j).value = 0 := by
  induction ops with
  | nil => intro k hinv; exact hinv
  | cons op ops ih =>
    intro k hinv
    exact ih (step op k).2 (step_free_value op k hinv)

/-- The function `sem_init` frees no slot. -/
theorem sem_init_keeps_allocated (v : Int) (k : Kernel) (j : Fin MAX_SEMAPHORES)
    (hj : (k.semaphores j).allocated ≠ 0) :
    ((sem_init v k).2.semaphores j).allocated ≠ 0 := by
  rw [sem_init_slot v j k hj]
  exact hj

/-- The function `sem_destroy` allocates no slot. -/
theorem sem_destroy_keeps_free (h : Int) (k : Kernel) (j : Fin MAX_SEMAPHORES)
    (hj : (k.semaphores j).allocated = 0) :
    ((sem_destroy h k).2.semaphores j).allocated = 0 := by
  rcases sem_destroy_state h k with hs | ⟨i, hs⟩
  · rw [hs]
    exact hj
  · rw [hs]
    by_cases hji : j = i
    · simp [Kernel.store, hji]
    · simpa [Kernel.store, hji] using hj

/-! ## Resumed waiters -/

/-- A resumed pass of `sem_wait` on slot `i`: with value `<= 0` the thread parks again
and no slot changes; with value `> 0` it decrements, returns `0` and is running. -/
theorem sem_wait_resume_cases (p : Nat) (i : Fin MAX_SEMAPHORES) (k : Kernel)
    (hres : k.proc p = ThreadState.resumed (Chan.sem i)) :
    ((k.semaphores i).value ≤ 0 →
      (sem_wait_resume p k).1 = none ∧
      (sem_wait_resume p k).2.semaphores = k.semaphores ∧
      (sem_wait_resume p k).2.proc
        = fun q => if q = p then ThreadState.parked (Chan.sem i) else k.proc q) ∧
    (0 < (k.semaphores i).value →
      (sem_wait_resume p k).1 = some 0 ∧
      (sem_wait_resume p k).2.semaphores
        = (fun j => if j = i then
            { k.semaphores i with value := (k.semaphores i).value - 1 } else k.semaphores j) ∧
      (sem_wait_resume p k).2.proc
        = fun q => if q = p then ThreadState.running else k.proc q) := by
  have heq : sem_wait_resume p k = sem_wait_loop p i
      { k with proc := fun q => if q = p then ThreadState.running else k.proc q } := by
    simp [sem_wait_resume, hres]
  rw [heq]
  constructor
  · intro hle
    unfold sem_wait_loop
    rw [if_pos hle]
    refine ⟨rfl, rfl, ?_⟩
    funext q
    by_cases hq : q = p
    · simp [sleep, hq]
    · simp [sleep, hq]
  · intro hpos
    have hnot : ¬ (k.semaphores i).value ≤ 0 := not_le.mpr hpos
    unfold sem_wait_loop
    rw [if_neg hnot]
    exact ⟨rfl, rfl, rfl⟩

/-- On the table left by `seminit`, `sem_init` allocates slot 0. -/
theorem sem_init_after_seminit (v : Int) (k0 : Kernel) :
    sem_init v (seminit k0) = (0, (seminit k0).store 0 { value := v, allocated := 1 }) := by
  rcases sem_init_cases v (seminit k0) with ⟨hall, _⟩ | ⟨j, _, hmin, hres⟩
  · exact absurd (by rw [(seminit_spec k0).1 0]) (hall 0)
  · have hj : j = 0 := by
      by_contra hne
      have hpos : (0 : Fin MAX_SEMAPHORES).val < j.val := by
        have : j.val ≠ 0 := fun hh => hne (Fin.ext hh)
        simp only [Fin.val_zero]
        omega
      exact hmin 0 hpos (by rw [(seminit_spec k0).1 0])
    rw [hres, hj]
    rfl

/-! ## The XOR cipher -/

/-- Applying the key twice gives the byte back. -/
theorem xor_key_involutive (b : Fin 256) : xor_key (xor_key b) = b := by
  apply Fin.ext
  have hb : b.val < 2 ^ 8 := b.isLt
  have hk : ENCRYPT_KEY < 2 ^ 8 := by decide
  have h1 : b.val ^^^ ENCRYPT_KEY < 256 := Nat.xor_lt_two_pow hb hk
  simp only [xor_key]
  rw [Nat.mod_eq_of_lt h1, Nat.xor_assoc, Nat.xor_self, Nat.xor_zero]
  exact Nat.mod_eq_of_lt b.isLt

/-- A `copyin` from a mapped range delivers the bytes of the range. -/
theorem copyin_mapped (m : UserMem) (va n : Nat)
    (h : ∀ j < n, m.mapped (va + j) = true) :
    copyin m va n = some ((List.range n).map (fun j => m.byte (va + j))) := by
  unfold copyin
  rw [if_pos h]

/-- A `copyout` to a mapped range stores the bytes. -/
theorem copyout_mapped (m : UserMem) (va : Nat) (src : List (Fin 256))
    (h : ∀ j < src.length, m.mapped (va + j) = true) :
    copyout m va src = some (m.write va src) := by
  unfold copyout
  rw [if_pos h]

/-- Memory after a chunk of `n` bytes at `va` has been read, encrypted and written. -/
theorem write_chunk_byte (m : UserMem) (va n a : Nat) :
    (m.write va (((List.range n).map (fun j => m.byte (va + j))).map xor_key)).byte a
      = if va ≤ a ∧ a < va + n then xor_key (m.byte a) else m.byte a := by
  unfold UserMem.write
  simp only
  by_cases h1 : va ≤ a
  · by_cases h2 : a < va + n
    · have h3 : a - va < n := by omega
      have h4 : va + (a - va) = a := by omega
      simp [h1, h2, List.getD_eq_getElem?_getD, List.getElem?_map, List.getElem?_range, h3, h4]
    · have h3 : ¬ a - va < n := by omega
      have h5 : (List.range n)[a - va]? = none :=
        List.getElem?_eq_none (by simp only [List.length_range]; omega)
      simp [h1, h2, List.getD_eq_getElem?_getD, List.getElem?_map, h5]
  · simp [h1]

/-- The loop of `sys_encrypt` on a mapped buffer that does not wrap around the address
space, entered with `processed` bytes done: it returns `len`, and the memory it leaves
has every byte of the rest of the buffer XORed with the key and nothing else changed. -/
theorem sys_encrypt_loop_spec (addr : Nat) (len : Int) (hwrap : addr + len.toNat ≤ 2 ^ 64) :
    ∀ (fuel : Nat) (processed : Int) (m : UserMem),
      0 ≤ processed → processed ≤ len → (len - processed).toNat ≤ fuel →
      (∀ j < len.toNat, m.mapped (addr + j) = true) →
      (sys_encrypt_loop addr len fuel processed m).1 = len ∧
      (sys_encrypt_loop addr len fuel processed m).2.mapped = m.mapped ∧
      ∀ a : Nat, (sys_encrypt_loop addr len fuel processed m).2.byte a
        = if addr + processed.toNat ≤ a ∧ a < addr + len.toNat
            then xor_key (m.byte a) else m.byte a := by
  intro fuel
  induction fuel with
  | zero =>
    intro pr m h0 hle hfuel _
    have hpr : pr = len := by omega
    subst hpr
    refine ⟨rfl, rfl, ?_⟩
    intro a
    have hn : ¬ (addr + pr.toNat ≤ a ∧ a < addr + pr.toNat) := by omega
    simp [sys_encrypt_loop, hn]
  | succ n ih =>
    intro pr m h0 hle hfuel hmap
    by_cases hlt : pr < len
    · have hva : (addr + pr.toNat) % 2 ^ 64 = addr + pr.toNat := by
        apply Nat.mod_eq_of_lt
        omega
      obtain ⟨chunk, hchunk⟩ : ∃ c : Int, c = (if len - pr > 512 then 512 else len - pr) :=
        ⟨_, rfl⟩
      have hc1 : 0 < chunk := by
        rw [hchunk]
        split <;> omega
      have hc2 : chunk ≤ len - pr := by
        rw [hchunk]
        split <;> omega
      have hin : ∀ j < chunk.toNat, m.mapped (addr + pr.toNat + j) = true := by
        intro j hj
        rw [Nat.add_assoc]
        exact hmap _ (by omega)
      have hout : ∀ j < (((List.range chunk.toNat).map
          (fun j => m.byte (addr + pr.toNat + j))).map xor_key).length,
          m.mapped (addr + pr.toNat + j) = true := by
        intro j hj
        simp only [List.length_map, List.length_range] at hj
        exact hin j hj
      have hstep : sys_encrypt_loop addr len (n + 1) pr m
          = sys_encrypt_loop addr len n (pr + chunk)
              (m.write (addr + pr.toNat) (((List.range chunk.toNat).map
                (fun j => m.byte (addr + pr.toNat + j))).map xor_key)) := by
        rw [sys_encrypt_loop]
        simp only [if_pos hlt, ← hchunk, hva]
        rw [copyin_mapped m _ _ hin]
        simp only
        rw [copyout_mapped m _ _ hout]
      obtain ⟨r1, r2, r3⟩ := ih (pr + chunk)
        (m.write (addr + pr.toNat) (((List.range chunk.toNat).map
          (fun j => m.byte (addr + pr.toNat + j))).map xor_key))
        (by omega) (by omega) (by omega) hmap
      rw [hstep]
      refine ⟨r1, r2, ?_⟩
      intro a
      rw [r3 a, write_chunk_byte]
      have hsum : (pr + chunk).toNat = pr.toNat + chunk.toNat := by omega
      rw [hsum]
      by_cases ha1 : addr + pr.toNat ≤ a
      · by_cases ha2 : a < addr + pr.toNat + chunk.toNat
        · have hb1 : ¬ addr + (pr.toNat + chunk.toNat) ≤ a := by omega
          have hb2 : a < addr + len.toNat := by omega
          simp [ha1, ha2, hb1, hb2]
        · have hb1 : addr + (pr.toNat + chunk.toNat) ≤ a := by omega
          simp [ha1, ha2, hb1]
      · have hb1 : ¬ addr + (pr.toNat + chunk.toNat) ≤ a := by omega
        simp [ha1, hb1]
    · have hpr : pr = len := by omega
      subst hpr
      refine ⟨by simp [sys_encrypt_loop], by simp [sys_encrypt_loop], ?_⟩
      intro a
      have hn : ¬ (addr + pr.toNat ≤ a ∧ a < addr + pr.toNat) := by omega
      simp [sys_encrypt_loop, hn]

/-- The system call `sys_encrypt` on a mapped buffer of `1 <= len <= 4096` bytes that
does not wrap around the address space: it returns `len`, XORs every byte of the buffer
with the key, and changes nothing else. -/
theorem sys_encrypt_spec (addr : Nat) (len : Int) (m : UserMem)
    (h1 : 1 ≤ len) (h2 : len ≤ 4096) (hwrap : addr + len.toNat ≤ 2 ^ 64)
    (hmap : ∀ j < len.toNat, m.mapped (addr + j) = true) :
    (sys_encrypt addr len m).1 = len ∧
    (sys_encrypt addr len m).2.mapped = m.mapped ∧
    ∀ a : Nat, (sys_encrypt addr len m).2.byte a
      = if addr ≤ a ∧ a < addr + len.toNat then xor_key (m.byte a) else m.byte a := by
  have hval : ¬ (len ≤ 0 ∨ len > 4096) := by omega
  unfold sys_encrypt
  rw [if_neg hval]
  have := sys_encrypt_loop_spec addr len hwrap len.toNat 0 m (le_refl _) (by omega)
    (by omega) hmap
  simpa using this

/-! ## The shared buffer -/

/-- The system call `sys_produce` on an initialised buffer with room: it returns `0`,
raises `count` by one and keeps the buffer initialised. -/
theorem sys_produce_room (item : Int) (s : SharedBuf)
    (hinit : s.initialized ≠ 0) (hroom : s.count < (BUFFER_SIZE : Int)) :
    (sys_produce item s).1 = 0 ∧
    (sys_produce item s).2.count = s.count + 1 ∧
    (sys_produce item s).2.initialized = s.initialized := by
  have hn : ¬ s.count ≥ (BUFFER_SIZE : Int) := not_le.mpr hroom
  unfold sys_produce
  rw [if_neg hinit, if_neg hn]
  exact ⟨rfl, rfl, rfl⟩

/-- The system call `sys_consume` on an initialised buffer that holds an item: whether or
not the copy to the caller succeeds, `count` drops by one and the buffer stays
initialised. -/
theorem sys_consume_item (a : Nat) (s : SharedBuf) (m : UserMem)
    (hinit : s.initialized ≠ 0) (hitem : 0 < s.count) :
    (sys_consume a s m).2.1.count = s.count - 1 ∧
    (sys_consume a s m).2.1.initialized = s.initialized := by
  have hn : ¬ s.count ≤ 0 := not_le.mpr hitem
  unfold sys_consume
  rw [if_neg hinit, if_neg hn]
  split
  · exact ⟨rfl, rfl⟩
  · exact ⟨rfl, rfl⟩

/-- State after two sequences of calls, one after the other. -/
theorem buf_run_append (l1 l2 : List BufOp) :
    ∀ st : SharedBuf × UserMem,
      (buf_run (l1 ++ l2) st).2 = (buf_run l2 (buf_run l1 st).2).2 := by
  induction l1 with
  | nil => intro st; rfl
  | cons op l1 ih =>
    intro st
    simp only [List.cons_append, buf_run]
    exact ih _

/-- Producing into an initialised buffer with room for all the items: every call returns
`0` and `count` grows by the number of items. -/
theorem buf_run_produce (items : List Int) :
    ∀ st : SharedBuf × UserMem, st.1.initialized ≠ 0 →
      st.1.count + (items.length : Int) ≤ (BUFFER_SIZE : Int) →
      (buf_run (items.map BufOp.produce) st).1 = List.replicate items.length 0 ∧
      (buf_run (items.map BufOp.produce) st).2.1.count = st.1.count + (items.length : Int) ∧
      (buf_run (items.map BufOp.produce) st).2.1.initialized = st.1.initialized := by
  induction items with
  | nil =>
    intro st _ _
    simp [buf_run]
  | cons item items ih =>
    intro st hinit hroom
    simp only [List.length_cons, Nat.cast_add, Nat.cast_one] at hroom
    obtain ⟨p1, p2, p3⟩ := sys_produce_room item st.1 hinit (by omega)
    obtain ⟨q1, q2, q3⟩ := ih ((sys_produce item st.1).2, st.2)
      (by rw [p3]; exact hinit) (by rw [p2]; omega)
    simp only [List.map_cons, buf_run, buf_step, List.length_cons, List.replicate_succ]
    refine ⟨by rw [p1, q1], ?_, by rw [q3, p3]⟩
    rw [q2, p2]
    push_cast
    omega

/-- Consuming from an initialised buffer that holds at least as many items as there are
calls: `count` drops by the number of calls. -/
theorem buf_run_consume (addrs : List Nat) :
    ∀ st : SharedBuf × UserMem, st.1.initialized ≠ 0 →
      (addrs.length : Int) ≤ st.1.count →
      (buf_run (addrs.map BufOp.consume) st).2.1.count = st.1.count - (addrs.length : Int) ∧
      (buf_run (addrs.map BufOp.consume) st).2.1.initialized = st.1.initialized := by
  induction addrs with
  | nil =>
    intro st _ _
    simp [buf_run]
  | cons a addrs ih =>
    intro st hinit hitems
    simp only [List.length_cons, Nat.cast_add, Nat.cast_one] at hitems
    obtain ⟨p1, p2⟩ := sys_consume_item a st.1 st.2 hinit (by omega)
    obtain ⟨q1, q2⟩ := ih ((sys_consume a st.1 st.2).2.1, (sys_consume a st.1 st.2).2.2)
      (by rw [p2]; exact hinit) (by rw [p1]; omega)
    simp only [List.map_cons, buf_run, buf_step, List.length_cons]
    refine ⟨?_, by rw [q2, p2]⟩
    rw [q1, p1]
    push_cast
    omega

/-! ## Effects of `sem_post` -/

/-- The function `sem_post_trace` returns what `sem_post` returns and leaves the state
that `sem_post` leaves. -/
theorem sem_post_trace_agrees (h : Int) (k : Kernel) :
    (sem_post_trace h k).1 = (sem_post h k).1 ∧ (sem_post_trace h k).2.1 = (sem_post h k).2 := by
  unfold sem_post_trace sem_post
  split
  · exact ⟨rfl, rfl⟩
  · simp only
    split
    · exact ⟨rfl, rfl⟩
    · exact ⟨rfl, rfl⟩

/-- The effects of `sem_post` on an in-range handle. -/
theorem sem_post_trace_valid (i : Fin MAX_SEMAPHORES) (k : Kernel) :
    (sem_post_trace (i.val : Int) k).2.2 =
      if (k.semaphores i).allocated = 0 then [Effect.acquire i, Effect.release i]
      else [Effect.acquire i, Effect.increment i, Effect.wakeup (Chan.sem i),
            Effect.release i] := by
  unfold sem_post_trace
  rw [dif_neg (handle_in_range i)]
  simp only [Int.toNat_ofNat, Fin.eta]
  split
  · rfl
  · rfl

/-! ## Waits on a semaphore created with a value below 1 -/

/-- Along a sequence that does not destroy the allocated slot `i`, started with a value
`x <= 0` in the slot: if some `sem_wait(i)` has returned `0`, then at least `1 - x` calls
of `sem_post(i)` have returned `0`. -/
theorem waits_need_posts (i : Fin MAX_SEMAPHORES) (ops : List Op) :
    ∀ (k : Kernel) (x : Int), (k.semaphores i).allocated ≠ 0 →
      (∀ op ∈ ops, op ≠ Op.destroy (i.val : Int)) →
      (k.semaphores i).value = x → INT_MIN ≤ x → x ≤ 0 →
      0 < wait_successes i ops k →
      1 - x ≤ (post_successes i ops k : Int) := by
  induction ops with
  | nil =>
    intro k x _ _ _ _ _ hw
    simp [wait_successes] at hw
  | cons op ops ih =>
    intro k x halloc hnd hx hlo hle hw
    have hnd1 := hnd op (List.mem_cons_self _ _)
    have hnd2 : ∀ o ∈ ops, o ≠ Op.destroy (i.val : Int) :=
      fun o ho => hnd o (List.mem_cons_of_mem _ ho)
    have hmax : (k.semaphores i).value < INT_MAX := by
      rw [hx]
      unfold INT_MAX
      omega
    obtain ⟨ha, hv, hpos⟩ := step_slot i op k halloc hnd1 (by rw [hx]; exact hlo)
      (fun _ => hmax)
    have hwr : wait_returned i op k = false := by
      cases hb : wait_returned i op k
      · rfl
      · have := hpos hb
        omega
    rw [hwr, hx] at hv
    simp only [wait_successes, hwr] at hw
    simp only [post_successes]
    cases hpr : post_returned i op k
    · rw [hpr] at hv
      simp only [Bool.false_eq_true, if_false] at hv hw ⊢
      have hw2 : 0 < wait_successes i ops (step op k).2 := by omega
      have := ih (step op k).2 x ha hnd2 (by rw [hv]; omega) hlo hle hw2
      omega
    · rw [hpr] at hv
      simp only [if_true, Bool.false_eq_true, if_false] at hv hw ⊢
      have hw2 : 0 < wait_successes i ops (step op k).2 := by omega
      by_cases hx0 : x + 1 ≤ 0
      · have := ih (step op k).2 (x + 1) ha hnd2 (by rw [hv]; omega) (by omega) hx0 hw2
        push_cast
        omega
      · push_cast
        omega

/-! ## Accounting of the shared buffer -/

/-- The system call `sys_produce` on an initialised buffer: rejected with `-1` and no
write when full, otherwise the item is stored and the counters move. -/
theorem sys_produce_cases (item : Int) (s : SharedBuf) (hinit : s.initialized ≠ 0) :
    ((BUFFER_SIZE : Int) ≤ s.count ∧ sys_produce item s = (-1, s)) ∨
    (s.count < (BUFFER_SIZE : Int) ∧ sys_produce item s =
      (0, { s with
            buffer := fun j => if (j.val : Int) = s.in_ then item else s.buffer j,
            in_ := Int.tmod (int_wrap (s.in_ + 1)) (BUFFER_SIZE : Int),
            count := s.count + 1,
            produced_total := int_wrap (s.produced_total + 1) })) := by
  by_cases hfull : s.count ≥ (BUFFER_SIZE : Int)
  · left
    refine ⟨hfull, ?_⟩
    unfold sys_produce
    rw [if_neg hinit, if_pos hfull]
  · right
    refine ⟨not_le.mp hfull, ?_⟩
    unfold sys_produce
    rw [if_neg hinit, if_neg hfull]

/-- The system call `sys_consume` on an initialised buffer: rejected with `-1` and no
write when empty; otherwise the counters move, and the call returns `-3` with the
memory as it was when the copy fails, `0` with the item copied out when it succeeds. -/
theorem sys_consume_cases (a : Nat) (s : SharedBuf) (m : UserMem)
    (hinit : s.initialized ≠ 0) :
    (s.count ≤ 0 ∧ sys_consume a s m = (-1, s, m)) ∨
    (0 < s.count ∧ copyout m a (int_bytes (s.read s.out)) = none ∧
      sys_consume a s m =
        (-3, { s with
               out := Int.tmod (int_wrap (s.out + 1)) (BUFFER_SIZE : Int),
               count := s.count - 1,
               consumed_total := int_wrap (s.consumed_total + 1) }, m)) ∨
    (0 < s.count ∧ ∃ m2, copyout m a (int_bytes (s.read s.out)) = some m2 ∧
      sys_consume a s m =
        (0, { s with
              out := Int.tmod (int_wrap (s.out + 1)) (BUFFER_SIZE : Int),
              count := s.count - 1,
              consumed_total := int_wrap (s.consumed_total + 1) }, m2)) := by
  by_cases hempty : s.count ≤ 0
  · left
    refine ⟨hempty, ?_⟩
    unfold sys_consume
    rw [if_neg hinit, if_pos hempty]
  · right
    cases hc : copyout m a (int_bytes (s.read s.out)) with
    | none =>
      left
      refine ⟨not_le.mp hempty, rfl, ?_⟩
      unfold sys_consume
      rw [if_neg hinit, if_neg hempty, hc]
    | some m2 =>
      right
      refine ⟨not_le.mp hempty, m2, rfl, ?_⟩
      unfold sys_consume
      rw [if_neg hinit, if_neg hempty, hc]

/-- One call other than `sys_buffer_init` that does not return `-3` and does not take
`produced_total` beyond `INT_MAX`, on an initialised buffer whose counters satisfy
`0 <= consumed_total`, `count = produced_total - consumed_total`, `0 <= count <= 10`:
the relations hold afterwards, and each total has grown by one exactly when the call
was a `sys_produce`, respectively a `sys_consume`, that returned `0`. -/
theorem buf_step_accounting (op : BufOp) (st : SharedBuf × UserMem)
    (hop : op ≠ BufOp.binit)
    (hinit : st.1.initialized ≠ 0)
    (hct : 0 ≤ st.1.consumed_total)
    (hcount : st.1.count = st.1.produced_total - st.1.consumed_total)
    (h0 : 0 ≤ st.1.count) (h10 : st.1.count ≤ 10)
    (hcopy : (buf_step op st).1 ≠ -3)
    (hmax : st.1.produced_total + (if produce_returned op st then 1 else 0) ≤ INT_MAX) :
    (buf_step op st).2.1.initialized ≠ 0 ∧
    0 ≤ (buf_step op st).2.1.consumed_total ∧
    (buf_step op st).2.1.count
      = (buf_step op st).2.1.produced_total - (buf_step op st).2.1.consumed_total ∧
    0 ≤ (buf_step op st).2.1.count ∧ (buf_step op st).2.1.count ≤ 10 ∧
    (buf_step op st).2.1.produced_total
      = st.1.produced_total + (if produce_returned op st then 1 else 0) ∧
    (buf_step op st).2.1.consumed_total
      = st.1.consumed_total + (if consume_returned op st then 1 else 0) := by
  cases op with
  | binit => exact absurd rfl hop
  | produce item =>
    rcases sys_produce_cases item st.1 hinit with ⟨_, hres⟩ | ⟨hroom, hres⟩
    · simp only [buf_step, produce_returned, consume_returned, hres]
      simp only [Bool.false_eq_true, if_false, add_zero]
      exact ⟨hinit, hct, hcount, h0, h10, by simp, trivial⟩
    · simp only [produce_returned, hres] at hmax
      simp only [decide_True, if_true] at hmax
      have hw : int_wrap (st.1.produced_total + 1) = st.1.produced_total + 1 := by
        apply int_wrap_succ
        · unfold INT_MIN
          omega
        · omega
      simp only [buf_step, produce_returned, consume_returned, hres, hw]
      simp only [decide_True, if_true, Bool.false_eq_true, if_false, add_zero]
      refine ⟨hinit, hct, by omega, by omega, ?_, trivial, trivial⟩
      have : st.1.count < 10 := hroom
      omega
  | consume a =>
    rcases sys_consume_cases a st.1 st.2 hinit with
      ⟨_, hres⟩ | ⟨_, _, hres⟩ | ⟨hpos, m2, _, hres⟩
    · simp only [buf_step, produce_returned, consume_returned, hres]
      simp only [Bool.false_eq_true, if_false, add_zero]
      exact ⟨hinit, hct, hcount, h0, h10, trivial, by simp⟩
    · exfalso
      apply hcopy
      simp only [buf_step, hres]
    · simp only [produce_returned] at hmax
      simp only [Bool.false_eq_true, if_false, add_zero] at hmax
      have hw : int_wrap (st.1.consumed_total + 1) = st.1.consumed_total + 1 := by
        apply int_wrap_succ
        · unfold INT_MIN
          omega
        · omega
      simp only [buf_step, produce_returned, consume_returned, hres, hw]
      simp only [decide_True, if_true, Bool.false_eq_true, if_false, add_zero]
      exact ⟨hinit, by omega, by omega, by omega, by omega, trivial, trivial⟩

/-- Along a sequence of `sys_produce` and `sys_consume` calls in which no call returns
`-3` and `produced_total` stays within the `int` range, started on an initialised buffer
whose counters satisfy the relations of `buf_step_accounting`: the totals grow by the
numbers of calls that returned `0`, and the relations hold at the end. -/
theorem buf_run_accounting (ops : List BufOp) :
    ∀ st : SharedBuf × UserMem,
      (∀ op ∈ ops, op ≠ BufOp.binit) →
      st.1.initialized ≠ 0 → 0 ≤ st.1.consumed_total →
      st.1.count = st.1.produced_total - st.1.consumed_total →
      0 ≤ st.1.count → st.1.count ≤ 10 →
      (-3 : Int) ∉ (buf_run ops st).1 →
      st.1.produced_total + (produce_successes ops st : Int) ≤ INT_MAX →
      (buf_run ops st).2.1.produced_total
        = st.1.produced_total + (produce_successes ops st : Int) ∧
      (buf_run ops st).2.1.consumed_total
        = st.1.consumed_total + (consume_successes ops st : Int) ∧
      (buf_run ops st).2.1.count
        = (buf_run ops st).2.1.produced_total - (buf_run ops st).2.1.consumed_total ∧
      0 ≤ (buf_run ops st).2.1.count ∧ (buf_run ops st).2.1.count ≤ 10 := by
  induction ops with
  | nil =>
    intro st _ _ _ hcount h0 h10 _ _
    simp only [buf_run, produce_successes, consume_successes]
    exact ⟨by simp, by simp, hcount, h0, h10⟩
  | cons op ops ih =>
    intro st hops hinit hct hcount h0 h10 hcopy hmax
    have hop := hops op (List.mem_cons_self _ _)
    have hops2 : ∀ o ∈ ops, o ≠ BufOp.binit :=
      fun o ho => hops o (List.mem_cons_of_mem _ ho)
    simp only [buf_run, List.mem_cons, not_or] at hcopy
    simp only [produce_successes, Nat.cast_add] at hmax
    have hmax1 : st.1.produced_total + (if produce_returned op st then 1 else 0) ≤ INT_MAX := by
      cases hb : produce_returned op st
      · simp only [Bool.false_eq_true, if_false]
        simp only [hb, Bool.false_eq_true, if_false] at hmax
        omega
      · simp only [if_true]
        simp only [hb, if_true] at hmax
        omega
    obtain ⟨a1, a2, a3, a4, a5, a6, a7⟩ := buf_step_accounting op st hop hinit hct hcount
      h0 h10 (fun h => hcopy.1 h.symm) hmax1
    have hmax2 : (buf_step op st).2.1.produced_total
        + (produce_successes ops (buf_step op st).2 : Int) ≤ INT_MAX := by
      rw [a6]
      cases hb : produce_returned op st
      · simp only [Bool.false_eq_true, if_false]
        simp only [hb, Bool.false_eq_true, if_false] at hmax
        omega
      · simp only [if_true]
        simp only [hb, if_true] at hmax
        push_cast at hmax
        omega
    obtain ⟨b1, b2, b3, b4, b5⟩ := ih (buf_step op st).2 hops2 a1 a2 a3 a4 a5 hcopy.2 hmax2
    simp only [buf_run, produce_successes, consume_successes]
    refine ⟨?_, ?_, b3, b4, b5⟩
    · rw [b1, a6]
      cases hb : produce_returned op st
      · simp only [Bool.false_eq_true, if_false]
        omega
      · simp only [if_true]
        omega
    · rw [b2, a7]
      cases hb : consume_returned op st
      · simp only [Bool.false_eq_true, if_false]
        omega
      · simp only [if_true]
        omega

/-- An `int` takes four bytes. -/
theorem int_bytes_length (x : Int) : (int_bytes x).length = 4 := by
  simp [int_bytes]

/-- The system call `sys_buffer_status` with its three destinations mapped: it returns
`0` and has copied out `count`, `produced_total` and `consumed_total`, in this order. -/
theorem sys_buffer_status_mapped (ca pa xa : Nat) (s : SharedBuf) (m : UserMem)
    (hc : ∀ j < 4, m.mapped (ca + j) = true)
    (hp : ∀ j < 4, m.mapped (pa + j) = true)
    (hx : ∀ j < 4, m.mapped (xa + j) = true) :
    sys_buffer_status ca pa xa s m =
      (0, ((m.write ca (int_bytes s.count)).write pa (int_bytes s.produced_total)).write xa
            (int_bytes s.consumed_total)) := by
  unfold sys_buffer_status
  rw [copyout_mapped m ca _ (by rw [int_bytes_length]; exact hc)]
  simp only
  rw [copyout_mapped _ pa _ (by rw [int_bytes_length]; exact hp)]
  simp only
  rw [copyout_mapped _ xa _ (by rw [int_bytes_length]; exact hx)]

/-- The reduction to the `int` range absorbs an earlier reduction. -/
theorem int_wrap_add (x : Int) (n : Int) : int_wrap (int_wrap x + n) = int_wrap (x + n) := by
  unfold int_wrap
  omega

/-- The reduction to the `int` range is the identity on the `int` range. -/
theorem int_wrap_id (x : Int) (hlo : INT_MIN ≤ x) (hhi : x ≤ INT_MAX) : int_wrap x = x := by
  unfold INT_MIN at hlo
  unfold INT_MAX at hhi
  unfold int_wrap
  omega

/-- Rounds of one `sys_produce` and one `sys_consume` to a mapped address on an
initialised empty buffer: every call returns `0`, and `produced_total` is the sum
of its start value and the number of rounds, reduced to the `int` range. -/
theorem produce_consume_rounds_spec (n : Nat) :
    ∀ st : SharedBuf × UserMem, st.1.initialized ≠ 0 → st.1.count = 0 →
      INT_MIN ≤ st.1.produced_total → st.1.produced_total ≤ INT_MAX →
      (∀ j < 4, st.2.mapped (16 + j) = true) →
      produce_successes (produce_consume_rounds n) st = n ∧
      consume_successes (produce_consume_rounds n) st = n ∧
      (buf_run (produce_consume_rounds n) st).2.1.produced_total
        = int_wrap (st.1.produced_total + (n : Int)) := by
  induction n with
  | zero =>
    intro st _ _ hlo hhi _
    refine ⟨rfl, rfl, ?_⟩
    rw [Nat.cast_zero, add_zero, int_wrap_id _ hlo hhi]
    rfl
  | succ n ih =>
    intro st hinit hcount hlo hhi hmap
    rcases sys_produce_cases 7 st.1 hinit with ⟨hfull, _⟩ | ⟨_, hres⟩
    · rw [hcount] at hfull
      exact absurd hfull (by decide)
    · obtain ⟨s1, hs1⟩ : ∃ s1 : SharedBuf, s1 = (sys_produce 7 st.1).2 := ⟨_, rfl⟩
      have hs1i : s1.initialized ≠ 0 := by
        rw [hs1, hres]
        exact hinit
      have hs1c : s1.count = 1 := by
        rw [hs1, hres]
        simp only
        omega
      have hs1p : s1.produced_total = int_wrap (st.1.produced_total + 1) := by
        rw [hs1, hres]
      rcases sys_consume_cases 16 s1 st.2 hs1i with
        ⟨hempty, _⟩ | ⟨_, hfail, _⟩ | ⟨_, m2, hm2, hres2⟩
      · omega
      · rw [copyout_mapped st.2 16 _ (by rw [int_bytes_length]; exact hmap)] at hfail
        simp at hfail
      · have hm2map : m2.mapped = st.2.mapped := by
          rw [copyout_mapped st.2 16 _ (by rw [int_bytes_length]; exact hmap)] at hm2
          simp only [Option.some.injEq] at hm2
          rw [← hm2]
          rfl
        obtain ⟨s2, hs2⟩ : ∃ s2 : SharedBuf, s2 = (sys_consume 16 s1 st.2).2.1 := ⟨_, rfl⟩
        have hstep2 : (sys_consume 16 s1 st.2).2.2 = m2 := by rw [hres2]
        have hs2i : s2.initialized ≠ 0 := by
          rw [hs2, hres2]
          exact hs1i
        have hs2c : s2.count = 0 := by
          rw [hs2, hres2]
          simp only
          omega
        have hs2p : s2.produced_total = int_wrap (st.1.produced_total + 1) := by
          rw [hs2, hres2]
          exact hs1p
        have hrange : INT_MIN ≤ int_wrap (st.1.produced_total + 1) ∧
            int_wrap (st.1.produced_total + 1) ≤ INT_MAX := by
          unfold INT_MIN INT_MAX int_wrap
          omega
        obtain ⟨r1, r2, r3⟩ := ih (s2, m2) hs2i hs2c (by rw [hs2p]; exact hrange.1)
          (by rw [hs2p]; exact hrange.2) (by rw [hm2map]; exact hmap)
        have hpr : produce_returned (BufOp.produce 7) st = true := by
          simp [produce_returned, hres]
        have hcr : consume_returned (BufOp.consume 16) (s1, st.2) = true := by
          simp [consume_returned, hres2]
        have hcr0 : produce_returned (BufOp.consume 16) (s1, st.2) = false := rfl
        have hpr0 : consume_returned (BufOp.produce 7) st = false := rfl
        have hst1 : (buf_step (BufOp.produce 7) st).2 = (s1, st.2) := by
          simp only [buf_step, hs1]
        have hst2 : (buf_step (BufOp.consume 16) (s1, st.2)).2 = (s2, m2) := by
          simp only [buf_step, hs2, hstep2]
        simp only [produce_consume_rounds, produce_successes, consume_successes, buf_run,
          hst1, hst2, hpr, hcr, hcr0, hpr0]
        refine ⟨by simp only [r1, if_true, Bool.false_eq_true, if_false]; omega,
          by simp only [r2, if_true, Bool.false_eq_true, if_false]; omega, ?_⟩
        rw [r3]
        simp only
        rw [hs2p, int_wrap_add]
        push_cast
        congr 1
        omega

/-! ## Order of the shared buffer -/

/-- The next index after an index of the array. -/
theorem next_index (x : Int) (h0 : 0 ≤ x) (h10 : x < 10) :
    Int.tmod (int_wrap (x + 1)) (BUFFER_SIZE : Int) = (x + 1) % 10 := by
  have hw : int_wrap (x + 1) = x + 1 := by
    unfold int_wrap
    omega
  rw [hw, Int.tmod_eq_emod (by omega) (by decide)]
  rfl

/-- A read of the array after the store `buffer[in_] = item`. -/
theorem read_after_store (s : SharedBuf) (item : Int) (a b c d : Int) (idx : Int)
    (h0 : 0 ≤ idx) (h10 : idx < 10) :
    ({ s with buffer := fun j => if (j.val : Int) = s.in_ then item else s.buffer j,
              in_ := a, count := b, produced_total := c, consumed_total := d } : SharedBuf).read idx
      = if idx = s.in_ then item else s.read idx := by
  have hr : 0 ≤ idx ∧ idx < (BUFFER_SIZE : Int) := ⟨h0, h10⟩
  unfold SharedBuf.read
  rw [dif_pos hr, dif_pos hr]
  have hcast : ((idx.toNat : Nat) : Int) = idx := by omega
  simp only [hcast]

/-- The bytes found at `a` after a successful `copyout` of an `int` to `a`. -/
theorem copyout_read_back (m m2 : UserMem) (a : Nat) (x : Int)
    (h : copyout m a (int_bytes x) = some m2) :
    (List.range 4).map (fun j => m2.byte (a + j)) = int_bytes x := by
  unfold copyout at h
  split at h
  · simp only [Option.some.injEq] at h
    rw [← h]
    unfold int_bytes UserMem.write
    apply List.map_congr_left
    intro j hj
    have hj4 : j < 4 := List.mem_range.mp hj
    have hsub : a + j - a = j := by omega
    simp [hsub, List.getD_eq_getElem?_getD, List.getElem?_map, List.getElem?_range, hj4]
  · exact absurd h (by simp)

/-- A `sys_produce` with room keeps the items of the buffer and adds the new one last. -/
theorem fifo_produce (s : SharedBuf) (q : List Int) (item : Int)
    (hinv : fifo_inv s q) (hroom : s.count < (BUFFER_SIZE : Int)) :
    fifo_inv
      { s with
        buffer := fun j => if (j.val : Int) = s.in_ then item else s.buffer j,
        in_ := Int.tmod (int_wrap (s.in_ + 1)) (BUFFER_SIZE : Int),
        count := s.count + 1,
        produced_total := int_wrap (s.produced_total + 1) }
      (q ++ [item]) := by
  obtain ⟨hi, ho0, ho10, hc, hlen, hin, hq⟩ := hinv
  have hroom2 : s.count < 10 := hroom
  have hin0 : 0 ≤ s.in_ ∧ s.in_ < 10 := by
    rw [hin]
    omega
  refine ⟨hi, ho0, ho10, ?_, ?_, ?_, ?_⟩
  · simp only [List.length_append, List.length_singleton, Nat.cast_add, Nat.cast_one]
    omega
  · simp only [List.length_append, List.length_singleton]
    omega
  · simp only
    rw [next_index s.in_ hin0.1 hin0.2, hin]
    omega
  · intro k hk
    simp only [List.length_append, List.length_singleton] at hk
    have hidx : 0 ≤ (s.out + (k : Int)) % 10 ∧ (s.out + (k : Int)) % 10 < 10 := by omega
    have hread := read_after_store s item
      (Int.tmod (int_wrap (s.in_ + 1)) (BUFFER_SIZE : Int)) (s.count + 1)
      (int_wrap (s.produced_total + 1)) s.consumed_total
      ((s.out + (k : Int)) % 10) hidx.1 hidx.2
    simp only at hread ⊢
    rw [hread]
    by_cases hkq : k < q.length
    · have hne : ¬ (s.out + (k : Int)) % 10 = s.in_ := by
        rw [hin]
        omega
      rw [if_neg hne, List.getElem?_append_left hkq]
      exact hq k hkq
    · have hkeq : k = q.length := by omega
      have heq : (s.out + (k : Int)) % 10 = s.in_ := by
        rw [hin, hkeq, hc]
      rw [if_pos heq, hkeq]
      simp

/-- A `sys_consume` on a buffer that holds an item takes the oldest item and keeps the
others in their order. -/
theorem fifo_consume (s : SharedBuf) (q : List Int)
    (hinv : fifo_inv s q) (hitem : 0 < s.count) :
    ∃ (x : Int) (q2 : List Int), q = x :: q2 ∧ s.read s.out = x ∧
      fifo_inv
        { s with
          out := Int.tmod (int_wrap (s.out + 1)) (BUFFER_SIZE : Int),
          count := s.count - 1,
          consumed_total := int_wrap (s.consumed_total + 1) }
        q2 := by
  obtain ⟨hi, ho0, ho10, hc, hlen, hin, hq⟩ := hinv
  cases q with
  | nil =>
    simp only [List.length_nil, Nat.cast_zero] at hc
    omega
  | cons x q2 =>
    simp only [List.length_cons, Nat.cast_add, Nat.cast_one] at hc hlen
    refine ⟨x, q2, rfl, ?_, ?_⟩
    · have h0 := hq 0 (by simp)
      simp only [List.getElem?_cons_zero, Option.some.injEq, Nat.cast_zero, add_zero] at h0
      have hout : s.out % 10 = s.out := by omega
      rw [hout] at h0
      exact h0.symm
    · refine ⟨hi, ?_, ?_, ?_, ?_, ?_, ?_⟩
      · simp only
        rw [next_index s.out ho0 ho10]
        omega
      · simp only
        rw [next_index s.out ho0 ho10]
        omega
      · simp only
        omega
      · omega
      · simp only
        rw [next_index s.out ho0 ho10, hin]
        omega
      · intro k hk
        have h1 := hq (k + 1) (by simp only [List.length_cons]; omega)
        simp only [List.getElem?_cons_succ] at h1
        rw [h1]
        have hidx : (s.out + ((k + 1 : Nat) : Int)) % 10
            = ((s.out + 1) % 10 + (k : Int)) % 10 := by
          push_cast
          omega
        simp only
        rw [next_index s.out ho0 ho10, hidx]
        rfl

/-- Along a sequence of `sys_produce` and `sys_consume` calls in which no call returns
`-3`, started on a buffer that holds the items `q`: the items of `q` followed by the
items produced are the items delivered followed by the items the buffer holds at the
end, all as the four bytes of an `int`. -/
theorem buf_run_fifo (ops : List BufOp) :
    ∀ (st : SharedBuf × UserMem) (q : List Int), fifo_inv st.1 q →
      (∀ op ∈ ops, op ≠ BufOp.binit) →
      (-3 : Int) ∉ (buf_run ops st).1 →
      ∃ q2 : List Int, fifo_inv (buf_run ops st).2.1 q2 ∧
        (q ++ produced_items ops st).map int_bytes
          = delivered ops st ++ q2.map int_bytes := by
  induction ops with
  | nil =>
    intro st q hinv _ _
    exact ⟨q, hinv, by simp [produced_items, delivered]⟩
  | cons op ops ih =>
    intro st q hinv hops hcopy
    have hop := hops op (List.mem_cons_self _ _)
    have hops2 : ∀ o ∈ ops, o ≠ BufOp.binit :=
      fun o ho => hops o (List.mem_cons_of_mem _ ho)
    simp only [buf_run, List.mem_cons, not_or] at hcopy
    have hinit : st.1.initialized ≠ 0 := hinv.1
    cases op with
    | binit => exact absurd rfl hop
    | produce item =>
      rcases sys_produce_cases item st.1 hinit with ⟨_, hres⟩ | ⟨hroom, hres⟩
      · have hst : (buf_step (BufOp.produce item) st).2 = st := by
          simp only [buf_step, hres]
        have hpr : produce_returned (BufOp.produce item) st = false := by
          simp [produce_returned, hres]
        rw [hst] at hcopy
        obtain ⟨q2, g1, g2⟩ := ih st q hinv hops2 hcopy.2
        refine ⟨q2, ?_, ?_⟩
        · simp only [buf_run, hst]
          exact g1
        · simp only [produced_items, delivered, hpr, hst]
          simpa using g2
      · have hpr : produce_returned (BufOp.produce item) st = true := by
          simp [produce_returned, hres]
        have hinv2 := fifo_produce st.1 q item hinv hroom
        have hst : (buf_step (BufOp.produce item) st).2.1
            = { st.1 with
                buffer := fun j => if (j.val : Int) = st.1.in_ then item else st.1.buffer j,
                in_ := Int.tmod (int_wrap (st.1.in_ + 1)) (BUFFER_SIZE : Int),
                count := st.1.count + 1,
                produced_total := int_wrap (st.1.produced_total + 1) } := by
          simp only [buf_step, hres]
        obtain ⟨q2, g1, g2⟩ := ih (buf_step (BufOp.produce item) st).2 (q ++ [item])
          (by rw [hst]; exact hinv2) hops2 hcopy.2
        refine ⟨q2, ?_, ?_⟩
        · simp only [buf_run]
          exact g1
        · simp only [produced_items, delivered, hpr, if_true, List.nil_append]
          rw [← g2]
          simp
    | consume a =>
      rcases sys_consume_cases a st.1 st.2 hinit with
        ⟨_, hres⟩ | ⟨_, _, hres⟩ | ⟨hpos, m2, hm2, hres⟩
      · have hst : (buf_step (BufOp.consume a) st).2 = st := by
          simp only [buf_step, hres]
        have hcr : consume_returned (BufOp.consume a) st = false := by
          simp [consume_returned, hres]
        rw [hst] at hcopy
        obtain ⟨q2, g1, g2⟩ := ih st q hinv hops2 hcopy.2
        refine ⟨q2, ?_, ?_⟩
        · simp only [buf_run, hst]
          exact g1
        · simp only [produced_items, delivered, hcr, hst]
          simpa using g2
      · exfalso
        apply hcopy.1
        simp only [buf_step, hres]
      · obtain ⟨x, q1, hq, hx, hinv2⟩ := fifo_consume st.1 q hinv hpos
        have hcr : consume_returned (BufOp.consume a) st = true := by
          simp [consume_returned, hres]
        have hst1 : (buf_step (BufOp.consume a) st).2.1
            = { st.1 with
                out := Int.tmod (int_wrap (st.1.out + 1)) (BUFFER_SIZE : Int),
                count := st.1.count - 1,
                consumed_total := int_wrap (st.1.consumed_total + 1) } := by
          simp only [buf_step, hres]
        have hst2 : (buf_step (BufOp.consume a) st).2.2 = m2 := by
          simp only [buf_step, hres]
        have hbytes : (List.range 4).map
            (fun j => (buf_step (BufOp.consume a) st).2.2.byte (a + j)) = int_bytes x := by
          rw [hst2]
          rw [hx] at hm2
          exact copyout_read_back st.2 m2 a x hm2
        obtain ⟨q2, g1, g2⟩ := ih (buf_step (BufOp.consume a) st).2 q1
          (by rw [hst1]; exact hinv2) hops2 hcopy.2
        refine ⟨q2, ?_, ?_⟩
        · simp only [buf_run]
          exact g1
        · simp only [produced_items, delivered, hcr, if_true, List.nil_append, hbytes]
          rw [hq]
          simp only [List.cons_append, List.map_cons, List.nil_append]
          rw [g2]

/-- The list of produced items has one entry for each `sys_produce` that returned `0`. -/
theorem produced_items_length (ops : List BufOp) :
    ∀ st : SharedBuf × UserMem, (produced_items ops st).length = produce_successes ops st := by
  induction ops with
  | nil => intro st; rfl
  | cons op ops ih =>
    intro st
    simp only [produced_items, produce_successes, List.length_append, ih]
    cases op with
    | binit => rfl
    | produce item =>
      cases hb : produce_returned (BufOp.produce item) st
      · simp
      · simp
    | consume a => rfl

/-- The list of delivered items has one entry for each `sys_consume` that returned `0`. -/
theorem delivered_length (ops : List BufOp) :
    ∀ st : SharedBuf × UserMem, (delivered ops st).length = consume_successes ops st := by
  induction ops with
  | nil => intro st; rfl
  | cons op ops ih =>
    intro st
    simp only [delivered, consume_successes, List.length_append, ih]
    cases op with
    | binit => rfl
    | produce item => rfl
    | consume a =>
      cases hb : consume_returned (BufOp.consume a) st
      · simp
      · simp

/-- Every call keeps the indices inside the array, `count` between 0 and `BUFFER_SIZE`,
and `in_` at `(out + count) mod 10`. -/
theorem buf_step_index (op : BufOp) (st : SharedBuf × UserMem)
    (h : 0 ≤ st.1.out ∧ st.1.out < 10 ∧ 0 ≤ st.1.count ∧ st.1.count ≤ 10 ∧
      st.1.in_ = (st.1.out + st.1.count) % 10) :
    0 ≤ (buf_step op st).2.1.out ∧ (buf_step op st).2.1.out < 10 ∧
    0 ≤ (buf_step op st).2.1.count ∧ (buf_step op st).2.1.count ≤ 10 ∧
    (buf_step op st).2.1.in_
      = ((buf_step op st).2.1.out + (buf_step op st).2.1.count) % 10 := by
  obtain ⟨ho0, ho10, hc0, hc10, hin⟩ := h
  have hin0 : 0 ≤ st.1.in_ ∧ st.1.in_ < 10 := by
    rw [hin]
    omega
  cases op with
  | binit =>
    simp only [buf_step, sys_buffer_init]
    decide
  | produce item =>
    by_cases hinit : st.1.initialized = 0
    · have hres : sys_produce item st.1 = (-2, st.1) := by
        unfold sys_produce
        rw [if_pos hinit]
      simp only [buf_step, hres]
      exact ⟨ho0, ho10, hc0, hc10, hin⟩
    · rcases sys_produce_cases item st.1 hinit with ⟨_, hres⟩ | ⟨hroom, hres⟩
      · simp only [buf_step, hres]
        exact ⟨ho0, ho10, hc0, hc10, hin⟩
      · have hroom2 : st.1.count < 10 := hroom
        simp only [buf_step, hres]
        rw [next_index st.1.in_ hin0.1 hin0.2, hin]
        refine ⟨ho0, ho10, by omega, by omega, by omega⟩
  | consume a =>
    by_cases hinit : st.1.initialized = 0
    · have hres : sys_consume a st.1 st.2 = (-2, st.1, st.2) := by
        unfold sys_consume
        rw [if_pos hinit]
      simp only [buf_step, hres]
      exact ⟨ho0, ho10, hc0, hc10, hin⟩
    · rcases sys_consume_cases a st.1 st.2 hinit with
        ⟨_, hres⟩ | ⟨hpos, _, hres⟩ | ⟨hpos, m2, _, hres⟩
      · simp only [buf_step, hres]
        exact ⟨ho0, ho10, hc0, hc10, hin⟩
      · simp only [buf_step, hres]
        rw [next_index st.1.out ho0 ho10, hin]
        refine ⟨by omega, by omega, by omega, by omega, by omega⟩
      · simp only [buf_step, hres]
        rw [next_index st.1.out ho0 ho10, hin]
        refine ⟨by omega, by omega, by omega, by omega, by omega⟩

/-- Every sequence of calls keeps the relations of `buf_step_index`. -/
theorem buf_run_index (ops : List BufOp) :
    ∀ st : SharedBuf × UserMem,
      (0 ≤ st.1.out ∧ st.1.out < 10 ∧ 0 ≤ st.1.count ∧ st.1.count ≤ 10 ∧
        st.1.in_ = (st.1.out + st.1.count) % 10) →
      0 ≤ (buf_run ops st).2.1.out ∧ (buf_run ops st).2.1.out < 10 ∧
      0 ≤ (buf_run ops st).2.1.count ∧ (buf_run ops st).2.1.count ≤ 10 ∧
      (buf_run ops st).2.1.in_
        = ((buf_run ops st).2.1.out + (buf_run ops st).2.1.count) % 10 := by
  induction ops with
  | nil => intro st h; exact h
  | cons op ops ih =>
    intro st h
    exact ih (buf_step op st).2 (buf_step_index op st h)

/-- C1: on a table with at least one free slot, `sem_init v` returns the smallest index
whose slot is free, leaves that slot allocated with value `v`, and leaves every other
slot (and every thread) unchanged. -/
theorem sem_init_first_free (v : Int) (k : Kernel)
    (hfree : ∃ j : Fin MAX_SEMAPHORES, (k.semaphores j).allocated = 0) :
    ∃ i : Fin MAX_SEMAPHORES,
      (sem_init v k).1 = (i.val : Int) ∧
      (k.semaphores i).allocated = 0 ∧
      (∀ j : Fin MAX_SEMAPHORES, (k.semaphores j).allocated = 0 → i.val ≤ j.val) ∧
      (sem_init v k).2.semaphores i = { value := v, allocated := 1 } ∧
      (∀ j : Fin MAX_SEMAPHORES, j ≠ i → (sem_init v k).2.semaphores j = k.semaphores j) ∧
      (sem_init v k).2.proc = k.proc := by
  rcases sem_init_cases v k with ⟨hall, _⟩ | ⟨i, hi, hmin, hres⟩
  · obtain ⟨j, hj⟩ := hfree
    exact absurd hj (hall j)
  · refine ⟨i, by rw [hres], hi, ?_, by rw [hres]; simp [Kernel.store], ?_, by rw [hres]; rfl⟩
    · intro j hj
      by_contra hlt
      exact hmin j (by omega) hj
    · intro j hji
      rw [hres]
      simp [Kernel.store, hji]

/-- C1 witness: slots 0 and 1 taken, slot 2 is the first free one. -/
theorem sem_init_first_free_witness :
    (∃ j : Fin MAX_SEMAPHORES,
        ((sem_init 7 (sem_init 5 boot).2).2.semaphores j).allocated = 0) ∧
    ∃ i : Fin MAX_SEMAPHORES,
      (sem_init 9 (sem_init 7 (sem_init 5 boot).2).2).1 = (i.val : Int) ∧
      ((sem_init 7 (sem_init 5 boot).2).2.semaphores i).allocated = 0 ∧
      (∀ j : Fin MAX_SEMAPHORES,
        ((sem_init 7 (sem_init 5 boot).2).2.semaphores j).allocated = 0 → i.val ≤ j.val) ∧
      (sem_init 9 (sem_init 7 (sem_init 5 boot).2).2).2.semaphores i
        = { value := 9, allocated := 1 } ∧
      (∀ j : Fin MAX_SEMAPHORES, j ≠ i →
        (sem_init 9 (sem_init 7 (sem_init 5 boot).2).2).2.semaphores j
          = (sem_init 7 (sem_init 5 boot).2).2.semaphores j) ∧
      (sem_init 9 (sem_init 7 (sem_init 5 boot).2).2).2.proc
        = (sem_init 7 (sem_init 5 boot).2).2.proc :=
  ⟨⟨2, by decide⟩, sem_init_first_free 9 (sem_init 7 (sem_init 5 boot).2).2 ⟨2, by decide⟩⟩

/-- C2: `sem_init v` returns `-1` exactly when every slot of the table is allocated, and
then the kernel state is the one it was called on. -/
theorem sem_init_full_iff (v : Int) (k : Kernel) :
    ((sem_init v k).1 = -1 ↔ ∀ j : Fin MAX_SEMAPHORES, (k.semaphores j).allocated ≠ 0) ∧
    ((sem_init v k).1 = -1 → (sem_init v k).2 = k) := by
  rcases sem_init_cases v k with ⟨hall, hres⟩ | ⟨i, hi, _, hres⟩
  · rw [hres]
    exact ⟨⟨fun _ => hall, fun _ => rfl⟩, fun _ => rfl⟩
  · rw [hres]
    refine ⟨⟨fun h => absurd h (by omega), fun h => absurd hi (h i)⟩, fun h => absurd h (by omega)⟩

/-- C3: on an in-range handle whose slot is allocated with a positive value, `sem_wait`
returns `0`, lowers that slot's value by exactly one, keeps it allocated, and leaves
every other slot (and every thread) unchanged. -/
theorem sem_wait_decrements (p : Nat) (i : Fin MAX_SEMAPHORES) (k : Kernel)
    (halloc : (k.semaphores i).allocated ≠ 0) (hpos : 0 < (k.semaphores i).value) :
    (sem_wait p (i.val : Int) k).1 = some 0 ∧
    ((sem_wait p (i.val : Int) k).2.semaphores i).value = (k.semaphores i).value - 1 ∧
    ((sem_wait p (i.val : Int) k).2.semaphores i).allocated = (k.semaphores i).allocated ∧
    (∀ j : Fin MAX_SEMAPHORES, j ≠ i →
      (sem_wait p (i.val : Int) k).2.semaphores j = k.semaphores j) ∧
    (sem_wait p (i.val : Int) k).2.proc = k.proc := by
  have hnot : ¬ (k.semaphores i).value ≤ 0 := not_le.mpr hpos
  rw [sem_wait_valid, if_neg halloc]
  unfold sem_wait_loop
  rw [if_neg hnot]
  refine ⟨rfl, by simp [Kernel.store], by simp [Kernel.store], ?_, rfl⟩
  intro j hj
  simp [Kernel.store, hj]

/-- C3 witness: a semaphore created with value 1 at handle 0. -/
theorem sem_wait_decrements_witness :
    (sem_wait 3 ((0 : Fin MAX_SEMAPHORES).val : Int) (sem_init 1 boot).2).1 = some 0 ∧
    ((sem_wait 3 ((0 : Fin MAX_SEMAPHORES).val : Int) (sem_init 1 boot).2).2.semaphores 0).value
      = ((sem_init 1 boot).2.semaphores 0).value - 1 ∧
    ((sem_wait 3 ((0 : Fin MAX_SEMAPHORES).val : Int) (sem_init 1 boot).2).2.semaphores 0).allocated
      = ((sem_init 1 boot).2.semaphores 0).allocated ∧
    (∀ j : Fin MAX_SEMAPHORES, j ≠ 0 →
      (sem_wait 3 ((0 : Fin MAX_SEMAPHORES).val : Int) (sem_init 1 boot).2).2.semaphores j
        = (sem_init 1 boot).2.semaphores j) ∧
    (sem_wait 3 ((0 : Fin MAX_SEMAPHORES).val : Int) (sem_init 1 boot).2).2.proc
      = (sem_init 1 boot).2.proc :=
  sem_wait_decrements 3 0 (sem_init 1 boot).2 (by decide) (by decide)

/-- C4: on an in-range handle whose slot is allocated with value `<= 0`, `sem_wait` does
not return: the caller is parked on that slot's channel, no slot changes and no other
thread changes. Whenever the thread is later resumed on that channel it re-checks the
value: with value `<= 0` it parks again without changing any slot, and only with
value `> 0` it decrements and returns `0`. -/
theorem sem_wait_blocks (p : Nat) (i : Fin MAX_SEMAPHORES) (k : Kernel)
    (halloc : (k.semaphores i).allocated ≠ 0) (hle : (k.semaphores i).value ≤ 0) :
    (sem_wait p (i.val : Int) k).1 = none ∧
    (sem_wait p (i.val : Int) k).2.semaphores = k.semaphores ∧
    (sem_wait p (i.val : Int) k).2.proc p = ThreadState.parked (Chan.sem i) ∧
    (∀ q : Nat, q ≠ p → (sem_wait p (i.val : Int) k).2.proc q = k.proc q) ∧
    (∀ k2 : Kernel, k2.proc p = ThreadState.resumed (Chan.sem i) →
      ((k2.semaphores i).value ≤ 0 →
        (sem_wait_resume p k2).1 = none ∧
        (sem_wait_resume p k2).2.semaphores = k2.semaphores ∧
        (sem_wait_resume p k2).2.proc p = ThreadState.parked (Chan.sem i)) ∧
      (0 < (k2.semaphores i).value →
        (sem_wait_resume p k2).1 = some 0 ∧
        ((sem_wait_resume p k2).2.semaphores i).value = (k2.semaphores i).value - 1 ∧
        (sem_wait_resume p k2).2.proc p = ThreadState.running)) := by
  rw [sem_wait_valid, if_neg halloc]
  unfold sem_wait_loop
  rw [if_pos hle]
  refine ⟨rfl, rfl, by simp [sleep], ?_, ?_⟩
  · intro q hq
    simp [sleep, hq]
  · intro k2 hres
    constructor
    · intro hle2
      simp [sem_wait_resume, hres, sem_wait_loop, hle2, sleep]
    · intro hpos2
      have hnot : ¬ (k2.semaphores i).value ≤ 0 := not_le.mpr hpos2
      simp [sem_wait_resume, hres, sem_wait_loop, hnot, Kernel.store]

/-- C4 witness: a semaphore created with value 0 at handle 0; thread 3 calls. -/
theorem sem_wait_blocks_witness :
    ((sem_init 0 boot).2.semaphores 0).allocated ≠ 0 ∧
    ((sem_init 0 boot).2.semaphores 0).value ≤ 0 ∧
    (sem_wait 3 ((0 : Fin MAX_SEMAPHORES).val : Int) (sem_init 0 boot).2).1 = none ∧
    (sem_wait 3 ((0 : Fin MAX_SEMAPHORES).val : Int) (sem_init 0 boot).2).2.semaphores
      = (sem_init 0 boot).2.semaphores ∧
    (sem_wait 3 ((0 : Fin MAX_SEMAPHORES).val : Int) (sem_init 0 boot).2).2.proc 3
      = ThreadState.parked (Chan.sem 0) :=
  ⟨by decide, by decide,
    (sem_wait_blocks 3 0 (sem_init 0 boot).2 (by decide) (by decide)).1,
    (sem_wait_blocks 3 0 (sem_init 0 boot).2 (by decide) (by decide)).2.1,
    (sem_wait_blocks 3 0 (sem_init 0 boot).2 (by decide) (by decide)).2.2.1⟩

/-- C5, as stated, fails: on an allocated slot holding the largest `int`, `sem_post`
returns `0` but the stored value is the smallest `int`, not the old value plus one. -/
theorem sem_post_increment_counterexample :
    ((sem_init 2147483647 boot).2.semaphores 0).allocated ≠ 0 ∧
    ((sem_init 2147483647 boot).2.semaphores 0).value = 2147483647 ∧
    (sem_post ((0 : Fin MAX_SEMAPHORES).val : Int) (sem_init 2147483647 boot).2).1 = 0 ∧
    ((sem_post ((0 : Fin MAX_SEMAPHORES).val : Int)
        (sem_init 2147483647 boot).2).2.semaphores 0).value = -2147483648 ∧
    ((sem_post ((0 : Fin MAX_SEMAPHORES).val : Int)
        (sem_init 2147483647 boot).2).2.semaphores 0).value
      ≠ ((sem_init 2147483647 boot).2.semaphores 0).value + 1 := by
  decide

/-- C5 (amended): on an in-range handle whose slot is allocated with a 32-bit value
below `INT_MAX`, `sem_post` returns `0`, raises that slot's value by exactly one, keeps
it allocated, leaves every other slot unchanged, resumes every thread parked on that
slot's channel, and leaves every other thread as it was. -/
theorem sem_post_increments (i : Fin MAX_SEMAPHORES) (k : Kernel)
    (halloc : (k.semaphores i).allocated ≠ 0)
    (hlo : INT_MIN ≤ (k.semaphores i).value) (hhi : (k.semaphores i).value < INT_MAX) :
    (sem_post (i.val : Int) k).1 = 0 ∧
    ((sem_post (i.val : Int) k).2.semaphores i).value = (k.semaphores i).value + 1 ∧
    ((sem_post (i.val : Int) k).2.semaphores i).allocated = (k.semaphores i).allocated ∧
    (∀ j : Fin MAX_SEMAPHORES, j ≠ i →
      (sem_post (i.val : Int) k).2.semaphores j = k.semaphores j) ∧
    (∀ q : Nat, k.proc q = ThreadState.parked (Chan.sem i) →
      (sem_post (i.val : Int) k).2.proc q = ThreadState.resumed (Chan.sem i)) ∧
    (∀ q : Nat, k.proc q ≠ ThreadState.parked (Chan.sem i) →
      (sem_post (i.val : Int) k).2.proc q = k.proc q) := by
  rw [sem_post_valid, if_neg halloc, int_wrap_succ _ hlo hhi]
  refine ⟨rfl, by simp [wakeup, Kernel.store], by simp [wakeup, Kernel.store], ?_, ?_, ?_⟩
  · intro j hj
    simp [wakeup, Kernel.store, hj]
  · intro q hq
    simp [wakeup, Kernel.store, hq]
  · intro q hq
    simp [wakeup, Kernel.store, hq]

/-- C5 witness: thread 3 is parked on the semaphore of value 0 at handle 0. -/
theorem sem_post_increments_witness :
    ((sem_wait 3 0 (sem_init 0 boot).2).2.semaphores 0).allocated ≠ 0 ∧
    INT_MIN ≤ ((sem_wait 3 0 (sem_init 0 boot).2).2.semaphores 0).value ∧
    ((sem_wait 3 0 (sem_init 0 boot).2).2.semaphores 0).value < INT_MAX ∧
    (sem_wait 3 0 (sem_init 0 boot).2).2.proc 3 = ThreadState.parked (Chan.sem 0) ∧
    (sem_post ((0 : Fin MAX_SEMAPHORES).val : Int) (sem_wait 3 0 (sem_init 0 boot).2).2).1 = 0 ∧
    ((sem_post ((0 : Fin MAX_SEMAPHORES).val : Int)
        (sem_wait 3 0 (sem_init 0 boot).2).2).2.semaphores 0).value
      = ((sem_wait 3 0 (sem_init 0 boot).2).2.semaphores 0).value + 1 ∧
    (sem_post ((0 : Fin MAX_SEMAPHORES).val : Int) (sem_wait 3 0 (sem_init 0 boot).2).2).2.proc 3
      = ThreadState.resumed (Chan.sem 0) :=
  ⟨by decide, by decide, by decide, by decide,
    (sem_post_increments 0 (sem_wait 3 0 (sem_init 0 boot).2).2
      (by decide) (by decide) (by decide)).1,
    (sem_post_increments 0 (sem_wait 3 0 (sem_init 0 boot).2).2
      (by decide) (by decide) (by decide)).2.1,
    (sem_post_increments 0 (sem_wait 3 0 (sem_init 0 boot).2).2
      (by decide) (by decide) (by decide)).2.2.2.2.1 3 (by decide)⟩

/-- C6: on an in-range handle whose slot is allocated, `sem_destroy` returns `0`, leaves
that slot free with value 0, leaves every other slot unchanged, and changes no thread's
state (nobody parked on the slot is woken). -/
theorem sem_destroy_frees (i : Fin MAX_SEMAPHORES) (k : Kernel)
    (halloc : (k.semaphores i).allocated ≠ 0) :
    (sem_destroy (i.val : Int) k).1 = 0 ∧
    (sem_destroy (i.val : Int) k).2.semaphores i = { value := 0, allocated := 0 } ∧
    (∀ j : Fin MAX_SEMAPHORES, j ≠ i →
      (sem_destroy (i.val : Int) k).2.semaphores j = k.semaphores j) ∧
    (sem_destroy (i.val : Int) k).2.proc = k.proc := by
  rw [sem_destroy_valid, if_neg halloc]
  refine ⟨rfl, by simp [Kernel.store], ?_, rfl⟩
  intro j hj
  simp [Kernel.store, hj]

/-- C6 witness: thread 3 is parked on handle 0 when the semaphore is destroyed, and
stays parked. -/
theorem sem_destroy_frees_witness :
    ((sem_wait 3 0 (sem_init 0 boot).2).2.semaphores 0).allocated ≠ 0 ∧
    (sem_destroy ((0 : Fin MAX_SEMAPHORES).val : Int) (sem_wait 3 0 (sem_init 0 boot).2).2).1 = 0 ∧
    (sem_destroy ((0 : Fin MAX_SEMAPHORES).val : Int)
        (sem_wait 3 0 (sem_init 0 boot).2).2).2.semaphores 0 = { value := 0, allocated := 0 } ∧
    (sem_destroy ((0 : Fin MAX_SEMAPHORES).val : Int) (sem_wait 3 0 (sem_init 0 boot).2).2).2.proc
      = (sem_wait 3 0 (sem_init 0 boot).2).2.proc :=
  ⟨by decide,
    (sem_destroy_frees 0 (sem_wait 3 0 (sem_init 0 boot).2).2 (by decide)).1,
    (sem_destroy_frees 0 (sem_wait 3 0 (sem_init 0 boot).2).2 (by decide)).2.1,
    (sem_destroy_frees 0 (sem_wait 3 0 (sem_init 0 boot).2).2 (by decide)).2.2.2⟩

/-- C7: on a handle that is negative, at least `MAX_SEMAPHORES`, or the index of a free
slot, each of `sem_wait`, `sem_post` and `sem_destroy` returns `-1` (the caller of
`sem_wait` is not parked) and the kernel state is exactly the one it was called on; a
repeated call therefore gives the same result. -/
theorem invalid_handle_rejected (p : Nat) (h : Int) (k : Kernel)
    (hbad : h < 0 ∨ (MAX_SEMAPHORES : Int) ≤ h ∨
      ∃ i : Fin MAX_SEMAPHORES, (i.val : Int) = h ∧ (k.semaphores i).allocated = 0) :
    sem_wait p h k = (some (-1), k) ∧
    sem_post h k = (-1, k) ∧
    sem_destroy h k = (-1, k) ∧
    sem_wait p h (sem_wait p h k).2 = (some (-1), k) ∧
    sem_post h (sem_post h k).2 = (-1, k) ∧
    sem_destroy h (sem_destroy h k).2 = (-1, k) := by
  have hw : sem_wait p h k = (some (-1), k) := by
    rcases hbad with hneg | hbig | ⟨i, hi, hfree⟩
    · unfold sem_wait
      rw [dif_pos (Or.inl hneg)]
    · unfold sem_wait
      rw [dif_pos (Or.inr hbig)]
    · subst hi
      rw [sem_wait_valid, if_pos hfree]
  have hp : sem_post h k = (-1, k) := by
    rcases hbad with hneg | hbig | ⟨i, hi, hfree⟩
    · unfold sem_post
      rw [dif_pos (Or.inl hneg)]
    · unfold sem_post
      rw [dif_pos (Or.inr hbig)]
    · subst hi
      rw [sem_post_valid, if_pos hfree]
  have hd : sem_destroy h k = (-1, k) := by
    rcases hbad with hneg | hbig | ⟨i, hi, hfree⟩
    · unfold sem_destroy
      rw [dif_pos (Or.inl hneg)]
    · unfold sem_destroy
      rw [dif_pos (Or.inr hbig)]
    · subst hi
      rw [sem_destroy_valid, if_pos hfree]
  refine ⟨hw, hp, hd, ?_, ?_, ?_⟩
  · rw [hw]
    exact hw
  · rw [hp]
    exact hp
  · rw [hd]
    exact hd

/-- C7 witness: handle 99 is out of range (as in `semtest.c`). -/
theorem invalid_handle_rejected_witness :
    ((99 : Int) < 0 ∨ (MAX_SEMAPHORES : Int) ≤ 99 ∨
      ∃ i : Fin MAX_SEMAPHORES, (i.val : Int) = 99 ∧ (boot.semaphores i).allocated = 0) ∧
    sem_wait 3 99 boot = (some (-1), boot) ∧
    sem_post 99 boot = (-1, boot) ∧
    sem_destroy 99 boot = (-1, boot) ∧
    sem_wait 3 99 (sem_wait 3 99 boot).2 = (some (-1), boot) ∧
    sem_post 99 (sem_post 99 boot).2 = (-1, boot) ∧
    sem_destroy 99 (sem_destroy 99 boot).2 = (-1, boot) :=
  ⟨Or.inr (Or.inl (by decide)),
    invalid_handle_rejected 3 99 boot (Or.inr (Or.inl (by decide)))⟩

/-- C8: if `MAX_SEMAPHORES` calls of `sem_init` return a handle in a sequence of steps
without `sem_destroy`, the next `sem_init` returns `-1`; and once a later `sem_destroy h`
returns `0` (steps without `sem_destroy` may come before it, steps other than `sem_init`
and `sem_destroy` after it), the next `sem_init` returns `h`. -/
theorem sem_init_capacity (k0 : Kernel) (ops mid1 mid2 : List Op) (v w h : Int)
    (hops : ∀ op ∈ ops, op.isDestroy = false)
    (h64 : init_successes ops k0 = MAX_SEMAPHORES)
    (hmid1 : ∀ op ∈ mid1, op.isDestroy = false)
    (hmid2 : ∀ op ∈ mid2, op.isInit = false ∧ op.isDestroy = false) :
    (sem_init v (run ops k0)).1 = -1 ∧
    ((sem_destroy h (run mid1 (sem_init v (run ops k0)).2)).1 = 0 →
      (sem_init w (run mid2 (sem_destroy h (run mid1 (sem_init v (run ops k0)).2)).2)).1 = h) := by
  have hcount : allocated_count (run ops k0) = MAX_SEMAPHORES := by
    have h1 := run_allocated_count ops k0 hops
    have h2 := allocated_count_le (run ops k0)
    omega
  have hfull := full_of_allocated_count _ hcount
  have hinit : sem_init v (run ops k0) = (-1, run ops k0) := by
    rcases sem_init_cases v (run ops k0) with ⟨_, hres⟩ | ⟨i, hi, _, _⟩
    · exact hres
    · exact absurd hi (hfull i)
  rw [hinit]
  refine ⟨rfl, ?_⟩
  intro hret
  have hfull1 := run_keeps_allocated mid1 (run ops k0) hmid1
  obtain ⟨i, hih, _, hstate⟩ := sem_destroy_success h _ hret
  rw [hstate]
  have hflag : ∀ j : Fin MAX_SEMAPHORES,
      ((run mid2 ((run mid1 (run ops k0)).store i { value := 0, allocated := 0 })).semaphores
          j).allocated = 0 ↔ j = i := by
    intro j
    rw [run_allocated mid2 _ hmid2 j]
    by_cases hji : j = i
    · simp [Kernel.store, hji]
    · simpa [Kernel.store, hji] using hfull1 j (hfull j)
  rcases sem_init_cases w
      (run mid2 ((run mid1 (run ops k0)).store i { value := 0, allocated := 0 }))
    with ⟨hall, _⟩ | ⟨j, hj, _, hres⟩
  · exact absurd ((hflag i).mpr rfl) (hall i)
  · rw [hres, (hflag j).mp hj]
    exact hih

set_option maxRecDepth 200000 in
/-- C8 witness: 64 creations on the empty table, then one more, then handle 5 is
destroyed and created again. -/
theorem sem_init_capacity_witness :
    (∀ op ∈ List.replicate 64 (Op.init 1), op.isDestroy = false) ∧
    init_successes (List.replicate 64 (Op.init 1)) boot = MAX_SEMAPHORES ∧
    (sem_init 2 (run (List.replicate 64 (Op.init 1)) boot)).1 = -1 ∧
    ((sem_destroy 5 (run [] (sem_init 2 (run (List.replicate 64 (Op.init 1)) boot)).2)).1 = 0 →
      (sem_init 3 (run [] (sem_destroy 5
        (run [] (sem_init 2 (run (List.replicate 64 (Op.init 1)) boot)).2)).2)).1 = 5) := by
  have hops : ∀ op ∈ List.replicate 64 (Op.init 1), op.isDestroy = false := by
    intro op hop
    rw [List.eq_of_mem_replicate hop]
    rfl
  have h64 : init_successes (List.replicate 64 (Op.init 1)) boot = MAX_SEMAPHORES := by
    decide
  exact ⟨hops, h64,
    sem_init_capacity boot (List.replicate 64 (Op.init 1)) [] [] 2 3 5 hops h64 (by simp) (by simp)⟩

/-- C9, as stated, fails twice. With start value `-1` the inequality `a <= v + b` is
false before any call is made (`a = b = 0`). With start value `INT_MAX` one `sem_post`
returns `0` (`a = 0`, `b = 1`) and leaves `INT_MIN` in the slot, not `v - a + b`. -/
theorem sem_value_counting_counterexample :
    ((sem_init (-1) boot).1 = 0 ∧
      ¬ ((wait_successes 0 [] (sem_init (-1) boot).2 : Int)
          ≤ -1 + (post_successes 0 [] (sem_init (-1) boot).2 : Int))) ∧
    ((sem_init 2147483647 boot).1 = 0 ∧
      wait_successes 0 [Op.post 0] (sem_init 2147483647 boot).2 = 0 ∧
      post_successes 0 [Op.post 0] (sem_init 2147483647 boot).2 = 1 ∧
      ((run [Op.post 0] (sem_init 2147483647 boot).2).semaphores 0).value = -2147483648 ∧
      ((run [Op.post 0] (sem_init 2147483647 boot).2).semaphores 0).value
        ≠ 2147483647 - (wait_successes 0 [Op.post 0] (sem_init 2147483647 boot).2 : Int)
            + (post_successes 0 [Op.post 0] (sem_init 2147483647 boot).2 : Int)) := by
  decide

/-- C9 (amended): let `sem_init v`, with `v` a 32-bit `int`, return the handle of slot
`i`, and let a sequence of steps follow that contains no `sem_destroy(i)` and no
`sem_post(i)` issued while the slot holds `INT_MAX`. At every prefix of the sequence,
with `a` calls of `sem_wait(i)` and `b` calls of `sem_post(i)` having returned `0`, the
value of slot `i` is `v - a + b`, and `a <= v + b` when `v >= 0`. -/
theorem sem_value_counting (v : Int) (k0 : Kernel) (i : Fin MAX_SEMAPHORES) (ops : List Op)
    (hv : INT_MIN ≤ v)
    (hcreate : (sem_init v k0).1 = (i.val : Int))
    (hnd : ∀ op ∈ ops, op ≠ Op.destroy (i.val : Int))
    (hsafe : post_in_range i ops (sem_init v k0).2 = true) :
    ∀ n : Nat,
      ((run (ops.take n) (sem_init v k0).2).semaphores i).value
        = v - (wait_successes i (ops.take n) (sem_init v k0).2 : Int)
            + (post_successes i (ops.take n) (sem_init v k0).2 : Int) ∧
      (0 ≤ v → (wait_successes i (ops.take n) (sem_init v k0).2 : Int)
          ≤ v + (post_successes i (ops.take n) (sem_init v k0).2 : Int)) := by
  intro n
  obtain ⟨_, hstate⟩ := sem_init_success v k0 i hcreate
  have hslot : (sem_init v k0).2.semaphores i = { value := v, allocated := 1 } := by
    rw [hstate]
    simp [Kernel.store]
  have halloc : ((sem_init v k0).2.semaphores i).allocated ≠ 0 := by
    rw [hslot]
    simp
  have hval : ((sem_init v k0).2.semaphores i).value = v := by
    rw [hslot]
  have hmin : INT_MIN ≤ min v 0 := by
    unfold INT_MIN at hv ⊢
    omega
  obtain ⟨_, heq, hge⟩ := run_slot i (min v 0) hmin (min_le_right _ _) (ops.take n)
    (sem_init v k0).2 halloc
    (fun op hop => hnd op (List.mem_of_mem_take hop))
    (post_in_range_take i ops n _ hsafe)
    (by rw [hval]; exact min_le_left _ _)
  rw [hval] at heq
  refine ⟨heq, ?_⟩
  intro hv0
  rw [heq] at hge
  omega

/-- C9 witness: created with value 1 at handle 0; thread 3 waits and returns, thread 4
waits and parks, a post resumes thread 4, which then returns. -/
theorem sem_value_counting_witness :
    INT_MIN ≤ 1 ∧
    (sem_init 1 boot).1 = ((0 : Fin MAX_SEMAPHORES).val : Int) ∧
    (∀ op ∈ [Op.wait 3 0, Op.wait 4 0, Op.post 0, Op.resume 4],
      op ≠ Op.destroy ((0 : Fin MAX_SEMAPHORES).val : Int)) ∧
    post_in_range 0 [Op.wait 3 0, Op.wait 4 0, Op.post 0, Op.resume 4]
      (sem_init 1 boot).2 = true ∧
    ∀ n : Nat,
      ((run ([Op.wait 3 0, Op.wait 4 0, Op.post 0, Op.resume 4].take n)
          (sem_init 1 boot).2).semaphores 0).value
        = 1 - (wait_successes 0 ([Op.wait 3 0, Op.wait 4 0, Op.post 0, Op.resume 4].take n)
                (sem_init 1 boot).2 : Int)
            + (post_successes 0 ([Op.wait 3 0, Op.wait 4 0, Op.post 0, Op.resume 4].take n)
                (sem_init 1 boot).2 : Int) ∧
      ((0 : Int) ≤ 1 →
        (wait_successes 0 ([Op.wait 3 0, Op.wait 4 0, Op.post 0, Op.resume 4].take n)
            (sem_init 1 boot).2 : Int)
          ≤ 1 + (post_successes 0 ([Op.wait 3 0, Op.wait 4 0, Op.post 0, Op.resume 4].take n)
              (sem_init 1 boot).2 : Int)) :=
  ⟨by decide, by decide, by decide, by decide,
    sem_value_counting 1 boot 0 [Op.wait 3 0, Op.wait 4 0, Op.post 0, Op.resume 4]
      (by decide) (by decide) (by decide) (by decide)⟩

/-- C10, as stated, fails: after `seminit`, `sem_init(-1)` leaves slot 0 allocated with
value `-1`; and `sem_init(INT_MAX)` followed by `sem_post(0)` leaves slot 0 allocated
with value `INT_MIN`. -/
theorem allocated_value_nonneg_counterexample :
    (((run [Op.init (-1)] (seminit boot)).semaphores 0).allocated ≠ 0 ∧
      ((run [Op.init (-1)] (seminit boot)).semaphores 0).value = -1 ∧
      ¬ 0 ≤ ((run [Op.init (-1)] (seminit boot)).semaphores 0).value) ∧
    (((run [Op.init 2147483647, Op.post 0] (seminit boot)).semaphores 0).allocated ≠ 0 ∧
      ((run [Op.init 2147483647, Op.post 0] (seminit boot)).semaphores 0).value
        = -2147483648 ∧
      ¬ 0 ≤ ((run [Op.init 2147483647, Op.post 0] (seminit boot)).semaphores 0).value) := by
  decide

/-- C10 (amended): in every state reached from `seminit` by a sequence of steps in which
no `sem_init` has a negative start value and no `sem_post` is issued on a slot that
holds `INT_MAX`, every allocated slot has value `>= 0`. -/
theorem allocated_value_nonneg (k0 : Kernel) (ops : List Op)
    (hstart : ∀ op ∈ ops, op.startNonneg = true)
    (hsafe : ∀ j : Fin MAX_SEMAPHORES, post_in_range j ops (seminit k0) = true) :
    ∀ j : Fin MAX_SEMAPHORES, ((run ops (seminit k0)).semaphores j).allocated ≠ 0 →
      0 ≤ ((run ops (seminit k0)).semaphores j).value := by
  intro j _
  refine run_nonneg ops (seminit k0) ?_ hstart hsafe j
  intro i
  rw [(seminit_spec k0).1 i]

/-- C10 witness: from the cleared table, a semaphore of value 1 is created, taken by
thread 3, waited for by thread 4, posted, taken by thread 4 and destroyed. -/
theorem allocated_value_nonneg_witness :
    (∀ op ∈ [Op.init 1, Op.wait 3 0, Op.wait 4 0, Op.post 0, Op.resume 4, Op.init 0],
      op.startNonneg = true) ∧
    (∀ j : Fin MAX_SEMAPHORES,
      post_in_range j [Op.init 1, Op.wait 3 0, Op.wait 4 0, Op.post 0, Op.resume 4, Op.init 0]
        (seminit boot) = true) ∧
    ∀ j : Fin MAX_SEMAPHORES,
      ((run [Op.init 1, Op.wait 3 0, Op.wait 4 0, Op.post 0, Op.resume 4, Op.init 0]
        (seminit boot)).semaphores j).allocated ≠ 0 →
      0 ≤ ((run [Op.init 1, Op.wait 3 0, Op.wait 4 0, Op.post 0, Op.resume 4, Op.init 0]
        (seminit boot)).semaphores j).value :=
  ⟨by decide, by decide,
    allocated_value_nonneg boot
      [Op.init 1, Op.wait 3 0, Op.wait 4 0, Op.post 0, Op.resume 4, Op.init 0]
      (by decide) (by decide)⟩

/-- C11: in every state reached from `seminit` by a sequence of steps, every free slot
has value 0; and `seminit` itself leaves every slot free with value 0. -/
theorem free_slot_value_zero (k0 : Kernel) (ops : List Op) :
    (∀ j : Fin MAX_SEMAPHORES, (seminit k0).semaphores j = { value := 0, allocated := 0 }) ∧
    (∀ j : Fin MAX_SEMAPHORES, ((run ops (seminit k0)).semaphores j).allocated = 0 →
      ((run ops (seminit k0)).semaphores j).value = 0) := by
  refine ⟨(seminit_spec k0).1, ?_⟩
  refine run_free_value ops (seminit k0) ?_
  intro j _
  rw [(seminit_spec k0).1 j]

/-- C12: `sem_wait` (a first pass as well as a resumed one) and `sem_post` change no
slot's `allocated` field, `sem_init` turns no allocated slot into a free one, and
`sem_destroy` turns no free slot into an allocated one. -/
theorem allocated_flag_frame (p : Nat) (h v : Int) (k : Kernel) (j : Fin MAX_SEMAPHORES) :
    ((sem_wait p h k).2.semaphores j).allocated = (k.semaphores j).allocated ∧
    ((sem_wait_resume p k).2.semaphores j).allocated = (k.semaphores j).allocated ∧
    ((sem_post h k).2.semaphores j).allocated = (k.semaphores j).allocated ∧
    ((k.semaphores j).allocated ≠ 0 → ((sem_init v k).2.semaphores j).allocated ≠ 0) ∧
    ((k.semaphores j).allocated = 0 → ((sem_destroy h k).2.semaphores j).allocated = 0) :=
  ⟨sem_wait_allocated p h k j, sem_wait_resume_allocated p k j, sem_post_allocated h k j,
    sem_init_keeps_allocated v k j, sem_destroy_keeps_free h k j⟩

/-- C13: when `sem_init v` returns a handle `h >= 0`, `sem_destroy h` returns `0` and an
immediately following `sem_init w` returns the same `h` and leaves `{w, 1}` in that slot.
A following `sem_wait h` goes by the new value: with `w <= 0` (so with `w = 0`, whatever
`v` was) the caller is parked on the slot's channel, with `w > 0` it returns `0`. -/
theorem destroy_then_reuse (p : Nat) (v w : Int) (k : Kernel)
    (hret : 0 ≤ (sem_init v k).1) :
    (sem_destroy (sem_init v k).1 (sem_init v k).2).1 = 0 ∧
    (sem_init w (sem_destroy (sem_init v k).1 (sem_init v k).2).2).1 = (sem_init v k).1 ∧
    ∃ i : Fin MAX_SEMAPHORES, (i.val : Int) = (sem_init v k).1 ∧
      (sem_init w (sem_destroy (sem_init v k).1 (sem_init v k).2).2).2.semaphores i
        = { value := w, allocated := 1 } ∧
      (w ≤ 0 →
        (sem_wait p (sem_init v k).1
          (sem_init w (sem_destroy (sem_init v k).1 (sem_init v k).2).2).2).1 = none ∧
        (sem_wait p (sem_init v k).1
          (sem_init w (sem_destroy (sem_init v k).1 (sem_init v k).2).2).2).2.proc p
            = ThreadState.parked (Chan.sem i)) ∧
      (0 < w →
        (sem_wait p (sem_init v k).1
          (sem_init w (sem_destroy (sem_init v k).1 (sem_init v k).2).2).2).1 = some 0) := by
  rcases sem_init_cases v k with ⟨_, hres⟩ | ⟨i, hi, hmin, hres⟩
  · rw [hres] at hret
    simp at hret
  · rw [hres]
    simp only
    have hd : sem_destroy (i.val : Int) (k.store i { value := v, allocated := 1 })
        = (0, (k.store i { value := v, allocated := 1 }).store i
            { value := 0, allocated := 0 }) := by
      rw [sem_destroy_valid, if_neg (by simp [Kernel.store])]
    rw [hd]
    simp only
    have hinit : sem_init w ((k.store i { value := v, allocated := 1 }).store i
          { value := 0, allocated := 0 })
        = ((i.val : Int), ((k.store i { value := v, allocated := 1 }).store i
            { value := 0, allocated := 0 }).store i { value := w, allocated := 1 }) := by
      rcases sem_init_cases w ((k.store i { value := v, allocated := 1 }).store i
          { value := 0, allocated := 0 }) with ⟨hall, _⟩ | ⟨j, hj, hjmin, hjres⟩
      · exact absurd (by simp [Kernel.store]) (hall i)
      · have hji : j = i := by
          by_contra hne
          rcases Nat.lt_or_gt_of_ne (fun hh => hne (Fin.ext hh)) with hlt | hgt
          · have h1 := hmin j hlt
            simp [Kernel.store, hne] at hj
            exact h1 hj
          · have h2 := hjmin i hgt
            simp [Kernel.store] at h2
        rw [hjres, hji]
    rw [hinit]
    refine ⟨trivial, rfl, i, rfl, by simp [Kernel.store], ?_, ?_⟩
    · intro hw
      rw [sem_wait_valid, if_neg (by simp [Kernel.store])]
      simp [sem_wait_loop, Kernel.store, sleep, hw]
    · intro hw
      have hnot : ¬ w ≤ 0 := not_le.mpr hw
      rw [sem_wait_valid, if_neg (by simp [Kernel.store])]
      simp [sem_wait_loop, Kernel.store, hnot]

/-- C13 witness: semaphore A of value 1 is created after two others, destroyed, and
semaphore B of value 0 is created at the same handle 2. -/
theorem destroy_then_reuse_witness :
    0 ≤ (sem_init 1 (sem_init 7 (sem_init 5 boot).2).2).1 ∧
    (sem_init 1 (sem_init 7 (sem_init 5 boot).2).2).1 = 2 ∧
    (sem_destroy (sem_init 1 (sem_init 7 (sem_init 5 boot).2).2).1
      (sem_init 1 (sem_init 7 (sem_init 5 boot).2).2).2).1 = 0 ∧
    (sem_init 0 (sem_destroy (sem_init 1 (sem_init 7 (sem_init 5 boot).2).2).1
      (sem_init 1 (sem_init 7 (sem_init 5 boot).2).2).2).2).1
        = (sem_init 1 (sem_init 7 (sem_init 5 boot).2).2).1 :=
  ⟨by decide, by decide,
    (destroy_then_reuse 3 1 0 (sem_init 7 (sem_init 5 boot).2).2 (by decide)).1,
    (destroy_then_reuse 3 1 0 (sem_init 7 (sem_init 5 boot).2).2 (by decide)).2.1⟩

/-- C14: on the table left by `seminit`, `sem_init 1` returns handle 0; `sem_wait 0` by
thread `p` returns `0` and leaves value 0; `sem_wait 0` by thread `q` parks `q`;
`sem_post 0` returns `0` and resumes `q`. Whichever resumed waiter `r` runs first
completes its decrement and returns `0`, leaving value 0, and any other resumed waiter
that runs after it parks again with the value still 0. -/
theorem end_to_end_scenario (k0 k1 k2 k3 k4 : Kernel) (p q : Nat)
    (h1 : k1 = (sem_init 1 (seminit k0)).2)
    (h2 : k2 = (sem_wait p 0 k1).2)
    (h3 : k3 = (sem_wait q 0 k2).2)
    (h4 : k4 = (sem_post 0 k3).2) :
    (sem_init 1 (seminit k0)).1 = 0 ∧
    (sem_wait p 0 k1).1 = some 0 ∧
    (k2.semaphores 0).value = 0 ∧
    (sem_wait q 0 k2).1 = none ∧
    k3.proc q = ThreadState.parked (Chan.sem 0) ∧
    (k3.semaphores 0).value = 0 ∧
    (sem_post 0 k3).1 = 0 ∧
    k4.proc q = ThreadState.resumed (Chan.sem 0) ∧
    ∀ r : Nat, k4.proc r = ThreadState.resumed (Chan.sem 0) →
      (sem_wait_resume r k4).1 = some 0 ∧
      ((sem_wait_resume r k4).2.semaphores 0).value = 0 ∧
      ∀ r2 : Nat, r2 ≠ r → k4.proc r2 = ThreadState.resumed (Chan.sem 0) →
        (sem_wait_resume r2 (sem_wait_resume r k4).2).1 = none ∧
        ((sem_wait_resume r2 (sem_wait_resume r k4).2).2.semaphores 0).value = 0 ∧
        (sem_wait_resume r2 (sem_wait_resume r k4).2).2.proc r2
          = ThreadState.parked (Chan.sem 0) := by
  have e1 : k1 = (seminit k0).store 0 { value := 1, allocated := 1 } := by
    rw [h1, sem_init_after_seminit]
  have hc : ((0 : Fin MAX_SEMAPHORES).val : Int) = 0 := rfl
  have e2 : sem_wait p 0 k1 = (some 0, k1.store 0 { value := 0, allocated := 1 }) := by
    rw [← hc, sem_wait_valid, e1]
    simp [sem_wait_loop, Kernel.store]
  have e2s : k2 = k1.store 0 { value := 0, allocated := 1 } := by
    rw [h2, e2]
  have e3 : sem_wait q 0 k2 = (none, sleep q (Chan.sem 0) k2) := by
    rw [← hc, sem_wait_valid, e2s]
    simp [sem_wait_loop, Kernel.store]
  have e3s : k3 = sleep q (Chan.sem 0) k2 := by
    rw [h3, e3]
  have e4 : sem_post 0 k3
      = (0, wakeup (Chan.sem 0) (k3.store 0 { value := 1, allocated := 1 })) := by
    rw [← hc, sem_post_valid, e3s, e2s]
    simp [Kernel.store, sleep, int_wrap]
  have e4s : k4 = wakeup (Chan.sem 0) (k3.store 0 { value := 1, allocated := 1 }) := by
    rw [h4, e4]
  have v4 : (k4.semaphores 0) = { value := 1, allocated := 1 } := by
    rw [e4s]
    simp [wakeup, Kernel.store]
  refine ⟨by rw [sem_init_after_seminit], by rw [e2], by rw [e2s]; simp [Kernel.store],
    by rw [e3], by rw [e3s]; simp [sleep], by rw [e3s, e2s]; simp [sleep, Kernel.store],
    by rw [e4], by rw [e4s, e3s]; simp [wakeup, Kernel.store, sleep], ?_⟩
  intro r hr
  obtain ⟨a1, a2, a3⟩ := (sem_wait_resume_cases r 0 k4 hr).2 (by rw [v4]; decide)
  have v5 : ((sem_wait_resume r k4).2.semaphores 0).value = 0 := by
    rw [a2, v4]
    simp
  refine ⟨a1, v5, ?_⟩
  intro r2 hne hr2
  have hr2b : (sem_wait_resume r k4).2.proc r2 = ThreadState.resumed (Chan.sem 0) := by
    rw [a3]
    simp [hne, hr2]
  obtain ⟨b1, b2, b3⟩ := (sem_wait_resume_cases r2 0 (sem_wait_resume r k4).2 hr2b).1
    (by rw [v5])
  refine ⟨b1, by rw [b2]; exact v5, by rw [b3]; simp⟩

/-- C14 witness: the scenario on the cleared table, with threads 3 and 4. -/
theorem end_to_end_scenario_witness :
    (sem_init 1 (seminit boot)).1 = 0 ∧
    (sem_wait 3 0 (sem_init 1 (seminit boot)).2).1 = some 0 ∧
    ((sem_wait 3 0 (sem_init 1 (seminit boot)).2).2.semaphores 0).value = 0 ∧
    (sem_wait 4 0 (sem_wait 3 0 (sem_init 1 (seminit boot)).2).2).1 = none :=
  ⟨(end_to_end_scenario boot (sem_init 1 (seminit boot)).2
      (sem_wait 3 0 (sem_init 1 (seminit boot)).2).2
      (sem_wait 4 0 (sem_wait 3 0 (sem_init 1 (seminit boot)).2).2).2
      (sem_post 0 (sem_wait 4 0 (sem_wait 3 0 (sem_init 1 (seminit boot)).2).2).2).2
      3 4 rfl rfl rfl rfl).1,
    (end_to_end_scenario boot (sem_init 1 (seminit boot)).2
      (sem_wait 3 0 (sem_init 1 (seminit boot)).2).2
      (sem_wait 4 0 (sem_wait 3 0 (sem_init 1 (seminit boot)).2).2).2
      (sem_post 0 (sem_wait 4 0 (sem_wait 3 0 (sem_init 1 (seminit boot)).2).2).2).2
      3 4 rfl rfl rfl rfl).2.1,
    (end_to_end_scenario boot (sem_init 1 (seminit boot)).2
      (sem_wait 3 0 (sem_init 1 (seminit boot)).2).2
      (sem_wait 4 0 (sem_wait 3 0 (sem_init 1 (seminit boot)).2).2).2
      (sem_post 0 (sem_wait 4 0 (sem_wait 3 0 (sem_init 1 (seminit boot)).2).2).2).2
      3 4 rfl rfl rfl rfl).2.2.1,
    (end_to_end_scenario boot (sem_init 1 (seminit boot)).2
      (sem_wait 3 0 (sem_init 1 (seminit boot)).2).2
      (sem_wait 4 0 (sem_wait 3 0 (sem_init 1 (seminit boot)).2).2).2
      (sem_post 0 (sem_wait 4 0 (sem_wait 3 0 (sem_init 1 (seminit boot)).2).2).2).2
      3 4 rfl rfl rfl rfl).2.2.2.1⟩

/-- C16, as stated, fails at the largest `int`: on an allocated slot holding
`2^31 - 1`, `sem_post` returns `0` and the value stored is `-2^31`, not `2^31`. -/
theorem sem_post_ceiling_counterexample :
    (({ semaphores := fun _ => { value := 2147483647, allocated := 1 },
        proc := fun _ => ThreadState.running } : Kernel).semaphores 5).allocated ≠ 0 ∧
    (sem_post 5 { semaphores := fun _ => { value := 2147483647, allocated := 1 },
                  proc := fun _ => ThreadState.running }).1 = 0 ∧
    ((sem_post 5 { semaphores := fun _ => { value := 2147483647, allocated := 1 },
                   proc := fun _ => ThreadState.running }).2.semaphores 5).value
      = -2147483648 ∧
    ((sem_post 5 { semaphores := fun _ => { value := 2147483647, allocated := 1 },
                   proc := fun _ => ThreadState.running }).2.semaphores 5).value
      ≠ 2147483647 + 1 := by
  decide

/-- C16 (amended): `sem_post` applies no ceiling of its own: for every allocated slot
and every current value `n` of the `int` range other than the largest `int`, a
`sem_post` returns `0` and stores `n + 1`. -/
theorem sem_post_no_ceiling (i : Fin MAX_SEMAPHORES) (k : Kernel) (n : Int)
    (halloc : (k.semaphores i).allocated ≠ 0)
    (hn : (k.semaphores i).value = n)
    (hlo : INT_MIN ≤ n) (hhi : n < INT_MAX) :
    (sem_post (i.val : Int) k).1 = 0 ∧
    ((sem_post (i.val : Int) k).2.semaphores i).value = n + 1 := by
  rw [sem_post_valid, if_neg halloc, hn, int_wrap_succ n hlo hhi]
  exact ⟨rfl, by simp [wakeup, Kernel.store]⟩

/-- C16 witness: the value just below the largest `int`. -/
theorem sem_post_no_ceiling_witness :
    ((sem_init 2147483646 boot).2.semaphores 0).allocated ≠ 0 ∧
    ((sem_init 2147483646 boot).2.semaphores 0).value = 2147483646 ∧
    INT_MIN ≤ 2147483646 ∧ (2147483646 : Int) < INT_MAX ∧
    (sem_post ((0 : Fin MAX_SEMAPHORES).val : Int) (sem_init 2147483646 boot).2).1 = 0 ∧
    ((sem_post ((0 : Fin MAX_SEMAPHORES).val : Int)
        (sem_init 2147483646 boot).2).2.semaphores 0).value = 2147483646 + 1 :=
  ⟨by decide, by decide, by decide, by decide,
    sem_post_no_ceiling 0 (sem_init 2147483646 boot).2 2147483646
      (by decide) (by decide) (by decide) (by decide)⟩

/-- C17: on a mapped buffer of `1 <= len <= 4096` bytes inside the 64-bit address
space, `sys_encrypt` returns `len`, `sys_decrypt` on the result returns `len`, and the
memory after both calls is the memory before them. -/
theorem encrypt_decrypt_round_trip (addr : Nat) (len : Int) (m : UserMem)
    (h1 : 1 ≤ len) (h2 : len ≤ 4096) (hwrap : addr + len.toNat ≤ 2 ^ 64)
    (hmap : ∀ j < len.toNat, m.mapped (addr + j) = true) :
    (sys_encrypt addr len m).1 = len ∧
    (sys_decrypt addr len (sys_encrypt addr len m).2).1 = len ∧
    (sys_decrypt addr len (sys_encrypt addr len m).2).2.byte = m.byte ∧
    (sys_decrypt addr len (sys_encrypt addr len m).2).2.mapped = m.mapped := by
  obtain ⟨e1, e2, e3⟩ := sys_encrypt_spec addr len m h1 h2 hwrap hmap
  have hmap2 : ∀ j < len.toNat, (sys_encrypt addr len m).2.mapped (addr + j) = true := by
    intro j hj
    rw [e2]
    exact hmap j hj
  obtain ⟨d1, d2, d3⟩ := sys_encrypt_spec addr len (sys_encrypt addr len m).2 h1 h2 hwrap hmap2
  refine ⟨e1, d1, ?_, by rw [sys_decrypt, d2, e2]⟩
  funext a
  rw [sys_decrypt, d3 a, e3 a]
  split
  · exact xor_key_involutive _
  · rfl

/-- C17 witness: 1300 bytes at address 100, three chunks. -/
theorem encrypt_decrypt_round_trip_witness :
    (1 : Int) ≤ 1300 ∧ (1300 : Int) ≤ 4096 ∧
    (sys_encrypt 100 1300 user_mem).1 = 1300 ∧
    (sys_decrypt 100 1300 (sys_encrypt 100 1300 user_mem).2).1 = 1300 ∧
    (sys_decrypt 100 1300 (sys_encrypt 100 1300 user_mem).2).2.byte = user_mem.byte ∧
    (sys_decrypt 100 1300 (sys_encrypt 100 1300 user_mem).2).2.mapped = user_mem.mapped :=
  ⟨by decide, by decide,
    encrypt_decrypt_round_trip 100 1300 user_mem (by decide) (by decide) (by decide)
      (by
        intro j hj
        have h : (1300 : Int).toNat = 1300 := rfl
        rw [h] at hj
        simp only [user_mem, decide_eq_true_eq]
        omega)⟩

/-- C18: with `len <= 0` or `len > 4096`, `sys_encrypt` returns `-1` and the memory is
the one it was called on; on a mapped buffer of `1 <= len <= 4096` bytes inside the
64-bit address space it returns `len`, for instance 255 for 255 bytes. -/
theorem sys_encrypt_length_check (addr : Nat) (len : Int) (m : UserMem) :
    ((len ≤ 0 ∨ 4096 < len) → sys_encrypt addr len m = (-1, m)) ∧
    (1 ≤ len → len ≤ 4096 → addr + len.toNat ≤ 2 ^ 64 →
      (∀ j < len.toNat, m.mapped (addr + j) = true) → (sys_encrypt addr len m).1 = len) ∧
    (sys_encrypt 100 255 user_mem).1 = 255 := by
  refine ⟨?_, ?_, ?_⟩
  · intro h
    unfold sys_encrypt
    rw [if_pos h]
  · intro h1 h2 hwrap hmap
    exact (sys_encrypt_spec addr len m h1 h2 hwrap hmap).1
  · refine (sys_encrypt_spec 100 255 user_mem (by decide) (by decide) (by decide) ?_).1
    intro j hj
    have h : (255 : Int).toNat = 255 := rfl
    rw [h] at hj
    simp only [user_mem, decide_eq_true_eq]
    omega

/-- C19: after `sys_buffer_init`, up to `BUFFER_SIZE` consecutive `sys_produce` calls
each return `0`; on every initialised buffer with `count = 10`, `sys_produce` returns
`-1` and the buffer state is the one it was called on; this is the case after the tenth
of those calls. -/
theorem produce_until_full (s0 s : SharedBuf) (m : UserMem) (items : List Int) (item : Int)
    (hlen : items.length ≤ BUFFER_SIZE) :
    (sys_buffer_init s0).1 = 0 ∧
    (buf_run (items.map BufOp.produce) ((sys_buffer_init s0).2, m)).1
      = List.replicate items.length 0 ∧
    (s.initialized ≠ 0 → s.count = 10 → sys_produce item s = (-1, s)) ∧
    (items.length = BUFFER_SIZE →
      sys_produce item (buf_run (items.map BufOp.produce) ((sys_buffer_init s0).2, m)).2.1
        = (-1, (buf_run (items.map BufOp.produce) ((sys_buffer_init s0).2, m)).2.1)) := by
  have hfull : ∀ t : SharedBuf, t.initialized ≠ 0 → t.count = 10 →
      sys_produce item t = (-1, t) := by
    intro t hinit hcount
    have hge : t.count ≥ (BUFFER_SIZE : Int) := by
      rw [hcount]
      decide
    unfold sys_produce
    rw [if_neg hinit, if_pos hge]
  obtain ⟨r1, r2, r3⟩ := buf_run_produce items ((sys_buffer_init s0).2, m)
    (by simp [sys_buffer_init])
    (by
      simp only [sys_buffer_init]
      have : (items.length : Int) ≤ (BUFFER_SIZE : Int) := by exact_mod_cast hlen
      omega)
  refine ⟨rfl, r1, hfull s, ?_⟩
  intro h10
  apply hfull
  · rw [r3]
    simp [sys_buffer_init]
  · rw [r2, h10]
    simp [sys_buffer_init]

/-- C19 witness: the ten items of the test, on a stale buffer. -/
theorem produce_until_full_witness :
    [100, 101, 102, 103, 104, 105, 106, 107, 108, 109].length ≤ BUFFER_SIZE ∧
    (buf_run ([100, 101, 102, 103, 104, 105, 106, 107, 108, 109].map BufOp.produce)
      ((sys_buffer_init stale_buf).2, user_mem)).1 = List.replicate 10 0 ∧
    sys_produce 999
      (buf_run ([100, 101, 102, 103, 104, 105, 106, 107, 108, 109].map BufOp.produce)
        ((sys_buffer_init stale_buf).2, user_mem)).2.1
      = (-1, (buf_run ([100, 101, 102, 103, 104, 105, 106, 107, 108, 109].map BufOp.produce)
        ((sys_buffer_init stale_buf).2, user_mem)).2.1) :=
  ⟨by decide,
    (produce_until_full stale_buf stale_buf user_mem
      [100, 101, 102, 103, 104, 105, 106, 107, 108, 109] 999 (by decide)).2.1,
    (produce_until_full stale_buf stale_buf user_mem
      [100, 101, 102, 103, 104, 105, 106, 107, 108, 109] 999 (by decide)).2.2.2 rfl⟩

/-- C20: on every initialised buffer with `count = 0`, `sys_consume` returns `-1`, and
the buffer state and the user memory are the ones it was called on; this is the case
after `sys_buffer_init`, ten `sys_produce` calls and ten `sys_consume` calls. -/
theorem consume_when_empty (s0 s : SharedBuf) (m0 m : UserMem) (items : List Int)
    (addrs : List Nat) (a : Nat)
    (hitems : items.length = BUFFER_SIZE) (haddrs : addrs.length = BUFFER_SIZE) :
    (s.initialized ≠ 0 → s.count = 0 → sys_consume a s m = (-1, s, m)) ∧
    sys_consume a
        (buf_run (BufOp.binit :: (items.map BufOp.produce ++ addrs.map BufOp.consume))
          (s0, m0)).2.1
        (buf_run (BufOp.binit :: (items.map BufOp.produce ++ addrs.map BufOp.consume))
          (s0, m0)).2.2
      = (-1,
        (buf_run (BufOp.binit :: (items.map BufOp.produce ++ addrs.map BufOp.consume))
          (s0, m0)).2.1,
        (buf_run (BufOp.binit :: (items.map BufOp.produce ++ addrs.map BufOp.consume))
          (s0, m0)).2.2) := by
  have hempty : ∀ (t : SharedBuf) (n : UserMem), t.initialized ≠ 0 → t.count = 0 →
      sys_consume a t n = (-1, t, n) := by
    intro t n hinit hcount
    have hle : t.count ≤ 0 := le_of_eq hcount
    unfold sys_consume
    rw [if_neg hinit, if_pos hle]
  refine ⟨hempty s m, ?_⟩
  obtain ⟨_, r2, r3⟩ := buf_run_produce items ((sys_buffer_init s0).2, m0)
    (by simp [sys_buffer_init])
    (by
      simp only [sys_buffer_init]
      rw [hitems]
      decide)
  obtain ⟨c1, c2⟩ := buf_run_consume addrs
    (buf_run (items.map BufOp.produce) ((sys_buffer_init s0).2, m0)).2
    (by rw [r3]; simp [sys_buffer_init])
    (by
      rw [r2, haddrs, hitems]
      simp [sys_buffer_init])
  have hstate : (buf_run (BufOp.binit :: (items.map BufOp.produce ++ addrs.map BufOp.consume))
      (s0, m0)).2
      = (buf_run (addrs.map BufOp.consume)
          (buf_run (items.map BufOp.produce) ((sys_buffer_init s0).2, m0)).2).2 := by
    simp only [buf_run, buf_step]
    exact buf_run_append _ _ _
  rw [hstate]
  apply hempty
  · rw [c2, r3]
    simp [sys_buffer_init]
  · rw [c1, r2, haddrs, hitems]
    simp [sys_buffer_init]

/-- C20 witness: ten items produced on a stale buffer and consumed to mapped addresses. -/
theorem consume_when_empty_witness :
    [100, 101, 102, 103, 104, 105, 106, 107, 108, 109].length = BUFFER_SIZE ∧
    [16, 16, 16, 16, 16, 16, 16, 16, 16, 16].length = BUFFER_SIZE ∧
    sys_consume 16
        (buf_run (BufOp.binit ::
          ([100, 101, 102, 103, 104, 105, 106, 107, 108, 109].map BufOp.produce
            ++ [16, 16, 16, 16, 16, 16, 16, 16, 16, 16].map BufOp.consume))
          (stale_buf, user_mem)).2.1
        (buf_run (BufOp.binit ::
          ([100, 101, 102, 103, 104, 105, 106, 107, 108, 109].map BufOp.produce
            ++ [16, 16, 16, 16, 16, 16, 16, 16, 16, 16].map BufOp.consume))
          (stale_buf, user_mem)).2.2
      = (-1,
        (buf_run (BufOp.binit ::
          ([100, 101, 102, 103, 104, 105, 106, 107, 108, 109].map BufOp.produce
            ++ [16, 16, 16, 16, 16, 16, 16, 16, 16, 16].map BufOp.consume))
          (stale_buf, user_mem)).2.1,
        (buf_run (BufOp.binit ::
          ([100, 101, 102, 103, 104, 105, 106, 107, 108, 109].map BufOp.produce
            ++ [16, 16, 16, 16, 16, 16, 16, 16, 16, 16].map BufOp.consume))
          (stale_buf, user_mem)).2.2) :=
  ⟨by decide, by decide,
    (consume_when_empty stale_buf stale_buf user_mem user_mem
      [100, 101, 102, 103, 104, 105, 106, 107, 108, 109]
      [16, 16, 16, 16, 16, 16, 16, 16, 16, 16] 16 (by decide) (by decide)).2⟩

/-- C22: the code at the input of the claim. For `n = 0`, and for every `n < 1`,
`sys_settickets` returns `0` and sets the caller's ticket count to 1; it neither
returns a negative result nor leaves the count as it was. -/
theorem settickets_zero_clamped :
    (∀ (n : Int) (p : Proc), n < 1 →
      (sys_settickets n p).1 = 0 ∧ (sys_settickets n p).2.tickets = 1) ∧
    sys_settickets 0 { pid := 3, tickets := 50 } = (0, { pid := 3, tickets := 1 }) ∧
    ¬ (sys_settickets 0 { pid := 3, tickets := 50 }).1 < 0 ∧
    (sys_settickets 0 { pid := 3, tickets := 50 }).2.tickets ≠ 50 := by
  refine ⟨?_, by decide, by decide, by decide⟩
  intro n p hn
  simp [sys_settickets, hn]

/-- C23, as stated, fails: on an allocated slot the effects of `sem_post` are not
acquire, increment, release, wake-up; the wake-up is the third effect and the lock is
held when it is issued. -/
theorem sem_post_order_counterexample :
    (sem_post_trace 0 (sem_init 0 boot).2).1 = 0 ∧
    (sem_post_trace 0 (sem_init 0 boot).2).2.2
      ≠ [Effect.acquire 0, Effect.increment 0, Effect.release 0, Effect.wakeup (Chan.sem 0)] ∧
    (sem_post_trace 0 (sem_init 0 boot).2).2.2
      = [Effect.acquire 0, Effect.increment 0] ++
          Effect.wakeup (Chan.sem 0) :: [Effect.release 0] ∧
    lock_held 0 [Effect.acquire 0, Effect.increment 0] = true := by
  decide

/-- C23 (amended): on an in-range handle whose slot is allocated, the effects of
`sem_post` are, in this order, acquire the slot lock, increment the value, wake every
thread parked on the slot's channel, release the slot lock; the lock is held whenever
the wake-up is issued and free at the end. The result and the state are those of
`sem_post`. -/
theorem sem_post_wakes_under_lock (i : Fin MAX_SEMAPHORES) (k : Kernel)
    (halloc : (k.semaphores i).allocated ≠ 0) :
    (sem_post_trace (i.val : Int) k).2.2
      = [Effect.acquire i, Effect.increment i, Effect.wakeup (Chan.sem i), Effect.release i] ∧
    (∀ (pre post : List Effect) (c : Chan),
      (sem_post_trace (i.val : Int) k).2.2 = pre ++ Effect.wakeup c :: post →
        lock_held i pre = true) ∧
    lock_held i (sem_post_trace (i.val : Int) k).2.2 = false ∧
    (sem_post_trace (i.val : Int) k).1 = (sem_post (i.val : Int) k).1 ∧
    (sem_post_trace (i.val : Int) k).2.1 = (sem_post (i.val : Int) k).2 := by
  have htrace := sem_post_trace_valid i k
  rw [if_neg halloc] at htrace
  refine ⟨htrace, ?_, ?_, (sem_post_trace_agrees _ k).1, (sem_post_trace_agrees _ k).2⟩
  · intro pre post c hsplit
    rw [htrace] at hsplit
    rcases pre with _ | ⟨a, _ | ⟨b, _ | ⟨c2, _ | ⟨d, pre⟩⟩⟩⟩
    · simp at hsplit
    · simp at hsplit
    · simp only [List.cons_append, List.nil_append, List.cons.injEq] at hsplit
      obtain ⟨ha, hb, _⟩ := hsplit
      rw [← ha, ← hb]
      simp [lock_held]
    · simp at hsplit
    · simp at hsplit
  · rw [htrace]
    simp [lock_held]

/-- C23 witness: a semaphore of value 0 at handle 0. -/
theorem sem_post_wakes_under_lock_witness :
    ((sem_init 0 boot).2.semaphores 0).allocated ≠ 0 ∧
    (sem_post_trace ((0 : Fin MAX_SEMAPHORES).val : Int) (sem_init 0 boot).2).2.2
      = [Effect.acquire 0, Effect.increment 0, Effect.wakeup (Chan.sem 0), Effect.release 0] :=
  ⟨by decide, (sem_post_wakes_under_lock 0 (sem_init 0 boot).2 (by decide)).1⟩

/-- C24: on a mapped buffer of `1 <= len <= 4096` bytes inside the 64-bit address
space, the memory left by the chunked loop of `sys_encrypt` is exactly the memory of the
single pass: each of the first `len` bytes XORed with `0x5A`, every other byte as it was. -/
theorem chunked_loop_is_single_pass (addr : Nat) (len : Int) (m : UserMem)
    (h1 : 1 ≤ len) (h2 : len ≤ 4096) (hwrap : addr + len.toNat ≤ 2 ^ 64)
    (hmap : ∀ j < len.toNat, m.mapped (addr + j) = true) :
    (sys_encrypt addr len m).2 = xor_single_pass addr len.toNat m := by
  obtain ⟨_, e2, e3⟩ := sys_encrypt_spec addr len m h1 h2 hwrap hmap
  have hext : ∀ x y : UserMem, x.byte = y.byte → x.mapped = y.mapped → x = y := by
    intro x y hb hm
    cases x
    cases y
    simp only at hb hm
    rw [hb, hm]
  apply hext
  · funext a
    rw [e3 a]
    simp only [xor_single_pass]
    by_cases ha : addr ≤ a ∧ a < addr + len.toNat
    · have ha2 : addr ≤ a ∧ a - addr < len.toNat := ⟨ha.1, by omega⟩
      rw [if_pos ha, if_pos ha2]
      apply Fin.ext
      have hlt : (m.byte a).val ^^^ ENCRYPT_KEY < 256 :=
        @Nat.xor_lt_two_pow _ _ 8 (m.byte a).isLt (by decide)
      simp only [xor_key]
      rw [Nat.mod_eq_of_lt hlt]
      rfl
    · have ha2 : ¬ (addr ≤ a ∧ a - addr < len.toNat) := by omega
      rw [if_neg ha, if_neg ha2]
  · rw [e2]
    rfl

/-- C24 witness: 1300 bytes at address 100, three chunks. -/
theorem chunked_loop_is_single_pass_witness :
    (1 : Int) ≤ 1300 ∧ (1300 : Int) ≤ 4096 ∧
    (sys_encrypt 100 1300 user_mem).2 = xor_single_pass 100 (1300 : Int).toNat user_mem :=
  ⟨by decide, by decide,
    chunked_loop_is_single_pass 100 1300 user_mem (by decide) (by decide) (by decide)
      (by
        intro j hj
        have h : (1300 : Int).toNat = 1300 := rfl
        rw [h] at hj
        simp only [user_mem, decide_eq_true_eq]
        omega)⟩

/-- C26: `sem_init` stores a start value `-n` with `n >= 0` as it is; and as long as the
semaphore is not destroyed, at every prefix of a sequence of steps in which some
`sem_wait` on its handle has returned `0`, at least `n + 1` calls of `sem_post` on the
handle have returned `0`. -/
theorem negative_start_value (n : Nat) (k0 : Kernel) (i : Fin MAX_SEMAPHORES)
    (ops : List Op)
    (hint : INT_MIN ≤ -(n : Int))
    (hcreate : (sem_init (-(n : Int)) k0).1 = (i.val : Int))
    (hnd : ∀ op ∈ ops, op ≠ Op.destroy (i.val : Int)) :
    (sem_init (-(n : Int)) k0).2.semaphores i = { value := -(n : Int), allocated := 1 } ∧
    ∀ m : Nat, 0 < wait_successes i (ops.take m) (sem_init (-(n : Int)) k0).2 →
      n + 1 ≤ post_successes i (ops.take m) (sem_init (-(n : Int)) k0).2 := by
  obtain ⟨_, hstate⟩ := sem_init_success (-(n : Int)) k0 i hcreate
  have hslot : (sem_init (-(n : Int)) k0).2.semaphores i
      = { value := -(n : Int), allocated := 1 } := by
    rw [hstate]
    simp [Kernel.store]
  refine ⟨hslot, ?_⟩
  intro m hw
  have := waits_need_posts i (ops.take m) (sem_init (-(n : Int)) k0).2 (-(n : Int))
    (by rw [hslot]; simp)
    (fun op hop => hnd op (List.mem_of_mem_take hop))
    (by rw [hslot]) hint (by omega) hw
  omega

/-- C26 witness: start value -2 at handle 0; thread 3 waits and parks, three posts
follow, then the resumed thread 3 returns. -/
theorem negative_start_value_witness :
    INT_MIN ≤ -((2 : Nat) : Int) ∧
    (sem_init (-((2 : Nat) : Int)) boot).1 = ((0 : Fin MAX_SEMAPHORES).val : Int) ∧
    (sem_init (-((2 : Nat) : Int)) boot).2.semaphores 0 = { value := -2, allocated := 1 } ∧
    0 < wait_successes 0 ([Op.wait 3 0, Op.post 0, Op.post 0, Op.post 0, Op.resume 3].take 5)
      (sem_init (-((2 : Nat) : Int)) boot).2 ∧
    2 + 1 ≤ post_successes 0 ([Op.wait 3 0, Op.post 0, Op.post 0, Op.post 0, Op.resume 3].take 5)
      (sem_init (-((2 : Nat) : Int)) boot).2 :=
  ⟨by decide, by decide,
    (negative_start_value 2 boot 0 [Op.wait 3 0, Op.post 0, Op.post 0, Op.post 0, Op.resume 3]
      (by decide) (by decide) (by decide)).1,
    by decide,
    (negative_start_value 2 boot 0 [Op.wait 3 0, Op.post 0, Op.post 0, Op.post 0, Op.resume 3]
      (by decide) (by decide) (by decide)).2 5 (by decide)⟩

/-- C21, as stated, fails twice. After `sys_buffer_init`, one `sys_produce` and one
`sys_consume` to an unmapped address, one produce and no consume have returned `0`
(the consume returns `-3`), yet `count` is 0 and `consumed_total` is 1. And after
`2^31` rounds of one produce and one consume, all returning `0`, `produced_total`
is `-2^31`. -/
theorem buffer_accounting_counterexample :
    ((buf_run [BufOp.produce 5, BufOp.consume 9000]
        ((sys_buffer_init stale_buf).2, user_mem)).1 = [0, -3] ∧
      produce_successes [BufOp.produce 5, BufOp.consume 9000]
        ((sys_buffer_init stale_buf).2, user_mem) = 1 ∧
      consume_successes [BufOp.produce 5, BufOp.consume 9000]
        ((sys_buffer_init stale_buf).2, user_mem) = 0 ∧
      (buf_run [BufOp.produce 5, BufOp.consume 9000]
        ((sys_buffer_init stale_buf).2, user_mem)).2.1.count = 0 ∧
      (buf_run [BufOp.produce 5, BufOp.consume 9000]
        ((sys_buffer_init stale_buf).2, user_mem)).2.1.consumed_total = 1) ∧
    (produce_successes (produce_consume_rounds 2147483648)
        ((sys_buffer_init stale_buf).2, user_mem) = 2147483648 ∧
      (buf_run (produce_consume_rounds 2147483648)
        ((sys_buffer_init stale_buf).2, user_mem)).2.1.produced_total = -2147483648) := by
  refine ⟨by decide, ?_⟩
  obtain ⟨r1, _, r3⟩ := produce_consume_rounds_spec 2147483648
    ((sys_buffer_init stale_buf).2, user_mem) (by decide) rfl (by decide) (by decide)
    (by decide)
  refine ⟨r1, ?_⟩
  rw [r3]
  decide

/-- C21 (amended): after `sys_buffer_init`, along a sequence of `sys_produce` and
`sys_consume` calls of which `p` produces and `c` consumes returned `0`, none returned
`-3` and `p <= 2^31 - 1`: `count = p - c`, `produced_total = p`, `consumed_total = c`
and `0 <= count <= 10`; and `sys_buffer_status` with mapped destinations returns `0`
and copies out exactly these three values. -/
theorem buffer_accounting (s0 : SharedBuf) (m0 : UserMem) (ops : List BufOp)
    (ca pa xa : Nat)
    (hops : ∀ op ∈ ops, op ≠ BufOp.binit)
    (hcopy : (-3 : Int) ∉ (buf_run ops ((sys_buffer_init s0).2, m0)).1)
    (hmax : (produce_successes ops ((sys_buffer_init s0).2, m0) : Int) ≤ INT_MAX) :
    (buf_run ops ((sys_buffer_init s0).2, m0)).2.1.count
      = (produce_successes ops ((sys_buffer_init s0).2, m0) : Int)
        - (consume_successes ops ((sys_buffer_init s0).2, m0) : Int) ∧
    (buf_run ops ((sys_buffer_init s0).2, m0)).2.1.produced_total
      = (produce_successes ops ((sys_buffer_init s0).2, m0) : Int) ∧
    (buf_run ops ((sys_buffer_init s0).2, m0)).2.1.consumed_total
      = (consume_successes ops ((sys_buffer_init s0).2, m0) : Int) ∧
    0 ≤ (buf_run ops ((sys_buffer_init s0).2, m0)).2.1.count ∧
    (buf_run ops ((sys_buffer_init s0).2, m0)).2.1.count ≤ 10 ∧
    ((∀ j < 4, (buf_run ops ((sys_buffer_init s0).2, m0)).2.2.mapped (ca + j) = true) →
      (∀ j < 4, (buf_run ops ((sys_buffer_init s0).2, m0)).2.2.mapped (pa + j) = true) →
      (∀ j < 4, (buf_run ops ((sys_buffer_init s0).2, m0)).2.2.mapped (xa + j) = true) →
      sys_buffer_status ca pa xa (buf_run ops ((sys_buffer_init s0).2, m0)).2.1
          (buf_run ops ((sys_buffer_init s0).2, m0)).2.2
        = (0, (((buf_run ops ((sys_buffer_init s0).2, m0)).2.2.write ca
              (int_bytes ((produce_successes ops ((sys_buffer_init s0).2, m0) : Int)
                - (consume_successes ops ((sys_buffer_init s0).2, m0) : Int)))).write pa
              (int_bytes (produce_successes ops ((sys_buffer_init s0).2, m0) : Int))).write xa
              (int_bytes (consume_successes ops ((sys_buffer_init s0).2, m0) : Int)))) := by
  obtain ⟨b1, b2, b3, b4, b5⟩ := buf_run_accounting ops ((sys_buffer_init s0).2, m0) hops
    (by simp [sys_buffer_init]) (by simp [sys_buffer_init]) (by simp [sys_buffer_init])
    (by simp [sys_buffer_init]) (by simp [sys_buffer_init]) hcopy
    (by simpa [sys_buffer_init] using hmax)
  have p0 : ((sys_buffer_init s0).2, m0).1.produced_total = 0 := rfl
  have c0 : ((sys_buffer_init s0).2, m0).1.consumed_total = 0 := rfl
  rw [p0, zero_add] at b1
  rw [c0, zero_add] at b2
  have hcount : (buf_run ops ((sys_buffer_init s0).2, m0)).2.1.count
      = (produce_successes ops ((sys_buffer_init s0).2, m0) : Int)
        - (consume_successes ops ((sys_buffer_init s0).2, m0) : Int) := by
    rw [b3, b1, b2]
  refine ⟨hcount, b1, b2, b4, b5, ?_⟩
  intro hc hp hx
  rw [sys_buffer_status_mapped ca pa xa _ _ hc hp hx, hcount, b1, b2]

/-- C21 witness: the test's five produces and three consumes, reported as 2/5/3. -/
theorem buffer_accounting_witness :
    (∀ op ∈ [BufOp.produce 10, BufOp.produce 20, BufOp.produce 30, BufOp.produce 40,
        BufOp.produce 50, BufOp.consume 16, BufOp.consume 16, BufOp.consume 16],
      op ≠ BufOp.binit) ∧
    (-3 : Int) ∉ (buf_run [BufOp.produce 10, BufOp.produce 20, BufOp.produce 30,
        BufOp.produce 40, BufOp.produce 50, BufOp.consume 16, BufOp.consume 16,
        BufOp.consume 16] ((sys_buffer_init stale_buf).2, user_mem)).1 ∧
    produce_successes [BufOp.produce 10, BufOp.produce 20, BufOp.produce 30,
        BufOp.produce 40, BufOp.produce 50, BufOp.consume 16, BufOp.consume 16,
        BufOp.consume 16] ((sys_buffer_init stale_buf).2, user_mem) = 5 ∧
    consume_successes [BufOp.produce 10, BufOp.produce 20, BufOp.produce 30,
        BufOp.produce 40, BufOp.produce 50, BufOp.consume 16, BufOp.consume 16,
        BufOp.consume 16] ((sys_buffer_init stale_buf).2, user_mem) = 3 ∧
    (buf_run [BufOp.produce 10, BufOp.produce 20, BufOp.produce 30,
        BufOp.produce 40, BufOp.produce 50, BufOp.consume 16, BufOp.consume 16,
        BufOp.consume 16] ((sys_buffer_init stale_buf).2, user_mem)).2.1.count
      = (produce_successes [BufOp.produce 10, BufOp.produce 20, BufOp.produce 30,
          BufOp.produce 40, BufOp.produce 50, BufOp.consume 16, BufOp.consume 16,
          BufOp.consume 16] ((sys_buffer_init stale_buf).2, user_mem) : Int)
        - (consume_successes [BufOp.produce 10, BufOp.produce 20, BufOp.produce 30,
          BufOp.produce 40, BufOp.produce 50, BufOp.consume 16, BufOp.consume 16,
          BufOp.consume 16] ((sys_buffer_init stale_buf).2, user_mem) : Int) :=
  ⟨by decide, by decide, by decide, by decide,
    (buffer_accounting stale_buf user_mem
      [BufOp.produce 10, BufOp.produce 20, BufOp.produce 30, BufOp.produce 40,
        BufOp.produce 50, BufOp.consume 16, BufOp.consume 16, BufOp.consume 16]
      100 104 108 (by decide) (by decide) (by decide)).1⟩

/-- C25, as stated, fails: after `sys_buffer_init`, the items 1 and 2 are produced, a
`sys_consume` to an unmapped address returns `-3` and takes item 1 with it, and the
first `sys_consume` that returns `0` delivers item 2, not the item of the first
successful `sys_produce`. -/
theorem buffer_fifo_counterexample :
    (buf_run [BufOp.produce 1, BufOp.produce 2, BufOp.consume 9000, BufOp.consume 16]
      ((sys_buffer_init stale_buf).2, user_mem)).1 = [0, 0, -3, 0] ∧
    produced_items [BufOp.produce 1, BufOp.produce 2, BufOp.consume 9000, BufOp.consume 16]
      ((sys_buffer_init stale_buf).2, user_mem) = [1, 2] ∧
    delivered [BufOp.produce 1, BufOp.produce 2, BufOp.consume 9000, BufOp.consume 16]
      ((sys_buffer_init stale_buf).2, user_mem) = [int_bytes 2] ∧
    (delivered [BufOp.produce 1, BufOp.produce 2, BufOp.consume 9000, BufOp.consume 16]
      ((sys_buffer_init stale_buf).2, user_mem))[0]? ≠ some (int_bytes 1) := by
  decide

/-- C25 (amended): after `sys_buffer_init`, along a sequence of `sys_produce` and
`sys_consume` calls in which no `sys_consume` returns `-3`, the `k`-th `sys_consume`
that returns `0` delivers, as four bytes, the item passed to the `k`-th `sys_produce`
that returned `0`. And after `sys_buffer_init` followed by any sequence of calls,
`in = (out + count) mod 10`. -/
theorem buffer_fifo (s0 : SharedBuf) (m0 : UserMem) (ops : List BufOp)
    (hops : ∀ op ∈ ops, op ≠ BufOp.binit)
    (hcopy : (-3 : Int) ∉ (buf_run ops ((sys_buffer_init s0).2, m0)).1) :
    (∀ (k : Nat) (bytes : List (Fin 256)),
      (delivered ops ((sys_buffer_init s0).2, m0))[k]? = some bytes →
      ∃ item : Int, (produced_items ops ((sys_buffer_init s0).2, m0))[k]? = some item ∧
        bytes = int_bytes item) ∧
    (delivered ops ((sys_buffer_init s0).2, m0)).length
      = consume_successes ops ((sys_buffer_init s0).2, m0) ∧
    (produced_items ops ((sys_buffer_init s0).2, m0)).length
      = produce_successes ops ((sys_buffer_init s0).2, m0) ∧
    (∀ ops2 : List BufOp,
      (buf_run ops2 ((sys_buffer_init s0).2, m0)).2.1.in_
        = ((buf_run ops2 ((sys_buffer_init s0).2, m0)).2.1.out
            + (buf_run ops2 ((sys_buffer_init s0).2, m0)).2.1.count) % 10) := by
  have hinv : fifo_inv ((sys_buffer_init s0).2, m0).1 [] := by
    refine ⟨by simp [sys_buffer_init], by simp [sys_buffer_init], by simp [sys_buffer_init],
      by simp [sys_buffer_init], by simp, by simp [sys_buffer_init], ?_⟩
    intro k hk
    simp at hk
  obtain ⟨q2, _, hq2⟩ := buf_run_fifo ops ((sys_buffer_init s0).2, m0) [] hinv hops hcopy
  rw [List.nil_append] at hq2
  refine ⟨?_, delivered_length ops _, produced_items_length ops _, ?_⟩
  · intro k bytes hk
    have hlt : k < (delivered ops ((sys_buffer_init s0).2, m0)).length := by
      by_contra hge
      rw [List.getElem?_eq_none (by omega)] at hk
      exact absurd hk (by simp)
    have h1 : ((produced_items ops ((sys_buffer_init s0).2, m0)).map int_bytes)[k]?
        = some bytes := by
      rw [hq2, List.getElem?_append_left hlt]
      exact hk
    rw [List.getElem?_map] at h1
    cases hitem : (produced_items ops ((sys_buffer_init s0).2, m0))[k]? with
    | none =>
      rw [hitem] at h1
      exact absurd h1 (by simp)
    | some item =>
      rw [hitem] at h1
      simp only [Option.map_some', Option.some.injEq] at h1
      exact ⟨item, rfl, h1.symm⟩
  · intro ops2
    exact (buf_run_index ops2 ((sys_buffer_init s0).2, m0)
      (by simp only [sys_buffer_init]; decide)).2.2.2.2

/-- C25 witness: three items produced, one consumed, one more produced, two consumed. -/
theorem buffer_fifo_witness :
    (∀ op ∈ [BufOp.produce 10, BufOp.produce 20, BufOp.produce 30, BufOp.consume 16,
        BufOp.produce 40, BufOp.consume 20, BufOp.consume 24], op ≠ BufOp.binit) ∧
    (-3 : Int) ∉ (buf_run [BufOp.produce 10, BufOp.produce 20, BufOp.produce 30,
        BufOp.consume 16, BufOp.produce 40, BufOp.consume 20, BufOp.consume 24]
        ((sys_buffer_init stale_buf).2, user_mem)).1 ∧
    (delivered [BufOp.produce 10, BufOp.produce 20, BufOp.produce 30,
        BufOp.consume 16, BufOp.produce 40, BufOp.consume 20, BufOp.consume 24]
        ((sys_buffer_init stale_buf).2, user_mem))[2]? = some (int_bytes 30) ∧
    ∃ item : Int,
      (produced_items [BufOp.produce 10, BufOp.produce 20, BufOp.produce 30,
        BufOp.consume 16, BufOp.produce 40, BufOp.consume 20, BufOp.consume 24]
        ((sys_buffer_init stale_buf).2, user_mem))[2]? = some item ∧
      int_bytes 30 = int_bytes item :=
  ⟨by decide, by decide, by decide,
    (buffer_fifo stale_buf user_mem
      [BufOp.produce 10, BufOp.produce 20, BufOp.produce 30, BufOp.consume 16,
        BufOp.produce 40, BufOp.consume 20, BufOp.consume 24]
      (by decide) (by decide)).1 2 (int_bytes 30) (by decide)⟩

end Xv6
